import Mathlib

/-!
# SwiftShader compute dispatch (`src/Pipeline/ComputeProgram.cpp`)

A shallow embedding of `sw::ComputeProgram`: the builtin resolver
(`setInputBuiltin`, `setWorkgroupBuiltins`, `setSubgroupBuiltins`), the lane
decomposition, the subgroup loop of `emit`, and the dispatch driver `run` with
its coroutine queue.

Conventions of the embedding.

* Reactor values (`Int`, `Int4`, `SIMD::Int`) are declared outside the translated
  sources; their lanes are modelled as mathematical integers (`ℤ`), with the
  truncating division of C++ (`Int.tdiv`). The statements about them therefore hold
  for values whose arithmetic stays within the range of a lane.
* `As<SIMD::Float>(v)` is a bit cast: a float slot is modelled by the integer
  lanes whose bit pattern it holds.
* `uint32_t` arithmetic in `run` is modelled on `ℕ` with an explicit
  `% 2 ^ 32` where the source can wrap.
* `ASSERT` is modelled as a fatal check: a failed assertion yields `none`.
-/

namespace sw

/-! ## Reactor vectors -/

/-- The anonymous enum `{ X, Y, Z }` of component selectors. -/
def X : Nat := 0

/-- Component selector `Y`. -/
def Y : Nat := 1

/-- Component selector `Z`. -/
def Z : Nat := 2

/-- Modelled from the spec: Reactor's `Int4` (and `SIMD::Int`, the same type) is declared
outside the translated sources. It is the SIMD vector of the spec, one integer per lane;
the four lanes are those of the constructor calls `SIMD::Int(0, 1, 2, 3)` in the source. -/
structure Int4 where
  x : Int
  y : Int
  z : Int
  w : Int
deriving DecidableEq, Repr

namespace SIMD

/-- The type `SIMD::Int` is the four-lane integer vector. -/
abbrev Int := Int4

/-- Modelled from the spec: the constant `SIMD::Width` is declared outside the
translated sources. The spec fixes SIMD width 4, and the source builds every lane
pattern with the four-argument constructor `SIMD::Int(0, 1, 2, 3)`. -/
def Width : Nat := 4

end SIMD

/-- Constructor `Int4(a)` / `SIMD::Int(a)`: the scalar replicated to every lane. -/
def Int4.broadcast (a : Int) : Int4 := ⟨a, a, a, a⟩

/-- Reactor `Extract(v, i)`: lane `i` of the vector (lanes are `0..3`). -/
def Extract (v : Int4) (i : Nat) : Int :=
  match i with
  | 0 => v.x
  | 1 => v.y
  | 2 => v.z
  | 3 => v.w
  | _ => 0

/-- Reactor `Insert(v, a, i)`: the vector with lane `i` replaced by `a`. -/
def Insert (v : Int4) (a : Int) (i : Nat) : Int4 :=
  match i with
  | 0 => { v with x := a }
  | 1 => { v with y := a }
  | 2 => { v with z := a }
  | 3 => { v with w := a }
  | _ => v

/-- Lane-wise application of a binary operation. -/
def Int4.zipWith (f : Int → Int → Int) (a b : Int4) : Int4 :=
  ⟨f a.x b.x, f a.y b.y, f a.z b.z, f a.w b.w⟩

instance : Add Int4 := ⟨Int4.zipWith (· + ·)⟩

instance : Sub Int4 := ⟨Int4.zipWith (· - ·)⟩

instance : Mul Int4 := ⟨Int4.zipWith (· * ·)⟩

/-- Lane-wise signed division, truncating toward zero as in C++. A zero divisor
is undefined in the source; here the lane evaluates to `0`. -/
instance : Div Int4 := ⟨Int4.zipWith Int.tdiv⟩

/-- Reactor `CmpLT(a, b)`: each lane is all ones (`-1`) where `a < b`, else `0`. -/
def CmpLT (a b : Int4) : Int4 :=
  Int4.zipWith (fun p q => if p < q then -1 else 0) a b

/-- A lane of a mask is active when it is non-zero. -/
def laneActive (mask : Int4) (lane : Nat) : Bool :=
  Extract mask lane != 0

/-! ## Shader metadata and routine state -/

/-- The members of `spv::BuiltIn` that `ComputeProgram` resolves. -/
inductive BuiltIn where
  | NumWorkgroups
  | WorkgroupId
  | WorkgroupSize
  | NumSubgroups
  | SubgroupSize
  | SubgroupLocalInvocationId
  | DeviceIndex
  | LocalInvocationIndex
  | SubgroupId
  | LocalInvocationId
  | GlobalInvocationId
deriving DecidableEq, Repr

/-- Type `SpirvShader::BuiltinMapping`: the variable and the component range that
hold a builtin. -/
structure BuiltinMapping where
  Id : Nat
  FirstComponent : Nat
  SizeInComponents : Nat
deriving DecidableEq, Repr

/-- Type `SpirvShader::Modes`, restricted to the fields read by `ComputeProgram`. -/
structure Modes where
  WorkgroupSizeX : Nat
  WorkgroupSizeY : Nat
  WorkgroupSizeZ : Nat
  ContainsControlBarriers : Bool
deriving DecidableEq, Repr

/-- The parts of `SpirvShader` read by `ComputeProgram`. The map `inputBuiltins`
is given by its lookup (`find`); `workgroupMemory` is the declared size in bytes. -/
structure SpirvShader where
  inputBuiltins : BuiltIn → Option BuiltinMapping
  modes : Modes
  workgroupMemory : Nat

/-- A Reactor `Array<SIMD::Float>`: slot index to lanes. -/
abbrev Variable := Nat → SIMD.Int

/-- Assignment `value[i] = v`. -/
def Variable.set (value : Variable) (i : Nat) (v : SIMD.Int) : Variable :=
  fun j => if j = i then v else value j

/-- The variables of a `SpirvRoutine`, by object id. -/
structure SpirvRoutine where
  vars : Nat → Variable

/-- Method `routine->getVariable(id)`. -/
def SpirvRoutine.getVariable (routine : SpirvRoutine) (id : Nat) : Variable :=
  routine.vars id

/-- Write back of the variable that `getVariable` returned by reference. -/
def SpirvRoutine.setVariable (routine : SpirvRoutine) (id : Nat) (value : Variable) :
    SpirvRoutine :=
  ⟨fun k => if k = id then value else routine.vars k⟩

/-- The numeric fields of `ComputeProgram::Data`. -/
structure Data where
  numWorkgroups : Int4
  workgroupSize : Int4
  invocationsPerSubgroup : Int
  subgroupsPerWorkgroup : Int
  invocationsPerWorkgroup : Int
deriving DecidableEq, Repr

/-- Modelled from the spec: the macro `ASSERT` is defined outside the translated sources;
the spec makes a failed assertion fatal, so the check yields `none` on a false condition. -/
def ASSERT (c : Bool) : Option Unit :=
  if c then some () else none

/-! ## Builtin resolver -/

/-- Function `ComputeProgram::setInputBuiltin`: when the shader declares `id`,
run the producer `cb` on the variable named by the mapping. -/
def setInputBuiltin (shader : SpirvShader) (routine : SpirvRoutine) (id : BuiltIn)
    (cb : BuiltinMapping → Variable → Option Variable) : Option SpirvRoutine :=
  match shader.inputBuiltins id with
  | some builtin =>
    match cb builtin (routine.getVariable builtin.Id) with
    | some value => some (routine.setVariable builtin.Id value)
    | none => none
  | none => some routine

/-- The component loop shared by the multi-component producers:
`for (component = 0; component < builtin.SizeInComponents; component++)
   value[builtin.FirstComponent + component] = f component`. -/
def forComponents (builtin : BuiltinMapping) (f : Nat → SIMD.Int) (value : Variable) :
    Variable :=
  (List.range builtin.SizeInComponents).foldl
    (fun v component => v.set (builtin.FirstComponent + component) (f component)) value

/-- The body shared by the single-component producers:
`ASSERT(builtin.SizeInComponents == 1); value[builtin.FirstComponent] = v`. -/
def singleComponent (builtin : BuiltinMapping) (v : SIMD.Int) (value : Variable) :
    Option Variable :=
  match ASSERT (builtin.SizeInComponents == 1) with
  | some _ => some (value.set builtin.FirstComponent v)
  | none => none

/-- The array `Int workgroupID[3]`, read at `component`. -/
def workgroupIDAt (workgroupID : Int × Int × Int) (component : Nat) : Int :=
  match component with
  | 0 => workgroupID.1
  | 1 => workgroupID.2.1
  | 2 => workgroupID.2.2
  | _ => 0

/-- Function `ComputeProgram::setWorkgroupBuiltins`. -/
def setWorkgroupBuiltins (shader : SpirvShader) (data : Data) (routine : SpirvRoutine)
    (workgroupID : Int × Int × Int) : Option SpirvRoutine := do
  let routine ← setInputBuiltin shader routine BuiltIn.NumWorkgroups fun builtin value =>
    let numWorkgroups := data.numWorkgroups
    some (forComponents builtin
      (fun component => Int4.broadcast (Extract numWorkgroups component)) value)
  let routine ← setInputBuiltin shader routine BuiltIn.WorkgroupId fun builtin value =>
    some (forComponents builtin
      (fun component => Int4.broadcast (workgroupIDAt workgroupID component)) value)
  let routine ← setInputBuiltin shader routine BuiltIn.WorkgroupSize fun builtin value =>
    let workgroupSize := data.workgroupSize
    some (forComponents builtin
      (fun component => Int4.broadcast (Extract workgroupSize component)) value)
  let routine ← setInputBuiltin shader routine BuiltIn.NumSubgroups fun builtin value =>
    let subgroupsPerWorkgroup := data.subgroupsPerWorkgroup
    singleComponent builtin (Int4.broadcast subgroupsPerWorkgroup) value
  let routine ← setInputBuiltin shader routine BuiltIn.SubgroupSize fun builtin value =>
    let invocationsPerSubgroup := data.invocationsPerSubgroup
    singleComponent builtin (Int4.broadcast invocationsPerSubgroup) value
  let routine ← setInputBuiltin shader routine BuiltIn.SubgroupLocalInvocationId
    fun builtin value => singleComponent builtin ⟨0, 1, 2, 3⟩ value
  setInputBuiltin shader routine BuiltIn.DeviceIndex
    fun builtin value => singleComponent builtin ⟨0, 0, 0, 0⟩ value

/-- The block of `setSubgroupBuiltins` that fills `SIMD::Int localInvocationID[3]`
from the lane indices, read at `component`. -/
def localInvocationID (workgroupSize : Int4) (localInvocationIndex : SIMD.Int)
    (component : Nat) : SIMD.Int :=
  let workgroupSizeX := Extract workgroupSize X
  let workgroupSizeY := Extract workgroupSize Y
  let idx := localInvocationIndex
  let idZ := idx / Int4.broadcast (workgroupSizeX * workgroupSizeY)
  let idx := idx - idZ * Int4.broadcast (workgroupSizeX * workgroupSizeY)
  let idY := idx / Int4.broadcast workgroupSizeX
  let idx := idx - idY * Int4.broadcast workgroupSizeX
  let idX := idx
  match component with
  | 0 => idX
  | 1 => idY
  | 2 => idZ
  | _ => Int4.broadcast 0

/-- Function `ComputeProgram::setSubgroupBuiltins`. -/
def setSubgroupBuiltins (shader : SpirvShader) (data : Data) (routine : SpirvRoutine)
    (workgroupID : Int × Int × Int) (localInvocationIndex : SIMD.Int) (subgroupIndex : Int) :
    Option SpirvRoutine := do
  let workgroupSize := data.workgroupSize
  let routine ← setInputBuiltin shader routine BuiltIn.LocalInvocationIndex
    fun builtin value => singleComponent builtin localInvocationIndex value
  let routine ← setInputBuiltin shader routine BuiltIn.SubgroupId
    fun builtin value => singleComponent builtin (Int4.broadcast subgroupIndex) value
  let routine ← setInputBuiltin shader routine BuiltIn.LocalInvocationId fun builtin value =>
    some (forComponents builtin
      (fun component => localInvocationID workgroupSize localInvocationIndex component) value)
  setInputBuiltin shader routine BuiltIn.GlobalInvocationId fun builtin value =>
    let wgID : SIMD.Int := Int4.broadcast 0
    let wgID := Insert wgID (workgroupIDAt workgroupID X) X
    let wgID := Insert wgID (workgroupIDAt workgroupID Y) Y
    let wgID := Insert wgID (workgroupIDAt workgroupID Z) Z
    let localBase := workgroupSize * wgID
    some (forComponents builtin
      (fun component => Int4.broadcast (Extract localBase component) +
        localInvocationID workgroupSize localInvocationIndex component) value)

/-- One call `shader->emit(routine, activeLaneMask, descriptorSets)`: the routine
state and the lane mask the shader body is run with. -/
structure ShaderCall where
  routine : SpirvRoutine
  activeLaneMask : SIMD.Int

/-- The lane indices of a subgroup in `emit`:
`SIMD::Int(subgroupIndex * SIMD::Width) + SIMD::Int(0, 1, 2, 3)`. -/
def subgroupLocalInvocationIndex (subgroupIndex : Int) : SIMD.Int :=
  Int4.broadcast (subgroupIndex * (SIMD.Width : Int)) + ⟨0, 1, 2, 3⟩

/-- The loop `For(Int i = 0, i < subgroupCount, i++)` of `emit`; `n` is the number
of iterations left. The shader body is external: each call is recorded. -/
def emitSubgroups (shader : SpirvShader) (data : Data) (workgroupID : Int × Int × Int)
    (firstSubgroup : Int) : Nat → Int → SpirvRoutine → Option (List ShaderCall)
  | 0, _, _ => some []
  | n + 1, i, routine =>
    let subgroupIndex := firstSubgroup + i
    let localInvocationIndex := subgroupLocalInvocationIndex subgroupIndex
    let activeLaneMask :=
      CmpLT localInvocationIndex (Int4.broadcast data.invocationsPerWorkgroup)
    match setSubgroupBuiltins shader data routine workgroupID localInvocationIndex
        subgroupIndex with
    | none => none
    | some routine =>
      match emitSubgroups shader data workgroupID firstSubgroup n (i + 1) routine with
      | none => none
      | some calls => some (⟨routine, activeLaneMask⟩ :: calls)

/-- Function `ComputeProgram::emit`, from the routine state left by the prolog:
the calls of the shader body, in order. -/
def emit (shader : SpirvShader) (data : Data) (routine : SpirvRoutine)
    (workgroupX workgroupY workgroupZ : Int) (firstSubgroup subgroupCount : Int) :
    Option (List ShaderCall) :=
  let workgroupID := (workgroupX, workgroupY, workgroupZ)
  match setWorkgroupBuiltins shader data routine workgroupID with
  | none => none
  | some routine =>
    emitSubgroups shader data workgroupID firstSubgroup subgroupCount.toNat 0 routine

/-- A producer that only assigns slots of the component range of its mapping. -/
def WritesWithin (cb : BuiltinMapping → Variable → Option Variable) : Prop :=
  ∀ builtin value value', cb builtin value = some value' →
    ∀ k, (k < builtin.FirstComponent ∨
      builtin.FirstComponent + builtin.SizeInComponents ≤ k) → value' k = value k

/-- The builtin mappings of the shader occupy pairwise disjoint slots, as distinct
input variables (or distinct members of one block) do. -/
def DisjointBuiltins (shader : SpirvShader) : Prop :=
  ∀ id₁ id₂ b₁ b₂, id₁ ≠ id₂ → shader.inputBuiltins id₁ = some b₁ →
    shader.inputBuiltins id₂ = some b₂ →
    b₁.Id ≠ b₂.Id ∨ b₁.FirstComponent + b₁.SizeInComponents ≤ b₂.FirstComponent ∨
      b₂.FirstComponent + b₂.SizeInComponents ≤ b₁.FirstComponent

/-! ## Dispatch driver -/

/-- The local `invocationsPerSubgroup` of `run`. -/
def invocationsPerSubgroup : Nat := SIMD.Width

/-- The local `invocationsPerWorkgroup` of `run`. -/
def invocationsPerWorkgroup (modes : Modes) : Nat :=
  modes.WorkgroupSizeX * modes.WorkgroupSizeY * modes.WorkgroupSizeZ

/-- The local `subgroupsPerWorkgroup` of `run`. -/
def subgroupsPerWorkgroup (modes : Modes) : Nat :=
  (invocationsPerWorkgroup modes + invocationsPerSubgroup - 1) / invocationsPerSubgroup

/-- Assembly of the record `Data data` in `run`. -/
def dispatchData (modes : Modes) (groupCountX groupCountY groupCountZ : Nat) : Data where
  numWorkgroups := ⟨groupCountX, groupCountY, groupCountZ, 0⟩
  workgroupSize := ⟨modes.WorkgroupSizeX, modes.WorkgroupSizeY, modes.WorkgroupSizeZ, 0⟩
  invocationsPerSubgroup := invocationsPerSubgroup
  invocationsPerWorkgroup := invocationsPerWorkgroup modes
  subgroupsPerWorkgroup := subgroupsPerWorkgroup modes

/-- The arguments of one call
`(*this)(&data, groupX, groupY, groupZ, workgroupMemory.data(), firstSubgroup, subgroupCount)`.
The buffer pointer is the one buffer of the dispatch, held in `Machine`. -/
structure Invocation where
  data : Data
  groupX : Nat
  groupY : Nat
  groupZ : Nat
  firstSubgroup : Nat
  subgroupCount : Nat
deriving DecidableEq, Repr

/-- The memory a coroutine can touch: the workgroup buffer of the dispatch (cell by
cell) and the resources bound through the descriptor sets. -/
structure Machine (ρ : Type) where
  workgroupMemory : List Nat
  resources : ρ

/-- The generated routine as `run` uses it. `call` is `operator()`, which creates
a coroutine from its arguments without running it; `await` resumes a coroutine and
returns `true` when it yielded at a barrier and `false` when it completed. -/
structure ComputeProgram (U ρ : Type) where
  shader : SpirvShader
  call : Invocation → U
  await : U → Machine ρ → Bool × U × Machine ρ

/-- A counted loop `for (i = start; i < bound; i++) body`, from the current `i`. -/
def forLoop {m : Type → Type} [Monad m] {σ : Type} (bound : Nat) (body : Nat → σ → m σ)
    (i : Nat) (s : σ) : m σ :=
  if i < bound then body i s >>= fun s' => forLoop bound body (i + 1) s' else pure s
termination_by bound - i

/-- The coroutines `run` creates for one workgroup, as the arguments of their calls, in
queue order. -/
def createCoroutines (modes : Modes) (data : Data) (groupX groupY groupZ : Nat) :
    List Invocation :=
  if modes.ContainsControlBarriers then
    Id.run (forLoop (subgroupsPerWorkgroup modes)
      (fun subgroupIndex coroutines =>
        pure (coroutines ++ [⟨data, groupX, groupY, groupZ, subgroupIndex, 1⟩])) 0 [])
  else
    [⟨data, groupX, groupY, groupZ, 0, subgroupsPerWorkgroup modes⟩]

/-- The loop `while (coroutines.size() > 0)` of `run`: pop the front coroutine, resume
it, and push it back when it yielded. The result is `some` exactly when the loop exits,
which it does only on an empty queue; it lists the coroutines in the order they were
resumed (each as it was when resumed) and the memory left. `none`: the loop is still
running after `fuel` resumptions. -/
def drainQueue {U ρ : Type} (await : U → Machine ρ → Bool × U × Machine ρ) :
    Nat → List U → Machine ρ → Option (List U × Machine ρ)
  | _, [], m => some ([], m)
  | 0, _ :: _, _ => none
  | fuel + 1, coroutine :: coroutines, m =>
    match await coroutine m with
    | (true, coroutine', m') =>
      match drainQueue await fuel (coroutines ++ [coroutine']) m' with
      | some (resumed, m'') => some (coroutine :: resumed, m'')
      | none => none
    | (false, _, m') =>
      match drainQueue await fuel coroutines m' with
      | some (resumed, m'') => some (coroutine :: resumed, m'')
      | none => none

/-- What `run` did for one workgroup: its coordinates, the coroutines created, and the
resumptions in order. -/
structure WorkgroupTrace (U : Type) where
  groupX : Nat
  groupY : Nat
  groupZ : Nat
  created : List Invocation
  resumed : List U

/-- The body of the innermost loop of `run`: create the coroutines of the workgroup and
drain the queue. -/
def scheduleWorkgroup {U ρ : Type} (prog : ComputeProgram U ρ) (fuel : Nat) (data : Data)
    (groupX groupY groupZ : Nat) (m : Machine ρ) : Option (WorkgroupTrace U × Machine ρ) :=
  let created := createCoroutines prog.shader.modes data groupX groupY groupZ
  match drainQueue prog.await fuel (created.map prog.call) m with
  | some (resumed, m') => some (⟨groupX, groupY, groupZ, created, resumed⟩, m')
  | none => none

/-- The progress of a dispatch: the workgroups processed so far and the memory. -/
structure RunState (U ρ : Type) where
  traces : List (WorkgroupTrace U)
  machine : Machine ρ

/-- One iteration of the innermost loop of `run`, on the progress of the dispatch. -/
def runWorkgroup {U ρ : Type} (prog : ComputeProgram U ρ) (fuel : Nat) (data : Data)
    (groupX groupY groupZ : Nat) (st : RunState U ρ) : Option (RunState U ρ) :=
  match scheduleWorkgroup prog fuel data groupX groupY groupZ st.machine with
  | some (trace, m') => some ⟨st.traces ++ [trace], m'⟩
  | none => none

/-- Function `ComputeProgram::run`. The group coordinates are `uint32_t`: each loop
bound `base + count` wraps modulo `2 ^ 32`; the increment cannot wrap, as the counter is
below the bound. `fuel` bounds the resumptions of one workgroup. -/
def run {U ρ : Type} (prog : ComputeProgram U ρ) (fuel : Nat) (resources : ρ)
    (baseGroupX baseGroupY baseGroupZ groupCountX groupCountY groupCountZ : Nat) :
    Option (RunState U ρ) :=
  let modes := prog.shader.modes
  let workgroupMemory : List Nat := List.replicate prog.shader.workgroupMemory 0
  let data := dispatchData modes groupCountX groupCountY groupCountZ
  forLoop ((baseGroupZ + groupCountZ) % 2 ^ 32) (fun groupZ st =>
    forLoop ((baseGroupY + groupCountY) % 2 ^ 32) (fun groupY st =>
      forLoop ((baseGroupX + groupCountX) % 2 ^ 32) (fun groupX st =>
        runWorkgroup prog fuel data groupX groupY groupZ st) baseGroupX st) baseGroupY st)
    baseGroupZ ⟨[], ⟨workgroupMemory, resources⟩⟩

/-! ## Coroutine models for the scheduler claims -/

/-- A coroutine that yields at `remaining` more barriers and then completes. -/
structure BarrierUnit where
  subgroup : Nat
  remaining : Nat
deriving DecidableEq, Repr

/-- Resumption of a `BarrierUnit`: `suspended` while barriers remain, then `completed`.
It touches no memory. -/
def BarrierUnit.await {ρ : Type} (u : BarrierUnit) (m : Machine ρ) :
    Bool × BarrierUnit × Machine ρ :=
  match u.remaining with
  | 0 => (false, u, m)
  | r + 1 => (true, ⟨u.subgroup, r⟩, m)

/-- A program whose coroutine for first subgroup `i` reaches `barriers i` barriers. -/
def barrierProgram (ρ : Type) (shader : SpirvShader) (barriers : Nat → Nat) :
    ComputeProgram BarrierUnit ρ where
  shader := shader
  call := fun inv => ⟨inv.firstSubgroup, barriers inv.firstSubgroup⟩
  await := BarrierUnit.await

/-- The queue of units `0, 1, ..` (from `i`) with the listed barrier counts. -/
def barrierUnits : Nat → List Nat → List BarrierUnit
  | _, [] => []
  | i, b :: bs => ⟨i, b⟩ :: barrierUnits (i + 1) bs

/-- The number of earlier resumptions, in the sequence `ids` of resumed units, of the
unit resumed at position `p`. -/
def resumptionOrdinal (ids : List Nat) (p : Nat) : Nat :=
  (ids.take p).count (ids.getD p 0)

/-! ## Reference descriptions of the grid iteration -/

/-- The values a `uint32_t` counter takes in `for (g = base; g < base + count; g++)`. -/
def u32Range (base count : Nat) : List Nat :=
  List.range' base ((base + count) % 2 ^ 32 - base)

/-- The workgroup coordinates `(x, y, z)` of the grid `[base, base + count)` per axis,
`z` outermost, then `y`, `x` fastest. -/
def gridCoords (baseX baseY baseZ countX countY countZ : Nat) : List (Nat × Nat × Nat) :=
  (List.range' baseZ countZ).flatMap fun z =>
    (List.range' baseY countY).flatMap fun y =>
      (List.range' baseX countX).map fun x => (x, y, z)

/-- Iteration order of the grid: `z` outermost, then `y`, then `x`. -/
def gridBefore (a b : Nat × Nat × Nat) : Prop :=
  a.2.2 < b.2.2 ∨ (a.2.2 = b.2.2 ∧ (a.2.1 < b.2.1 ∨ (a.2.1 = b.2.1 ∧ a.1 < b.1)))

/-- Workgroups processed strictly one after the other: the queue of a workgroup is
drained, on the memory the previous workgroup left, before the next workgroup starts. -/
def scheduleInOrder {U ρ : Type} (prog : ComputeProgram U ρ) (fuel : Nat) (data : Data) :
    List (Nat × Nat × Nat) → RunState U ρ → Option (RunState U ρ)
  | [], st => some st
  | (x, y, z) :: rest, st =>
    match scheduleWorkgroup prog fuel data x y z st.machine with
    | some (trace, m') => scheduleInOrder prog fuel data rest ⟨st.traces ++ [trace], m'⟩
    | none => none

/-- The coordinates of the workgroup of a trace. -/
def WorkgroupTrace.coord {U : Type} (t : WorkgroupTrace U) : Nat × Nat × Nat :=
  (t.groupX, t.groupY, t.groupZ)

/-- The grid iteration as the specification words it: the dispatch returns, and the
workgroups processed are the coordinates of the grid, in grid order. -/
def GridIterationExact {U ρ : Type} (prog : ComputeProgram U ρ) (fuel : Nat) (resources : ρ)
    (baseX baseY baseZ countX countY countZ : Nat) : Prop :=
  ∃ st, run prog fuel resources baseX baseY baseZ countX countY countZ = some st ∧
    st.traces.map WorkgroupTrace.coord = gridCoords baseX baseY baseZ countX countY countZ

/-- The coordinates `run` visits, with the wrapping loop bounds. -/
def u32GridCoords (baseX baseY baseZ countX countY countZ : Nat) : List (Nat × Nat × Nat) :=
  (u32Range baseZ countZ).flatMap fun z =>
    (u32Range baseY countY).flatMap fun y =>
      (u32Range baseX countX).map fun x => (x, y, z)

/-- The state `run` starts from: no workgroup processed, a zero-filled buffer of the
declared size. -/
def initialState {U ρ : Type} (prog : ComputeProgram U ρ) (resources : ρ) : RunState U ρ :=
  ⟨[], ⟨List.replicate prog.shader.workgroupMemory 0, resources⟩⟩

/-! ## Descriptions used by the scheduler proofs -/

/-- One pass over a queue: every coroutine is resumed once, in order; the result is the
coroutines that yielded, in order, and the memory left. -/
def roundAll {U ρ : Type} (await : U → Machine ρ → Bool × U × Machine ρ) :
    List U → Machine ρ → List U × Machine ρ
  | [], m => ([], m)
  | coroutine :: coroutines, m =>
    match await coroutine m with
    | (true, coroutine', m') =>
      ((coroutine' :: (roundAll await coroutines m').1), (roundAll await coroutines m').2)
    | (false, _, m') => roundAll await coroutines m'

/-- The sequence `0, .., n-1` repeated `rounds` times. -/
def roundRobin (n : Nat) : Nat → List Nat
  | 0 => []
  | rounds + 1 => List.range n ++ roundRobin n rounds

/-- The queue of `run` for a barrier-bearing workgroup of `n` subgroups whose units all
reach `b` barriers. -/
def uniformUnits (n b : Nat) : List BarrierUnit :=
  (List.range n).map fun i => ⟨i, b⟩

/-- A coroutine of the one-barrier shader of the convergence test: before the barrier
it writes its subgroup index to the cell of that index; after the barrier it sums the
cells `0 .. units-1` into its entry of the output. -/
structure SumUnit where
  subgroup : Nat
  units : Nat
  afterBarrier : Bool
deriving DecidableEq, Repr

/-- Resumption of a `SumUnit`. The resources are the output table of the shader. -/
def SumUnit.await (u : SumUnit) (m : Machine (Nat → Option Nat)) :
    Bool × SumUnit × Machine (Nat → Option Nat) :=
  if u.afterBarrier then
    let sum := ((List.range u.units).map fun k => m.workgroupMemory.getD k 0).sum
    (false, u, { m with resources := fun i => if i = u.subgroup then some sum else m.resources i })
  else
    (true, { u with afterBarrier := true },
      { m with workgroupMemory := m.workgroupMemory.set u.subgroup u.subgroup })

/-- The one-barrier program: one coroutine per subgroup, which reads the number of
subgroups from the dispatch record. -/
def sumProgram (shader : SpirvShader) : ComputeProgram SumUnit (Nat → Option Nat) where
  shader := shader
  call := fun inv => ⟨inv.firstSubgroup, inv.data.subgroupsPerWorkgroup.toNat, false⟩
  await := SumUnit.await

/-- The resumptions of `n` units with `b` barriers each: one pass per barrier count. -/
def uniformTrace (n : Nat) : Nat → List BarrierUnit
  | 0 => uniformUnits n 0
  | b + 1 => uniformUnits n (b + 1) ++ uniformTrace n b

/-- The resumptions the queue still owes: one per remaining barrier and one to complete. -/
def pendingResumptions (q : List BarrierUnit) : Nat :=
  (q.map fun u => u.remaining + 1).sum

/-- The sum of the cells `0 .. n-1` of the workgroup memory. -/
def cellSum (n : Nat) (mem : List Nat) : Nat :=
  ((List.range n).map fun k => mem.getD k 0).sum

/-! ## The scenario of the specification -/

/-- The shader of the scenario: workgroup size `(4, 1, 1)`, no barrier; it declares
`GlobalInvocationId` (variable 1, three components), `LocalInvocationIndex` (variable 2),
`SubgroupId` (variable 3) and `SubgroupLocalInvocationId` (variable 4). -/
def scenarioShader : SpirvShader where
  inputBuiltins := fun id =>
    match id with
    | BuiltIn.GlobalInvocationId => some ⟨1, 0, 3⟩
    | BuiltIn.LocalInvocationIndex => some ⟨2, 0, 1⟩
    | BuiltIn.SubgroupId => some ⟨3, 0, 1⟩
    | BuiltIn.SubgroupLocalInvocationId => some ⟨4, 0, 1⟩
    | _ => none
  modes := ⟨4, 1, 1, false⟩
  workgroupMemory := 0

/-- A routine whose variables are all zero. -/
def blankRoutine : SpirvRoutine := ⟨fun _ _ => Int4.broadcast 0⟩

/-- The dispatch record of the scenario: workgroup count `(2, 1, 1)`. -/
def scenarioData : Data := dispatchData scenarioShader.modes 2 1 1

/-- The calls of the shader body for workgroup `(1, 0, 0)` of the scenario. -/
def scenarioCalls : List ShaderCall :=
  (emit scenarioShader scenarioData blankRoutine 1 0 0 0 1).getD []

/-- A barrier-bearing shader with workgroup size `(8, 1, 1)`: two subgroups. -/
def barrierShader : SpirvShader where
  inputBuiltins := fun _ => none
  modes := ⟨8, 1, 1, true⟩
  workgroupMemory := 2

/-- The scenario program, whose single coroutine per workgroup completes at once. -/
def scenarioProgram : ComputeProgram BarrierUnit Unit :=
  barrierProgram Unit scenarioShader fun _ => 0

/-- The progress record of the scenario dispatch: base `(0, 0, 0)`, count `(2, 1, 1)`. -/
def scenarioRun : RunState BarrierUnit Unit :=
  (scheduleInOrder scenarioProgram 1 scenarioData (gridCoords 0 0 0 2 1 1)
    (initialState scenarioProgram ())).getD (initialState scenarioProgram ())

/-! ## The producer calls of the resolver -/

/-- Function `ComputeProgram::setInputBuiltin` with the calls of the producer recorded:
the first component lists the arguments of every call `cb(builtin, variable)` the
function makes, in order; the second component is its result. -/
def setInputBuiltinTraced (shader : SpirvShader) (routine : SpirvRoutine) (id : BuiltIn)
    (cb : BuiltinMapping → Variable → Option Variable) :
    List (BuiltinMapping × Variable) × Option SpirvRoutine :=
  match shader.inputBuiltins id with
  | some builtin =>
    ([(builtin, routine.getVariable builtin.Id)],
      match cb builtin (routine.getVariable builtin.Id) with
      | some value => some (routine.setVariable builtin.Id value)
      | none => none)
  | none => ([], some routine)

/-! ## The workgroup memory across workgroups -/

/-- The progress of the dispatch when the workgroup at position `k` of the iteration
starts: the first `k` workgroups have been processed, one after the other. -/
def stateAtWorkgroup {U ρ : Type} (prog : ComputeProgram U ρ) (fuel : Nat) (resources : ρ)
    (baseX baseY baseZ countX countY countZ : Nat) (k : Nat) : Option (RunState U ρ) :=
  scheduleInOrder prog fuel (dispatchData prog.shader.modes countX countY countZ)
    ((u32GridCoords baseX baseY baseZ countX countY countZ).take k)
    (initialState prog resources)

/-- The program of the reuse test, on a one-cell workgroup memory: the coroutine of a
workgroup appends the content of cell 0 to the output, then stores the non-zero value
`groupX + 7` in cell 0, and completes. -/
def staleProgram : ComputeProgram Nat (List Nat) where
  shader := ⟨fun _ => none, ⟨4, 1, 1, false⟩, 1⟩
  call := fun inv => inv.groupX
  await := fun u m =>
    (false, u, ⟨m.workgroupMemory.set 0 (u + 7), m.resources ++ [m.workgroupMemory.getD 0 0]⟩)

/-- The memory a sequence of resumptions leaves: every coroutine of the list is resumed on
the memory its predecessor left, the first on `m`. -/
def memoryAfter {U ρ : Type} (await : U → Machine ρ → Bool × U × Machine ρ)
    (resumed : List U) (m : Machine ρ) : Machine ρ :=
  resumed.foldl (fun m coroutine => (await coroutine m).2.2) m

/-! ## A workgroup size with a zero component -/

/-- A barrier-free shader whose workgroup size `(0, 1, 1)` has a zero component. -/
def zeroShader : SpirvShader where
  inputBuiltins := fun _ => none
  modes := ⟨0, 1, 1, false⟩
  workgroupMemory := 0

/-- The claim on zero subgroup counts as the specification words it: a dispatch with
`subgroupsPerWorkgroup = 0` does not return from `run`, being stopped by an assertion. -/
def ZeroSubgroupsStopped {U ρ : Type} (prog : ComputeProgram U ρ) (fuel : Nat) (resources : ρ)
    (baseX baseY baseZ countX countY countZ : Nat) : Prop :=
  subgroupsPerWorkgroup prog.shader.modes = 0 →
    run prog fuel resources baseX baseY baseZ countX countY countZ = none

/-- The program of the zero-size counterexample: a single coroutine per workgroup, which
completes at once. -/
def zeroProgram : ComputeProgram BarrierUnit Unit :=
  barrierProgram Unit zeroShader fun _ => 0

/-! ## The invocations a workgroup covers -/

/-- The local invocation indices of the active lanes of subgroup `subgroupIndex`, in lane
order: the lanes of the index vector of `emit` that pass its mask. -/
def activeLaneIndices (data : Data) (subgroupIndex : Int) : List Int :=
  ((List.range SIMD.Width).filter fun lane =>
      laneActive (CmpLT (subgroupLocalInvocationIndex subgroupIndex)
        (Int4.broadcast data.invocationsPerWorkgroup)) lane).map
    fun lane => Extract (subgroupLocalInvocationIndex subgroupIndex) lane

/-- The local invocation indices of the active lanes over the subgroups
`0 .. subgroupsPerWorkgroup - 1` of a workgroup, in the order they are processed. -/
def workgroupActiveIndices (modes : Modes) (data : Data) : List Int :=
  (List.range (subgroupsPerWorkgroup modes)).flatMap fun s => activeLaneIndices data (s : Int)

/-- The index pattern for a SIMD width `w` and `N` invocations per workgroup: over the
subgroups `s < (N + w - 1) / w` and the lanes `j < w`, the indices `s * w + j` that are
below `N`. -/
def activeIndicesOfWidth (w N : Nat) : List Nat :=
  (List.range ((N + w - 1) / w)).flatMap fun s =>
    ((List.range w).filter fun j => s * w + j < N).map fun j => s * w + j

/-- The routine of the scenario after `setSubgroupBuiltins` for subgroup 0 of workgroup
`(1, 0, 0)`. -/
def scenarioSubgroupRoutine : SpirvRoutine :=
  (setSubgroupBuiltins scenarioShader scenarioData blankRoutine (1, 0, 0)
    (subgroupLocalInvocationIndex 0) 0).getD blankRoutine

/-! ## The two scheduling strategies -/

/-- The calls of the shader body under the per-subgroup strategy: for each listed
subgroup `i`, the calls of `emit` for the unit with `firstSubgroup = i` and
`subgroupCount = 1`, concatenated in order; `none` when a unit fails an assertion. -/
def emitUnits (shader : SpirvShader) (data : Data) (routine : SpirvRoutine)
    (workgroupX workgroupY workgroupZ : Int) : List Nat → Option (List ShaderCall)
  | [] => some []
  | i :: rest =>
    match emit shader data routine workgroupX workgroupY workgroupZ (i : Int) 1 with
    | none => none
    | some calls =>
      match emitUnits shader data routine workgroupX workgroupY workgroupZ rest with
      | none => none
      | some more => some (calls ++ more)

/-- Whether the slot `c` of variable `v` belongs to the mapping of the builtin `id`. -/
def ownsSlot (shader : SpirvShader) (id : BuiltIn) (v c : Nat) : Bool :=
  match shader.inputBuiltins id with
  | some b => decide (v = b.Id ∧ b.FirstComponent ≤ c ∧ c < b.FirstComponent + b.SizeInComponents)
  | none => false

/-- The component of the builtin `id` that the slot `c` holds. -/
def slotComponent (shader : SpirvShader) (id : BuiltIn) (c : Nat) : Nat :=
  match shader.inputBuiltins id with
  | some b => c - b.FirstComponent
  | none => 0

/-! ## The queue of the scheduler, round by round -/

/-- The queues at the head of the loop `while (coroutines.size() > 0)`, in order, for at
most `fuel` resumptions: the queue before each resumption and the queue left at the end. -/
def queueHistory {U ρ : Type} (await : U → Machine ρ → Bool × U × Machine ρ) :
    Nat → List U → Machine ρ → List (List U)
  | _, [], _ => [[]]
  | 0, coroutine :: coroutines, _ => [coroutine :: coroutines]
  | fuel + 1, coroutine :: coroutines, m =>
    (coroutine :: coroutines) ::
      match await coroutine m with
      | (true, coroutine', m') => queueHistory await fuel (coroutines ++ [coroutine']) m'
      | (false, _, m') => queueHistory await fuel coroutines m'

/-- The barrier-counting units that yield in a pass over the queue, each with one barrier
fewer, in queue order. -/
def nextRound (q : List BarrierUnit) : List BarrierUnit :=
  q.filterMap fun u =>
    match u.remaining with
    | 0 => none
    | r + 1 => some ⟨u.subgroup, r⟩

/-- The resumptions of `rounds` passes over a queue of barrier-counting units. -/
def roundsTrace : Nat → List BarrierUnit → List BarrierUnit
  | 0, _ => []
  | rounds + 1, q => q ++ roundsTrace rounds (nextRound q)

/-- The order claim on a sequence `ids` of resumed units: when two positions resume
units `i < j` and both are the same ordinal resumption of their unit, the position of `i`
comes first. -/
def FifoOrdered (ids : List Nat) : Prop :=
  ∀ p q, p < ids.length → q < ids.length → ids.getD p 0 < ids.getD q 0 →
    resumptionOrdinal ids p = resumptionOrdinal ids q → p < q

/-! ## Render pass (`src/Vulkan/VkRenderPass.cpp`)

A shallow embedding of `vk::RenderPass`: the constructor, which deep-copies the create
info into one host memory block and fills the first-use table, the size computation
`ComputeRequiredAllocationSize`, and the subpass cursor.

Conventions of this part.

* Arrays behind a pointer are functions from the index; a nullable pointer is an
  `Option`.
* Positions in the host memory block are byte offsets from `mem`.
* `uint32_t` arithmetic is modelled on `ℕ` with an explicit `% 2 ^ 32` where the
  source computes in that type. The widths of `size_t` and `int` are properties of
  the target and not of the sources: their values are modelled as exact numbers.
* A store through an index outside the first-use table has no defined result: the
  constructor yields `none` there, as it does on a failed `ASSERT`.
-/

namespace vk

/-- Modelled from the spec: the constant `VK_ATTACHMENT_UNUSED` is declared in the
Vulkan headers, outside the translated sources. It marks a reference that names no
attachment; its header value is `~0U`. -/
def VK_ATTACHMENT_UNUSED : Nat := 4294967295

/-- Modelled from the spec: `VkAttachmentReference` is declared in the Vulkan headers,
outside the translated sources. The source reads its member `attachment`. -/
structure VkAttachmentReference where
  attachment : Nat
  layout : Nat

/-- Modelled from the spec: `VkSubpassDescription` is declared in the Vulkan headers,
outside the translated sources. The members are those the source reads. -/
structure VkSubpassDescription where
  inputAttachmentCount : Nat
  pInputAttachments : Nat → VkAttachmentReference
  colorAttachmentCount : Nat
  pColorAttachments : Nat → VkAttachmentReference
  pResolveAttachments : Option (Nat → VkAttachmentReference)
  pDepthStencilAttachment : Option VkAttachmentReference
  preserveAttachmentCount : Nat
  pPreserveAttachments : Nat → Nat

/-- Modelled from the spec: `VkRenderPassCreateInfo` is declared in the Vulkan headers,
outside the translated sources. The members are those the source reads; the contents of
`pAttachments` and `pDependencies` are only copied and are left out. -/
structure VkRenderPassCreateInfo where
  attachmentCount : Nat
  subpassCount : Nat
  pSubpasses : Nat → VkSubpassDescription
  dependencyCount : Nat

/-- The values of the `sizeof` expressions of the source. The types are declared outside
the translated sources, so their sizes are parameters. -/
structure Sizeof where
  VkSubpassDescription : Nat
  VkAttachmentDescription : Nat
  VkAttachmentReference : Nat
  VkSubpassDependency : Nat
  int : Nat
  uint32_t : Nat

/-- The function `MarkFirstUse(int& attachment, int subpass)`: the new content of the slot
`attachment`. -/
def MarkFirstUse (attachment : Int) (subpass : Int) : Int :=
  if attachment = -1 then subpass else attachment

/-- Modelled from the spec: the class `RenderPass` is declared in `VkRenderPass.hpp`,
outside the translated sources. The members are those the source assigns or reads;
`attachmentFirstUse` is the table the pointer designates, and `currentSubpass` is a
counter, a natural number. The pointer members `subpasses`, `attachments` and
`dependencies` are represented by the regions of the host memory block they point to
(see `Construction.placed`). -/
structure RenderPass where
  attachmentCount : Nat
  subpassCount : Nat
  dependencyCount : Nat
  currentSubpass : Nat
  attachmentFirstUse : List Int
deriving DecidableEq, Repr

/-- The state of the constructor body: the local cursor `hostMemory`, the regions of the
host memory block filled so far (offset and byte count, in program order), and the
first-use table. Stores into a region already filled (the cleared pointers of
`subpasses[i]`, the marks in the first-use table) add no region. -/
structure Construction where
  hostMemory : Nat
  placed : List (Nat × Nat)
  attachmentFirstUse : List Int
deriving DecidableEq, Repr

/-- Filling `size` bytes at the cursor: `memcpy(hostMemory, ..., size)`. -/
def Construction.memcpy (s : Construction) (size : Nat) : Construction :=
  ⟨s.hostMemory, s.placed ++ [(s.hostMemory, size)], s.attachmentFirstUse⟩

/-- Moving the cursor: `hostMemory += size`. -/
def Construction.advance (s : Construction) (size : Nat) : Construction :=
  ⟨s.hostMemory + size, s.placed, s.attachmentFirstUse⟩

/-- The call `MarkFirstUse(attachmentFirstUse[attachment], subpass)`. -/
def Construction.markFirstUse (s : Construction) (attachment : Nat) (subpass : Nat) :
    Option Construction :=
  if h : attachment < s.attachmentFirstUse.length then
    some ⟨s.hostMemory, s.placed,
      s.attachmentFirstUse.set attachment
        (MarkFirstUse (s.attachmentFirstUse.get ⟨attachment, h⟩) (Int.ofNat subpass))⟩
  else none

/-- The block `if(subpass.inputAttachmentCount > 0)` of the constructor, for
subpass `i`. -/
def copyInputAttachments (sizeof : Sizeof) (subpass : VkSubpassDescription) (i : Nat)
    (s : Construction) : Option Construction :=
  if 0 < subpass.inputAttachmentCount then
    let inputAttachmentsSize := subpass.inputAttachmentCount * sizeof.VkAttachmentReference
    let s := (s.memcpy inputAttachmentsSize).advance inputAttachmentsSize
    (List.range subpass.inputAttachmentCount).foldlM (fun s j =>
      if (subpass.pInputAttachments j).attachment ≠ VK_ATTACHMENT_UNUSED then
        s.markFirstUse (subpass.pInputAttachments j).attachment i
      else some s) s
  else some s

/-- One iteration of the marking loop over the colour attachments: the colour reference
`j`, then the resolve reference `j` when the resolve array is present. -/
def markColorAttachment (subpass : VkSubpassDescription) (i : Nat) (s : Construction)
    (j : Nat) : Option Construction :=
  (if (subpass.pColorAttachments j).attachment ≠ VK_ATTACHMENT_UNUSED then
    s.markFirstUse (subpass.pColorAttachments j).attachment i
  else some s) >>= fun s =>
  match subpass.pResolveAttachments with
  | some pResolveAttachments =>
    if (pResolveAttachments j).attachment ≠ VK_ATTACHMENT_UNUSED then
      s.markFirstUse (pResolveAttachments j).attachment i
    else some s
  | none => some s

/-- The block `if(subpass.colorAttachmentCount > 0)` of the constructor, for
subpass `i`. -/
def copyColorAttachments (sizeof : Sizeof) (subpass : VkSubpassDescription) (i : Nat)
    (s : Construction) : Option Construction :=
  if 0 < subpass.colorAttachmentCount then
    let colorAttachmentsSize := subpass.colorAttachmentCount * sizeof.VkAttachmentReference
    let s := (s.memcpy colorAttachmentsSize).advance colorAttachmentsSize
    let s := if subpass.pResolveAttachments.isSome then
        (s.memcpy colorAttachmentsSize).advance colorAttachmentsSize
      else s
    (List.range subpass.colorAttachmentCount).foldlM (markColorAttachment subpass i) s
  else some s

/-- The block `if(subpass.pDepthStencilAttachment != nullptr)` of the constructor, for
subpass `i`. -/
def copyDepthStencilAttachment (sizeof : Sizeof) (subpass : VkSubpassDescription) (i : Nat)
    (s : Construction) : Option Construction :=
  match subpass.pDepthStencilAttachment with
  | some pDepthStencilAttachment =>
    let s := (s.memcpy sizeof.VkAttachmentReference).advance sizeof.VkAttachmentReference
    if pDepthStencilAttachment.attachment ≠ VK_ATTACHMENT_UNUSED then
      s.markFirstUse pDepthStencilAttachment.attachment i
    else some s
  | none => some s

/-- The block `if(subpass.preserveAttachmentCount > 0)` of the constructor, for
subpass `i`. -/
def copyPreserveAttachments (sizeof : Sizeof) (subpass : VkSubpassDescription) (i : Nat)
    (s : Construction) : Option Construction :=
  if 0 < subpass.preserveAttachmentCount then
    let preserveAttachmentSize := subpass.preserveAttachmentCount * sizeof.uint32_t
    let s := (s.memcpy preserveAttachmentSize).advance preserveAttachmentSize
    (List.range subpass.preserveAttachmentCount).foldlM (fun s j =>
      if subpass.pPreserveAttachments j ≠ VK_ATTACHMENT_UNUSED then
        s.markFirstUse (subpass.pPreserveAttachments j) i
      else some s) s
  else some s

/-- The body of the loop `// Deep copy subpasses` of the constructor, for subpass `i`. -/
def deepCopySubpass (sizeof : Sizeof) (subpass : VkSubpassDescription) (i : Nat)
    (s : Construction) : Option Construction :=
  copyInputAttachments sizeof subpass i s >>= fun s =>
  copyColorAttachments sizeof subpass i s >>= fun s =>
  copyDepthStencilAttachment sizeof subpass i s >>= fun s =>
  copyPreserveAttachments sizeof subpass i s

/-- The block `if(pCreateInfo->attachmentCount > 0)` of the constructor: the attachment
descriptions, then the first-use table with every entry set to `-1`. -/
def copyAttachments (sizeof : Sizeof) (pCreateInfo : VkRenderPassCreateInfo)
    (s : Construction) : Construction :=
  if 0 < pCreateInfo.attachmentCount then
    let attachmentSize := pCreateInfo.attachmentCount * sizeof.VkAttachmentDescription
    let s := (s.memcpy attachmentSize).advance attachmentSize
    let firstUseSize := pCreateInfo.attachmentCount * sizeof.int
    ⟨s.hostMemory + firstUseSize, s.placed ++ [(s.hostMemory, firstUseSize)],
      List.replicate pCreateInfo.attachmentCount (-1)⟩
  else s

/-- The constructor `RenderPass::RenderPass(pCreateInfo, mem)`. `this` is the object
before the body runs: the members the constructor does not assign keep the values of
their declarations, which are outside the translated sources. The result is the object
and the regions of `mem` the constructor filled. -/
def RenderPass.construct (sizeof : Sizeof) (pCreateInfo : VkRenderPassCreateInfo)
    (this : RenderPass) : Option (RenderPass × List (Nat × Nat)) :=
  ASSERT (decide (0 < pCreateInfo.subpassCount)) >>= fun _ =>
  let subpassesSize := pCreateInfo.subpassCount * sizeof.VkSubpassDescription
  let s : Construction := ⟨0, [], this.attachmentFirstUse⟩
  let s := (s.memcpy subpassesSize).advance subpassesSize
  let s := copyAttachments sizeof pCreateInfo s
  (List.range pCreateInfo.subpassCount).foldlM
    (fun s i => deepCopySubpass sizeof (pCreateInfo.pSubpasses i) i s) s >>= fun s =>
  let s := if 0 < pCreateInfo.dependencyCount then
      s.memcpy (pCreateInfo.dependencyCount * sizeof.VkSubpassDependency)
    else s
  some (⟨pCreateInfo.attachmentCount, pCreateInfo.subpassCount, pCreateInfo.dependencyCount,
    this.currentSubpass, s.attachmentFirstUse⟩, s.placed)

/-- The local `uint32_t nbAttachments` of `ComputeRequiredAllocationSize` after its two
conditional increments. -/
def nbAttachments (subpass : VkSubpassDescription) : Nat :=
  let nbAttachments := (subpass.inputAttachmentCount + subpass.colorAttachmentCount) % 2 ^ 32
  let nbAttachments := if subpass.pResolveAttachments.isSome then
      (nbAttachments + subpass.colorAttachmentCount) % 2 ^ 32
    else nbAttachments
  if subpass.pDepthStencilAttachment.isSome then (nbAttachments + 1) % 2 ^ 32
  else nbAttachments

/-- The function `RenderPass::ComputeRequiredAllocationSize(pCreateInfo)`. -/
def RenderPass.ComputeRequiredAllocationSize (sizeof : Sizeof)
    (pCreateInfo : VkRenderPassCreateInfo) : Nat :=
  let attachmentSize := pCreateInfo.attachmentCount * sizeof.VkAttachmentDescription
    + pCreateInfo.attachmentCount * sizeof.int
  let subpassesSize := (List.range pCreateInfo.subpassCount).foldl
    (fun subpassesSize i =>
      let subpass := pCreateInfo.pSubpasses i
      subpassesSize + (sizeof.VkSubpassDescription
        + sizeof.VkAttachmentReference * nbAttachments subpass
        + sizeof.uint32_t * subpass.preserveAttachmentCount)) 0
  let dependenciesSize := pCreateInfo.dependencyCount * sizeof.VkSubpassDependency
  attachmentSize + subpassesSize + dependenciesSize

/-- The member function `RenderPass::begin()`. -/
def RenderPass.begin (this : RenderPass) : RenderPass :=
  ⟨this.attachmentCount, this.subpassCount, this.dependencyCount, 0, this.attachmentFirstUse⟩

/-- The member function `RenderPass::nextSubpass()`: the increment, then the assertion
on the new value. -/
def RenderPass.nextSubpass (this : RenderPass) : Option RenderPass :=
  let this : RenderPass := ⟨this.attachmentCount, this.subpassCount, this.dependencyCount,
    this.currentSubpass + 1, this.attachmentFirstUse⟩
  ASSERT (decide (this.currentSubpass < this.subpassCount)) >>= fun _ => some this

/-- The member function `RenderPass::end()`. -/
def RenderPass.end_ (this : RenderPass) : RenderPass :=
  ⟨this.attachmentCount, this.subpassCount, this.dependencyCount, 0, this.attachmentFirstUse⟩

/-- The number of bytes in a list of filled regions. -/
def bytesPlaced (placed : List (Nat × Nat)) : Nat :=
  (placed.map Prod.snd).sum

/-- The number of attachment references of a subpass, as an exact number: the input and
colour references, the resolve references when the array is present, and the
depth-stencil reference when present. -/
def referenceCount (subpass : VkSubpassDescription) : Nat :=
  subpass.inputAttachmentCount + subpass.colorAttachmentCount
    + (if subpass.pResolveAttachments.isSome then subpass.colorAttachmentCount else 0)
    + (if subpass.pDepthStencilAttachment.isSome then 1 else 0)

/-- A subpass references attachment `a`: one of its input, colour, resolve,
depth-stencil or preserve attachments names `a`, and `a` is not
`VK_ATTACHMENT_UNUSED`. -/
def referencesAttachment (subpass : VkSubpassDescription) (a : Nat) : Bool :=
  a != VK_ATTACHMENT_UNUSED &&
  ((List.range subpass.inputAttachmentCount).any
      (fun j => (subpass.pInputAttachments j).attachment == a) ||
   (List.range subpass.colorAttachmentCount).any
      (fun j => (subpass.pColorAttachments j).attachment == a) ||
   (match subpass.pResolveAttachments with
    | some pResolveAttachments => (List.range subpass.colorAttachmentCount).any
        (fun j => (pResolveAttachments j).attachment == a)
    | none => false) ||
   (match subpass.pDepthStencilAttachment with
    | some pDepthStencilAttachment => pDepthStencilAttachment.attachment == a
    | none => false) ||
   (List.range subpass.preserveAttachmentCount).any
      (fun j => subpass.pPreserveAttachments j == a))

/-- A call of one of the three cursor operations. -/
inductive CursorCall where
  | begin
  | nextSubpass
  | end_
deriving DecidableEq, Repr

/-- The effect of one call on the object; `none` when its assertion fails. -/
def CursorCall.apply (c : CursorCall) (this : RenderPass) : Option RenderPass :=
  match c with
  | .begin => some this.begin
  | .nextSubpass => this.nextSubpass
  | .end_ => some this.end_

/-- The object after a sequence of calls, `none` when an assertion failed on the way. -/
def callSequence (calls : List CursorCall) (this : RenderPass) : Option RenderPass :=
  calls.foldlM (fun this c => c.apply this) this

end vk

namespace vk

/-- The mark one reference causes: its attachment, unless it is
`VK_ATTACHMENT_UNUSED`. -/
def markedBy (attachment : Nat) : List Nat :=
  if attachment ≠ VK_ATTACHMENT_UNUSED then [attachment] else []

/-- The attachments the constructor marks for one subpass, in program order: the input
references, the colour references each followed by its resolve reference, the
depth-stencil reference, the preserve attachments. -/
def markedAttachments (subpass : VkSubpassDescription) : List Nat :=
  (List.range subpass.inputAttachmentCount).flatMap
      (fun j => markedBy (subpass.pInputAttachments j).attachment)
    ++ (List.range subpass.colorAttachmentCount).flatMap
      (fun j => markedBy (subpass.pColorAttachments j).attachment
        ++ (match subpass.pResolveAttachments with
            | some pResolveAttachments => markedBy (pResolveAttachments j).attachment
            | none => []))
    ++ (match subpass.pDepthStencilAttachment with
        | some pDepthStencilAttachment => markedBy pDepthStencilAttachment.attachment
        | none => [])
    ++ (List.range subpass.preserveAttachmentCount).flatMap
      (fun j => markedBy (subpass.pPreserveAttachments j))

/-- The marks of a whole create info, each with its subpass, in program order. -/
def allMarks (pCreateInfo : VkRenderPassCreateInfo) : List (Nat × Nat) :=
  (List.range pCreateInfo.subpassCount).flatMap
    (fun i => (markedAttachments (pCreateInfo.pSubpasses i)).map (fun a => (a, i)))

/-- A sequence of calls `MarkFirstUse(table[attachment], subpass)` on a table. -/
def markAll (marks : List (Nat × Nat)) (table : List Int) : Option (List Int) :=
  marks.foldlM (fun table m =>
    if h : m.1 < table.length then
      some (table.set m.1 (MarkFirstUse (table.get ⟨m.1, h⟩) (Int.ofNat m.2)))
    else none) table

/-- The subpass of the first mark of attachment `a` in a sequence of marks, `-1` when
the sequence does not mark `a`. -/
def firstMark (marks : List (Nat × Nat)) (a : Nat) : Int :=
  match marks.find? (fun m => m.1 == a) with
  | some m => Int.ofNat m.2
  | none => -1

end vk

namespace vk

/-- The claim that the constructor places as many bytes as
`ComputeRequiredAllocationSize` returns, for one create info. -/
def AllocationSizeExact (sizeof : Sizeof) (pCreateInfo : VkRenderPassCreateInfo)
    (this : RenderPass) : Prop :=
  ∀ rp placed, RenderPass.construct sizeof pCreateInfo this = some (rp, placed) →
    bytesPlaced placed = RenderPass.ComputeRequiredAllocationSize sizeof pCreateInfo

/-- Sizes of a 64-bit target, for the examples. -/
def exampleSizeof : Sizeof := ⟨72, 36, 8, 28, 4, 4⟩

/-- An object before construction, for the examples. -/
def exampleObject : RenderPass := ⟨0, 0, 0, 0, []⟩

/-- Example subpass: colour attachment 3 and depth-stencil attachment 1. -/
def exampleSubpass0 : VkSubpassDescription :=
  ⟨0, fun _ => ⟨VK_ATTACHMENT_UNUSED, 0⟩, 1, fun _ => ⟨3, 0⟩, none, some ⟨1, 0⟩, 0, fun _ => 0⟩

/-- Example subpass: input attachment 1, colour attachments 0 and 1 each resolved to
attachment 2, an unused depth-stencil reference, preserve attachment 0. -/
def exampleSubpass1 : VkSubpassDescription :=
  ⟨1, fun _ => ⟨1, 0⟩, 2, fun j => ⟨j, 0⟩, some (fun _ => ⟨2, 0⟩),
    some ⟨VK_ATTACHMENT_UNUSED, 0⟩, 1, fun _ => 0⟩

/-- Example create info: five attachments, the two example subpasses, three
dependencies. -/
def exampleCreateInfo : VkRenderPassCreateInfo :=
  ⟨5, 2, fun i => if i = 0 then exampleSubpass0 else exampleSubpass1, 3⟩

/-- The object the constructor makes of the example create info. -/
def exampleRenderPass : RenderPass := ⟨5, 2, 3, 0, [1, 0, 1, 0, -1]⟩

/-- The regions the constructor fills for the example create info: the subpass
descriptions, the attachment descriptions, the first-use table, the reference arrays of
the two subpasses, the dependencies. -/
def examplePlaced : List (Nat × Nat) :=
  [(0, 144), (144, 180), (324, 20), (344, 8), (352, 8), (360, 8), (368, 16), (384, 16),
    (400, 8), (408, 4), (412, 84)]

/-- A subpass whose input and colour reference counts, both unsigned 32-bit values, add
up to `2 ^ 32`; every reference is unused. -/
def overflowSubpass : VkSubpassDescription :=
  ⟨4294967295, fun _ => ⟨VK_ATTACHMENT_UNUSED, 0⟩, 1, fun _ => ⟨VK_ATTACHMENT_UNUSED, 0⟩,
    none, none, 0, fun _ => VK_ATTACHMENT_UNUSED⟩

/-- A create info with the one subpass `overflowSubpass`, no attachment and no
dependency. -/
def overflowCreateInfo : VkRenderPassCreateInfo :=
  ⟨0, 1, fun _ => overflowSubpass, 0⟩

end vk

/-! # Theorems -/

/-! ## Lanes and the lane decomposition -/

theorem Extract_zipWith (f : Int → Int → Int) (a b : Int4) (j : Nat) (hj : j < 4) :
    Extract (Int4.zipWith f a b) j = f (Extract a j) (Extract b j) := by
  interval_cases j <;> rfl

theorem Extract_add (a b : Int4) (j : Nat) (hj : j < 4) :
    Extract (a + b) j = Extract a j + Extract b j := Extract_zipWith _ a b j hj

theorem Extract_sub (a b : Int4) (j : Nat) (hj : j < 4) :
    Extract (a - b) j = Extract a j - Extract b j := Extract_zipWith _ a b j hj

theorem Extract_mul (a b : Int4) (j : Nat) (hj : j < 4) :
    Extract (a * b) j = Extract a j * Extract b j := Extract_zipWith _ a b j hj

theorem Extract_div (a b : Int4) (j : Nat) (hj : j < 4) :
    Extract (a / b) j = (Extract a j).tdiv (Extract b j) := Extract_zipWith _ a b j hj

theorem Extract_broadcast (a : Int) (j : Nat) (hj : j < 4) :
    Extract (Int4.broadcast a) j = a := by
  interval_cases j <;> rfl

/-- The scalar computation performed in each lane by `localInvocationID`. -/
theorem localInvocationID_lane (ws idx : Int4) (j : Nat) (hj : j < 4) :
    Extract (localInvocationID ws idx 2) j =
      (Extract idx j).tdiv (Extract ws X * Extract ws Y) ∧
    Extract (localInvocationID ws idx 1) j =
      (Extract idx j - (Extract idx j).tdiv (Extract ws X * Extract ws Y) *
        (Extract ws X * Extract ws Y)).tdiv (Extract ws X) ∧
    Extract (localInvocationID ws idx 0) j =
      Extract idx j - (Extract idx j).tdiv (Extract ws X * Extract ws Y) *
          (Extract ws X * Extract ws Y) -
        (Extract idx j - (Extract idx j).tdiv (Extract ws X * Extract ws Y) *
          (Extract ws X * Extract ws Y)).tdiv (Extract ws X) * Extract ws X := by
  simp only [localInvocationID, Extract_sub _ _ _ hj, Extract_mul _ _ _ hj,
    Extract_div _ _ _ hj, Extract_broadcast _ _ hj, and_self]

/-- Row-major decomposition of a non-negative index. -/
theorem decompose_scalar (sx sy i : Int) (hx : 1 ≤ sx) (hy : 1 ≤ sy) (hi : 0 ≤ i) :
    let z := i.tdiv (sx * sy)
    let r := i - z * (sx * sy)
    let y := r.tdiv sx
    let x := r - y * sx
    z * sx * sy + y * sx + x = i ∧ 0 ≤ x ∧ x < sx ∧ 0 ≤ y ∧ y < sy ∧ 0 ≤ z ∧
      z = i / (sx * sy) := by
  intro z r y x
  have hxy : 0 < sx * sy := by positivity
  have hz : z = i / (sx * sy) := Int.tdiv_eq_ediv hi hxy.le
  have hr : r = i % (sx * sy) := by
    have := Int.emod_add_ediv i (sx * sy)
    simp only [r, hz]; linarith
  have hr0 : 0 ≤ r := hr ▸ Int.emod_nonneg _ hxy.ne'
  have hrlt : r < sx * sy := hr ▸ Int.emod_lt_of_pos _ hxy
  have hy' : y = r / sx := Int.tdiv_eq_ediv hr0 (by linarith)
  have hx' : x = r % sx := by
    have := Int.emod_add_ediv r sx
    simp only [x, hy']; linarith
  refine ⟨?_, ?_, ?_, ?_, ?_, ?_, hz⟩
  · simp only [x, r]; ring
  · rw [hx']; exact Int.emod_nonneg _ (by linarith)
  · rw [hx']; exact Int.emod_lt_of_pos _ (by linarith)
  · rw [hy']; exact Int.ediv_nonneg hr0 (by linarith)
  · rw [hy']; exact Int.ediv_lt_of_lt_mul (by linarith) (by linarith)
  · rw [hz]; exact Int.ediv_nonneg hi hxy.le

/-- Claim C1. Lane decomposition in `setSubgroupBuiltins`: for a workgroup size
`(sx, sy, sz)` with all components at least 1 and a lane whose local invocation
index `i` satisfies `0 ≤ i < sx * sy * sz`, the computed coordinates satisfy
`z * sx * sy + y * sx + x = i`, `0 ≤ x < sx`, `0 ≤ y < sy` and `0 ≤ z < sz`. -/
theorem C1_lane_decomposition (workgroupSize : Int4) (localInvocationIndex : SIMD.Int)
    (lane : Nat) (hlane : lane < SIMD.Width)
    (hsx : 1 ≤ Extract workgroupSize X) (hsy : 1 ≤ Extract workgroupSize Y)
    (_hsz : 1 ≤ Extract workgroupSize Z)
    (hi0 : 0 ≤ Extract localInvocationIndex lane)
    (hiN : Extract localInvocationIndex lane <
      Extract workgroupSize X * Extract workgroupSize Y * Extract workgroupSize Z) :
    let sx := Extract workgroupSize X
    let sy := Extract workgroupSize Y
    let sz := Extract workgroupSize Z
    let x := Extract (localInvocationID workgroupSize localInvocationIndex X) lane
    let y := Extract (localInvocationID workgroupSize localInvocationIndex Y) lane
    let z := Extract (localInvocationID workgroupSize localInvocationIndex Z) lane
    z * sx * sy + y * sx + x = Extract localInvocationIndex lane ∧
      (0 ≤ x ∧ x < sx) ∧ (0 ≤ y ∧ y < sy) ∧ (0 ≤ z ∧ z < sz) := by
  intro sx sy sz x y z
  have hj : lane < 4 := hlane
  obtain ⟨ez, ey, ex⟩ := localInvocationID_lane workgroupSize localInvocationIndex lane hj
  have hd := decompose_scalar sx sy (Extract localInvocationIndex lane) hsx hsy hi0
  simp only at hd
  have hxe : x = _ := ex
  have hye : y = _ := ey
  have hze : z = _ := ez
  rw [← hze] at hd hye hxe
  rw [← hye] at hd hxe
  rw [← hxe] at hd
  obtain ⟨h1, h2, h3, h4, h5, h6, h7⟩ := hd
  refine ⟨h1, ⟨h2, h3⟩, ⟨h4, h5⟩, h6, ?_⟩
  rw [h7]
  exact Int.ediv_lt_of_lt_mul (by positivity) (by rw [mul_comm]; exact hiN)

/-- Claim C1, instance: workgroup size `(4, 3, 2)`, lane 1 of the subgroup with
indices `20..23` (index 21 is `(1, 2, 1)`). -/
theorem C1_lane_decomposition_witness :
    (1 : Int) * 4 * 3 + 2 * 4 + 1 = 21 ∧
      Extract (localInvocationID ⟨4, 3, 2, 0⟩ ⟨20, 21, 22, 23⟩ Z) 1 *
            Extract (⟨4, 3, 2, 0⟩ : Int4) X * Extract (⟨4, 3, 2, 0⟩ : Int4) Y +
          Extract (localInvocationID ⟨4, 3, 2, 0⟩ ⟨20, 21, 22, 23⟩ Y) 1 *
            Extract (⟨4, 3, 2, 0⟩ : Int4) X +
          Extract (localInvocationID ⟨4, 3, 2, 0⟩ ⟨20, 21, 22, 23⟩ X) 1 =
        Extract (⟨20, 21, 22, 23⟩ : Int4) 1 :=
  ⟨by decide,
    (C1_lane_decomposition ⟨4, 3, 2, 0⟩ ⟨20, 21, 22, 23⟩ 1 (by decide) (by decide) (by decide)
      (by decide) (by decide) (by decide)).1⟩

/-! ## Frame reasoning for the builtin resolver -/

theorem Variable.set_apply (value : Variable) (i : Nat) (v : SIMD.Int) (j : Nat) :
    (value.set i v) j = if j = i then v else value j := rfl

theorem forComponents_apply (builtin : BuiltinMapping) (f : Nat → SIMD.Int) (value : Variable)
    (k : Nat) :
    forComponents builtin f value k =
      if builtin.FirstComponent ≤ k ∧ k < builtin.FirstComponent + builtin.SizeInComponents
      then f (k - builtin.FirstComponent) else value k := by
  unfold forComponents
  induction builtin.SizeInComponents with
  | zero =>
    rw [if_neg (by omega)]
    rfl
  | succ n ih =>
    rw [List.range_succ, List.foldl_append, List.foldl_cons, List.foldl_nil,
      Variable.set_apply, ih]
    by_cases hk : k = builtin.FirstComponent + n
    · subst hk
      simp
    · rw [if_neg hk]
      by_cases h1 : builtin.FirstComponent ≤ k ∧ k < builtin.FirstComponent + n
      · rw [if_pos h1, if_pos (by omega)]
      · rw [if_neg h1, if_neg (by omega)]

theorem singleComponent_eq_some (builtin : BuiltinMapping) (v : SIMD.Int)
    (value value' : Variable) (h : singleComponent builtin v value = some value') :
    builtin.SizeInComponents = 1 ∧ value' = value.set builtin.FirstComponent v := by
  unfold singleComponent ASSERT at h
  by_cases hs : builtin.SizeInComponents = 1
  · simp [hs] at h
    exact ⟨hs, h.symm⟩
  · simp [hs] at h

theorem writesWithin_forComponents (f : BuiltinMapping → Nat → SIMD.Int) :
    WritesWithin (fun builtin value => some (forComponents builtin (f builtin) value)) := by
  intro builtin value value' h k hk
  simp only [Option.some.injEq] at h
  subst h
  rw [forComponents_apply, if_neg (by omega)]

theorem writesWithin_singleComponent (f : BuiltinMapping → SIMD.Int) :
    WritesWithin (fun builtin value => singleComponent builtin (f builtin) value) := by
  intro builtin value value' h k hk
  obtain ⟨hs, rfl⟩ := singleComponent_eq_some _ _ _ _ h
  rw [Variable.set_apply, if_neg (by omega)]

theorem getVariable_setVariable (routine : SpirvRoutine) (id : Nat) (value : Variable)
    (k : Nat) :
    (routine.setVariable id value).getVariable k =
      if k = id then value else routine.getVariable k := rfl

/-- The two outcomes of a successful `setInputBuiltin`. -/
theorem setInputBuiltin_eq_some (shader : SpirvShader) (routine routine' : SpirvRoutine)
    (id : BuiltIn) (cb : BuiltinMapping → Variable → Option Variable)
    (h : setInputBuiltin shader routine id cb = some routine') :
    (shader.inputBuiltins id = none ∧ routine' = routine) ∨
    ∃ builtin value, shader.inputBuiltins id = some builtin ∧
      cb builtin (routine.getVariable builtin.Id) = some value ∧
      routine' = routine.setVariable builtin.Id value := by
  unfold setInputBuiltin at h
  cases hb : shader.inputBuiltins id with
  | none =>
    rw [hb] at h
    simp only [Option.some.injEq] at h
    exact Or.inl ⟨rfl, h.symm⟩
  | some builtin =>
    rw [hb] at h
    simp only at h
    cases hv : cb builtin (routine.getVariable builtin.Id) with
    | none => rw [hv] at h; simp at h
    | some value =>
      rw [hv] at h
      simp only [Option.some.injEq] at h
      exact Or.inr ⟨builtin, value, rfl, hv, h.symm⟩

/-- Frame: a slot outside the component range of the mapping of `id` is unchanged. -/
theorem setInputBuiltin_frame (shader : SpirvShader) (routine routine' : SpirvRoutine)
    (id : BuiltIn) (cb : BuiltinMapping → Variable → Option Variable)
    (hcb : WritesWithin cb)
    (h : setInputBuiltin shader routine id cb = some routine') (v c : Nat)
    (hout : ∀ builtin, shader.inputBuiltins id = some builtin →
      builtin.Id ≠ v ∨ c < builtin.FirstComponent ∨
        builtin.FirstComponent + builtin.SizeInComponents ≤ c) :
    routine'.getVariable v c = routine.getVariable v c := by
  rcases setInputBuiltin_eq_some _ _ _ _ _ h with ⟨_, rfl⟩ | ⟨builtin, value, hb, hv, rfl⟩
  · rfl
  · rw [getVariable_setVariable]
    by_cases hvid : v = builtin.Id
    · rw [if_pos hvid]
      rcases hout builtin hb with h1 | h2
      · exact absurd hvid.symm h1
      · rw [hcb _ _ _ hv c h2, hvid]
    · rw [if_neg hvid]

/-- The value a successful `setInputBuiltin` leaves in the variable of a declared builtin. -/
theorem setInputBuiltin_value (shader : SpirvShader) (routine routine' : SpirvRoutine)
    (id : BuiltIn) (cb : BuiltinMapping → Variable → Option Variable)
    (h : setInputBuiltin shader routine id cb = some routine') (builtin : BuiltinMapping)
    (hb : shader.inputBuiltins id = some builtin) :
    cb builtin (routine.getVariable builtin.Id) = some (routine'.getVariable builtin.Id) := by
  rcases setInputBuiltin_eq_some _ _ _ _ _ h with ⟨hn, _⟩ | ⟨b, value, hb', hv, rfl⟩
  · rw [hn] at hb; simp at hb
  · rw [hb] at hb'
    simp only [Option.some.injEq] at hb'
    subst hb'
    rw [getVariable_setVariable, if_pos rfl, hv]


/-- Frame for a slot owned by another declared builtin. -/
theorem setInputBuiltin_frame_other (shader : SpirvShader) (hdisj : DisjointBuiltins shader)
    (routine routine' : SpirvRoutine) (id : BuiltIn)
    (cb : BuiltinMapping → Variable → Option Variable) (hcb : WritesWithin cb)
    (h : setInputBuiltin shader routine id cb = some routine')
    (id₀ : BuiltIn) (b₀ : BuiltinMapping) (hb₀ : shader.inputBuiltins id₀ = some b₀)
    (hne : id ≠ id₀) (c : Nat) (hc₁ : b₀.FirstComponent ≤ c)
    (hc₂ : c < b₀.FirstComponent + b₀.SizeInComponents) :
    routine'.getVariable b₀.Id c = routine.getVariable b₀.Id c := by
  apply setInputBuiltin_frame shader routine routine' id cb hcb h
  intro builtin hb
  rcases hdisj id id₀ builtin b₀ hne hb hb₀ with h1 | h2 | h3
  · exact Or.inl h1
  · exact Or.inr (Or.inr (by omega))
  · exact Or.inr (Or.inl (by omega))

/-- The four resolver steps of a successful `setSubgroupBuiltins`. -/
theorem setSubgroupBuiltins_eq_some (shader : SpirvShader) (data : Data)
    (routine routine' : SpirvRoutine) (workgroupID : Int × Int × Int)
    (localInvocationIndex : SIMD.Int) (subgroupIndex : Int)
    (h : setSubgroupBuiltins shader data routine workgroupID localInvocationIndex
      subgroupIndex = some routine') :
    ∃ r₁ r₂ r₃,
      setInputBuiltin shader routine BuiltIn.LocalInvocationIndex
        (fun builtin value => singleComponent builtin localInvocationIndex value) = some r₁ ∧
      setInputBuiltin shader r₁ BuiltIn.SubgroupId
        (fun builtin value => singleComponent builtin (Int4.broadcast subgroupIndex) value)
          = some r₂ ∧
      setInputBuiltin shader r₂ BuiltIn.LocalInvocationId
        (fun builtin value => some (forComponents builtin
          (fun component =>
            localInvocationID data.workgroupSize localInvocationIndex component) value))
          = some r₃ ∧
      setInputBuiltin shader r₃ BuiltIn.GlobalInvocationId
        (fun builtin value => some (forComponents builtin
          (fun component =>
            Int4.broadcast (Extract (data.workgroupSize *
              Insert (Insert (Insert (Int4.broadcast 0) (workgroupIDAt workgroupID X) X)
                (workgroupIDAt workgroupID Y) Y) (workgroupIDAt workgroupID Z) Z) component) +
            localInvocationID data.workgroupSize localInvocationIndex component) value))
          = some routine' := by
  simp only [setSubgroupBuiltins, Option.bind_eq_bind, Option.bind_eq_some] at h
  obtain ⟨r₁, h₁, r₂, h₂, r₃, h₃, h₄⟩ := h
  exact ⟨r₁, r₂, r₃, h₁, h₂, h₃, h₄⟩


/-- Frame of `setSubgroupBuiltins` for a slot owned by a builtin it does not resolve. -/
theorem setSubgroupBuiltins_frame (shader : SpirvShader) (hdisj : DisjointBuiltins shader)
    (data : Data) (routine routine' : SpirvRoutine) (workgroupID : Int × Int × Int)
    (localInvocationIndex : SIMD.Int) (subgroupIndex : Int)
    (h : setSubgroupBuiltins shader data routine workgroupID localInvocationIndex
      subgroupIndex = some routine')
    (id₀ : BuiltIn) (b₀ : BuiltinMapping) (hb₀ : shader.inputBuiltins id₀ = some b₀)
    (h₁ : id₀ ≠ BuiltIn.LocalInvocationIndex) (h₂ : id₀ ≠ BuiltIn.SubgroupId)
    (h₃ : id₀ ≠ BuiltIn.LocalInvocationId) (h₄ : id₀ ≠ BuiltIn.GlobalInvocationId)
    (c : Nat) (hc₁ : b₀.FirstComponent ≤ c)
    (hc₂ : c < b₀.FirstComponent + b₀.SizeInComponents) :
    routine'.getVariable b₀.Id c = routine.getVariable b₀.Id c := by
  obtain ⟨r₁, r₂, r₃, e₁, e₂, e₃, e₄⟩ := setSubgroupBuiltins_eq_some _ _ _ _ _ _ _ h
  rw [setInputBuiltin_frame_other shader hdisj r₃ routine' _ _
      (writesWithin_forComponents _) e₄ id₀ b₀ hb₀ (Ne.symm h₄) c hc₁ hc₂,
    setInputBuiltin_frame_other shader hdisj r₂ r₃ _ _
      (writesWithin_forComponents _) e₃ id₀ b₀ hb₀ (Ne.symm h₃) c hc₁ hc₂,
    setInputBuiltin_frame_other shader hdisj r₁ r₂ _ _
      (writesWithin_singleComponent _) e₂ id₀ b₀ hb₀ (Ne.symm h₂) c hc₁ hc₂,
    setInputBuiltin_frame_other shader hdisj routine r₁ _ _
      (writesWithin_singleComponent _) e₁ id₀ b₀ hb₀ (Ne.symm h₁) c hc₁ hc₂]

/-- A declared single-component builtin holds the produced value after its resolver step. -/
theorem setInputBuiltin_single (shader : SpirvShader) (routine routine' : SpirvRoutine)
    (id : BuiltIn) (v : SIMD.Int)
    (h : setInputBuiltin shader routine id
      (fun builtin value => singleComponent builtin v value) = some routine')
    (b : BuiltinMapping) (hb : shader.inputBuiltins id = some b) :
    b.SizeInComponents = 1 ∧ routine'.getVariable b.Id b.FirstComponent = v := by
  have hv := setInputBuiltin_value shader routine routine' id _ h b hb
  obtain ⟨hs, hset⟩ := singleComponent_eq_some _ _ _ _ hv
  refine ⟨hs, ?_⟩
  rw [hset, Variable.set_apply, if_pos rfl]

/-- A declared multi-component builtin holds the produced components after its resolver
step. -/
theorem setInputBuiltin_components (shader : SpirvShader) (routine routine' : SpirvRoutine)
    (id : BuiltIn) (f : BuiltinMapping → Nat → SIMD.Int)
    (h : setInputBuiltin shader routine id
      (fun builtin value => some (forComponents builtin (f builtin) value)) = some routine')
    (b : BuiltinMapping) (hb : shader.inputBuiltins id = some b) (c : Nat)
    (hc : c < b.SizeInComponents) :
    routine'.getVariable b.Id (b.FirstComponent + c) = f b c := by
  have hv := setInputBuiltin_value shader routine routine' id _ h b hb
  simp only [Option.some.injEq] at hv
  rw [← hv, forComponents_apply, if_pos (by omega)]
  simp

/-- The subgroup-scope builtins after a successful `setSubgroupBuiltins`. -/
theorem setSubgroupBuiltins_values (shader : SpirvShader) (hdisj : DisjointBuiltins shader)
    (data : Data) (routine routine' : SpirvRoutine) (workgroupID : Int × Int × Int)
    (localInvocationIndex : SIMD.Int) (subgroupIndex : Int)
    (h : setSubgroupBuiltins shader data routine workgroupID localInvocationIndex
      subgroupIndex = some routine') :
    (∀ b, shader.inputBuiltins BuiltIn.LocalInvocationIndex = some b →
      routine'.getVariable b.Id b.FirstComponent = localInvocationIndex) ∧
    (∀ b, shader.inputBuiltins BuiltIn.SubgroupId = some b →
      routine'.getVariable b.Id b.FirstComponent = Int4.broadcast subgroupIndex) := by
  obtain ⟨r₁, r₂, r₃, e₁, e₂, e₃, e₄⟩ := setSubgroupBuiltins_eq_some _ _ _ _ _ _ _ h
  constructor
  · intro b hb
    obtain ⟨hs, hv⟩ := setInputBuiltin_single shader routine r₁ _ _ e₁ b hb
    rw [setInputBuiltin_frame_other shader hdisj r₃ routine' _ _
        (writesWithin_forComponents _) e₄ _ b hb (by decide) _ le_rfl (by omega),
      setInputBuiltin_frame_other shader hdisj r₂ r₃ _ _
        (writesWithin_forComponents _) e₃ _ b hb (by decide) _ le_rfl (by omega),
      setInputBuiltin_frame_other shader hdisj r₁ r₂ _ _
        (writesWithin_singleComponent _) e₂ _ b hb (by decide) _ le_rfl (by omega), hv]
  · intro b hb
    obtain ⟨hs, hv⟩ := setInputBuiltin_single shader r₁ r₂ _ _ e₂ b hb
    rw [setInputBuiltin_frame_other shader hdisj r₃ routine' _ _
        (writesWithin_forComponents _) e₄ _ b hb (by decide) _ le_rfl (by omega),
      setInputBuiltin_frame_other shader hdisj r₂ r₃ _ _
        (writesWithin_forComponents _) e₃ _ b hb (by decide) _ le_rfl (by omega), hv]

/-- The global invocation id after a successful `setSubgroupBuiltins`. -/
theorem setSubgroupBuiltins_global (shader : SpirvShader)
    (data : Data) (routine routine' : SpirvRoutine) (workgroupID : Int × Int × Int)
    (localInvocationIndex : SIMD.Int) (subgroupIndex : Int)
    (h : setSubgroupBuiltins shader data routine workgroupID localInvocationIndex
      subgroupIndex = some routine')
    (b : BuiltinMapping) (hb : shader.inputBuiltins BuiltIn.GlobalInvocationId = some b)
    (c : Nat) (hc : c < b.SizeInComponents) (hc3 : c < 3) (lane : Nat) (hlane : lane < 4) :
    Extract (routine'.getVariable b.Id (b.FirstComponent + c)) lane =
      workgroupIDAt workgroupID c * Extract data.workgroupSize c +
        Extract (localInvocationID data.workgroupSize localInvocationIndex c) lane := by
  obtain ⟨r₁, r₂, r₃, e₁, e₂, e₃, e₄⟩ := setSubgroupBuiltins_eq_some _ _ _ _ _ _ _ h
  rw [setInputBuiltin_components shader r₃ routine' _ _ e₄ b hb c hc,
    Extract_add _ _ _ hlane, Extract_broadcast _ _ hlane]
  congr 1
  rw [mul_comm]
  interval_cases c <;> rfl

/-- The lane ordinals survive `setWorkgroupBuiltins`. -/
theorem setWorkgroupBuiltins_laneOrdinals (shader : SpirvShader)
    (hdisj : DisjointBuiltins shader) (data : Data) (routine routine' : SpirvRoutine)
    (workgroupID : Int × Int × Int)
    (h : setWorkgroupBuiltins shader data routine workgroupID = some routine')
    (b : BuiltinMapping)
    (hb : shader.inputBuiltins BuiltIn.SubgroupLocalInvocationId = some b) :
    b.SizeInComponents = 1 ∧ routine'.getVariable b.Id b.FirstComponent = ⟨0, 1, 2, 3⟩ := by
  simp only [setWorkgroupBuiltins, Option.bind_eq_bind, Option.bind_eq_some] at h
  obtain ⟨r₁, -, r₂, -, r₃, -, r₄, -, r₅, -, r₆, e₆, e₇⟩ := h
  obtain ⟨hs, hv⟩ := setInputBuiltin_single shader r₅ r₆ _ _ e₆ b hb
  refine ⟨hs, ?_⟩
  rw [setInputBuiltin_frame_other shader hdisj r₆ routine' _ _
    (writesWithin_singleComponent _) e₇ _ b hb (by decide) _ le_rfl (by omega), hv]


/-! ## The subgroup loop of `emit` -/

/-- Each recorded call of the subgroup loop: the `k`-th call is for subgroup
`firstSubgroup + (i + k)`, its routine is the result of `setSubgroupBuiltins` on a routine
reached from the initial one, and its mask is the comparison with
`invocationsPerWorkgroup`. -/
theorem emitSubgroups_spec (shader : SpirvShader) (data : Data)
    (workgroupID : Int × Int × Int) (firstSubgroup : Int) (P : SpirvRoutine → Prop)
    (hP : ∀ r r' idx s, P r →
      setSubgroupBuiltins shader data r workgroupID idx s = some r' → P r') :
    ∀ (n : Nat) (i : Int) (routine : SpirvRoutine) (calls : List ShaderCall),
      P routine →
      emitSubgroups shader data workgroupID firstSubgroup n i routine = some calls →
      calls.length = n ∧
      ∀ (k : Nat) (hk : k < calls.length), ∃ prev, P prev ∧
        setSubgroupBuiltins shader data prev workgroupID
          (subgroupLocalInvocationIndex (firstSubgroup + (i + k)))
          (firstSubgroup + (i + k)) = some (calls[k]).routine ∧
        (calls[k]).activeLaneMask =
          CmpLT (subgroupLocalInvocationIndex (firstSubgroup + (i + k)))
            (Int4.broadcast data.invocationsPerWorkgroup) := by
  intro n
  induction n with
  | zero =>
    intro i routine calls _ h
    simp only [emitSubgroups, Option.some.injEq] at h
    subst h
    exact ⟨rfl, fun k hk => absurd hk (by simp)⟩
  | succ n ih =>
    intro i routine calls hr h
    simp only [emitSubgroups] at h
    cases hs : setSubgroupBuiltins shader data routine workgroupID
        (subgroupLocalInvocationIndex (firstSubgroup + i)) (firstSubgroup + i) with
    | none => rw [hs] at h; simp at h
    | some r₁ =>
      rw [hs] at h
      simp only at h
      cases hrest : emitSubgroups shader data workgroupID firstSubgroup n (i + 1) r₁ with
      | none => rw [hrest] at h; simp at h
      | some rest =>
        rw [hrest] at h
        simp only [Option.some.injEq] at h
        subst h
        obtain ⟨hlen, hcalls⟩ := ih (i + 1) r₁ rest (hP _ _ _ _ hr hs) hrest
        refine ⟨by simp [hlen], ?_⟩
        intro k hk
        cases k with
        | zero =>
          refine ⟨routine, hr, ?_, ?_⟩
          · simpa using hs
          · simp
        | succ k =>
          have hk' : k < rest.length := by simpa using hk
          obtain ⟨prev, hprev, h1, h2⟩ := hcalls k hk'
          refine ⟨prev, hprev, ?_, ?_⟩
          · have e : i + ((k + 1 : Nat) : Int) = i + 1 + (k : Int) := by push_cast; ring
            simp only [List.getElem_cons_succ, e]
            exact h1
          · have e : i + ((k + 1 : Nat) : Int) = i + 1 + (k : Int) := by push_cast; ring
            simp only [List.getElem_cons_succ, e]
            exact h2

/-- Specification of `emit`: see `emitSubgroups_spec`; `P` is any property established by
`setWorkgroupBuiltins` and kept by `setSubgroupBuiltins`. -/
theorem emit_spec (shader : SpirvShader) (data : Data) (routine : SpirvRoutine)
    (workgroupX workgroupY workgroupZ firstSubgroup subgroupCount : Int)
    (calls : List ShaderCall)
    (h : emit shader data routine workgroupX workgroupY workgroupZ firstSubgroup
      subgroupCount = some calls)
    (P : SpirvRoutine → Prop)
    (hW : ∀ r', setWorkgroupBuiltins shader data routine
      (workgroupX, workgroupY, workgroupZ) = some r' → P r')
    (hP : ∀ r r' idx s, P r →
      setSubgroupBuiltins shader data r (workgroupX, workgroupY, workgroupZ) idx s = some r' →
        P r') :
    calls.length = subgroupCount.toNat ∧
    ∀ (k : Nat) (hk : k < calls.length), ∃ prev, P prev ∧
      setSubgroupBuiltins shader data prev (workgroupX, workgroupY, workgroupZ)
        (subgroupLocalInvocationIndex (firstSubgroup + k))
        (firstSubgroup + k) = some (calls[k]).routine ∧
      (calls[k]).activeLaneMask =
        CmpLT (subgroupLocalInvocationIndex (firstSubgroup + k))
          (Int4.broadcast data.invocationsPerWorkgroup) := by
  simp only [emit] at h
  cases hw : setWorkgroupBuiltins shader data routine (workgroupX, workgroupY, workgroupZ) with
  | none => rw [hw] at h; simp at h
  | some r₀ =>
    rw [hw] at h
    simp only at h
    have := emitSubgroups_spec shader data (workgroupX, workgroupY, workgroupZ) firstSubgroup
      P hP subgroupCount.toNat 0 r₀ calls (hW r₀ hw) h
    simpa using this

theorem Extract_laneOrdinals (lane : Nat) (hlane : lane < 4) :
    Extract (⟨0, 1, 2, 3⟩ : Int4) lane = (lane : Int) := by
  interval_cases lane <;> rfl

theorem Extract_subgroupLocalInvocationIndex (subgroupIndex : Int) (lane : Nat)
    (hlane : lane < 4) :
    Extract (subgroupLocalInvocationIndex subgroupIndex) lane =
      subgroupIndex * (SIMD.Width : Int) + (lane : Int) := by
  unfold subgroupLocalInvocationIndex
  rw [Extract_add _ _ _ hlane, Extract_broadcast _ _ hlane, Extract_laneOrdinals _ hlane]

theorem laneActive_CmpLT (a b : Int4) (lane : Nat) (hlane : lane < 4) :
    laneActive (CmpLT a b) lane = true ↔ Extract a lane < Extract b lane := by
  unfold laneActive CmpLT
  rw [Extract_zipWith _ _ _ _ hlane]
  by_cases h : Extract a lane < Extract b lane <;> simp [h]

/-- Claim C9. Active lane mask in `emit`: in the `k`-th call of the shader body, which is
for subgroup `s = firstSubgroup + k`, lane `j` is active if and only if its local
invocation index `s * Width + j` is strictly less than `invocationsPerWorkgroup`. -/
theorem C9_active_lane_mask (shader : SpirvShader) (data : Data) (routine : SpirvRoutine)
    (workgroupX workgroupY workgroupZ firstSubgroup subgroupCount : Int)
    (calls : List ShaderCall)
    (hemit : emit shader data routine workgroupX workgroupY workgroupZ firstSubgroup
      subgroupCount = some calls)
    (k : Nat) (hk : k < calls.length) (lane : Nat) (hlane : lane < SIMD.Width) :
    calls.length = subgroupCount.toNat ∧
    (laneActive (calls[k]).activeLaneMask lane = true ↔
      (firstSubgroup + k) * (SIMD.Width : Int) + lane < data.invocationsPerWorkgroup) := by
  obtain ⟨hlen, hcalls⟩ := emit_spec shader data routine workgroupX workgroupY workgroupZ
    firstSubgroup subgroupCount calls hemit (fun _ => True) (fun _ _ => trivial)
    (fun _ _ _ _ _ _ => trivial)
  obtain ⟨prev, -, -, hmask⟩ := hcalls k hk
  refine ⟨hlen, ?_⟩
  rw [hmask, laneActive_CmpLT _ _ _ hlane, Extract_subgroupLocalInvocationIndex _ _ hlane,
    Extract_broadcast _ _ hlane]

/-- Claim C10. Subgroup-scope linear builtins: in the `k`-th call of the shader body, for
subgroup `s = firstSubgroup + k`, every declared builtin among the following holds, in
lane `j`: `SubgroupLocalInvocationId` is `j`, `LocalInvocationIndex` is `s * Width + j`,
and `SubgroupId` is `s`. The builtin mappings of the shader occupy disjoint slots. -/
theorem C10_subgroup_linear_builtins (shader : SpirvShader) (data : Data)
    (routine : SpirvRoutine)
    (workgroupX workgroupY workgroupZ firstSubgroup subgroupCount : Int)
    (calls : List ShaderCall)
    (hdisj : DisjointBuiltins shader)
    (hemit : emit shader data routine workgroupX workgroupY workgroupZ firstSubgroup
      subgroupCount = some calls)
    (k : Nat) (hk : k < calls.length) (lane : Nat) (hlane : lane < SIMD.Width) :
    (∀ b, shader.inputBuiltins BuiltIn.SubgroupLocalInvocationId = some b →
      Extract ((calls[k]).routine.getVariable b.Id b.FirstComponent) lane = lane) ∧
    (∀ b, shader.inputBuiltins BuiltIn.LocalInvocationIndex = some b →
      Extract ((calls[k]).routine.getVariable b.Id b.FirstComponent) lane =
        (firstSubgroup + k) * (SIMD.Width : Int) + lane) ∧
    (∀ b, shader.inputBuiltins BuiltIn.SubgroupId = some b →
      Extract ((calls[k]).routine.getVariable b.Id b.FirstComponent) lane =
        firstSubgroup + k) := by
  have hspec := emit_spec shader data routine workgroupX workgroupY workgroupZ
    firstSubgroup subgroupCount calls hemit
    (fun r => ∀ b, shader.inputBuiltins BuiltIn.SubgroupLocalInvocationId = some b →
      b.SizeInComponents = 1 ∧ r.getVariable b.Id b.FirstComponent = ⟨0, 1, 2, 3⟩)
    (fun r' hw b hb =>
      setWorkgroupBuiltins_laneOrdinals shader hdisj data routine r' _ hw b hb)
    (fun r r' idx s hr hs b hb => by
      obtain ⟨hsz, hv⟩ := hr b hb
      refine ⟨hsz, ?_⟩
      rw [setSubgroupBuiltins_frame shader hdisj data r r' _ idx s hs _ b hb (by decide)
        (by decide) (by decide) (by decide) _ le_rfl (by omega), hv])
  obtain ⟨prev, hprev, hset, -⟩ := hspec.2 k hk
  obtain ⟨hidx, hsid⟩ := setSubgroupBuiltins_values shader hdisj data prev _ _ _ _ hset
  refine ⟨?_, ?_, ?_⟩
  · intro b hb
    obtain ⟨hsz, hv⟩ := hprev b hb
    rw [setSubgroupBuiltins_frame shader hdisj data prev _ _ _ _ hset _ b hb (by decide)
      (by decide) (by decide) (by decide) _ le_rfl (by omega), hv,
      Extract_laneOrdinals _ hlane]
  · intro b hb
    rw [hidx b hb, Extract_subgroupLocalInvocationIndex _ _ hlane]
  · intro b hb
    rw [hsid b hb, Extract_broadcast _ _ hlane]

/-- Claim C2. In the `k`-th call of the shader body of `emit`, for subgroup
`firstSubgroup + k`, every declared component `c` (among x, y, z) of the
`GlobalInvocationId` builtin holds, in every lane,
`workgroupId[c] * workgroupSize[c] + localInvocationId[c]` of that lane. -/
theorem C2_global_invocation_id (shader : SpirvShader) (data : Data)
    (routine : SpirvRoutine)
    (workgroupX workgroupY workgroupZ firstSubgroup subgroupCount : Int)
    (calls : List ShaderCall)
    (hemit : emit shader data routine workgroupX workgroupY workgroupZ firstSubgroup
      subgroupCount = some calls)
    (b : BuiltinMapping) (hb : shader.inputBuiltins BuiltIn.GlobalInvocationId = some b)
    (k : Nat) (hk : k < calls.length) (c : Nat) (hc : c < b.SizeInComponents) (hc3 : c < 3)
    (lane : Nat) (hlane : lane < SIMD.Width) :
    Extract ((calls[k]).routine.getVariable b.Id (b.FirstComponent + c)) lane =
      workgroupIDAt (workgroupX, workgroupY, workgroupZ) c * Extract data.workgroupSize c +
        Extract (localInvocationID data.workgroupSize
          (subgroupLocalInvocationIndex (firstSubgroup + k)) c) lane := by
  obtain ⟨-, hcalls⟩ := emit_spec shader data routine workgroupX workgroupY workgroupZ
    firstSubgroup subgroupCount calls hemit (fun _ => True) (fun _ _ => trivial)
    (fun _ _ _ _ _ _ => trivial)
  obtain ⟨prev, -, hset, -⟩ := hcalls k hk
  exact setSubgroupBuiltins_global shader data prev _ _ _ _ hset b hb c hc hc3 lane hlane

theorem scenario_emit :
    emit scenarioShader scenarioData blankRoutine 1 0 0 0 1 = some scenarioCalls := rfl

theorem scenario_disjoint : DisjointBuiltins scenarioShader := by
  intro id₁ id₂ b₁ b₂ hne h₁ h₂
  cases id₁ <;> cases id₂ <;> simp [scenarioShader] at h₁ h₂ hne ⊢ <;>
    (subst h₁; subst h₂; simp)

/-- Claim C2, instance: workgroup count `(2, 1, 1)`, workgroup size `(4, 1, 1)`, no
barrier; the four lanes of workgroup 1 get `(4,0,0)`, `(5,0,0)`, `(6,0,0)`, `(7,0,0)`. -/
theorem C2_global_invocation_id_witness :
    (scenarioCalls.map fun call =>
        (call.routine.getVariable 1 0, call.routine.getVariable 1 1,
          call.routine.getVariable 1 2)) =
      [(⟨4, 5, 6, 7⟩, ⟨0, 0, 0, 0⟩, ⟨0, 0, 0, 0⟩)] ∧
    Extract ((scenarioCalls.get ⟨0, by decide⟩).routine.getVariable 1 (0 + 0)) 3 =
      workgroupIDAt (1, 0, 0) 0 * Extract scenarioData.workgroupSize 0 +
        Extract (localInvocationID scenarioData.workgroupSize
          (subgroupLocalInvocationIndex (0 + (0 : Nat))) 0) 3 :=
  ⟨by decide,
    C2_global_invocation_id scenarioShader scenarioData blankRoutine 1 0 0 0 1 scenarioCalls
      scenario_emit ⟨1, 0, 3⟩ rfl 0 (by decide) 0 (by decide) (by decide) 3 (by decide)⟩

/-- Claim C9, instance: lane 2 of the only subgroup of the scenario is active. -/
theorem C9_active_lane_mask_witness :
    scenarioCalls.length = (1 : Int).toNat ∧
    (laneActive (scenarioCalls.get ⟨0, by decide⟩).activeLaneMask 2 = true ↔
      ((0 : Int) + (0 : Nat)) * (SIMD.Width : Int) + (2 : Nat) <
        scenarioData.invocationsPerWorkgroup) :=
  C9_active_lane_mask scenarioShader scenarioData blankRoutine 1 0 0 0 1 scenarioCalls
    scenario_emit 0 (by decide) 2 (by decide)

/-! ## The dispatch record -/

/-- The rounding-up division idiom computes the ceiling of the quotient. -/
theorem add_sub_one_div_eq_ceil (n w : Nat) (hw : 0 < w) :
    (n + w - 1) / w = ⌈(n : ℚ) / (w : ℚ)⌉₊ := by
  have hwq : (0 : ℚ) < (w : ℚ) := by exact_mod_cast hw
  symm
  apply le_antisymm
  · rw [Nat.ceil_le, div_le_iff₀ hwq]
    have h : n ≤ (n + w - 1) / w * w := by
      have h1 := Nat.div_add_mod (n + w - 1) w
      have h2 := Nat.mod_lt (n + w - 1) hw
      have h3 : w * ((n + w - 1) / w) = (n + w - 1) / w * w := Nat.mul_comm _ _
      omega
    exact_mod_cast h
  · have h : (n : ℚ) ≤ w * ⌈(n : ℚ) / (w : ℚ)⌉₊ := by
      have := Nat.le_ceil ((n : ℚ) / (w : ℚ))
      rw [div_le_iff₀ hwq] at this
      linarith
    have h' : n ≤ w * ⌈(n : ℚ) / (w : ℚ)⌉₊ := by exact_mod_cast h
    apply Nat.le_of_lt_succ
    rw [Nat.div_lt_iff_lt_mul hw, Nat.succ_mul, Nat.mul_comm]
    omega

/-- Claim C3. The `subgroupsPerWorkgroup` computed by `run`, and stored in the dispatch
record, is the ceiling of `invocationsPerWorkgroup / invocationsPerSubgroup`, where
`invocationsPerWorkgroup` is the product of the workgroup-size components and
`invocationsPerSubgroup` is the SIMD width; 70 invocations in subgroups of 4 give 18. -/
theorem C3_subgroups_per_workgroup (modes : Modes) (groupCountX groupCountY groupCountZ : Nat) :
    subgroupsPerWorkgroup modes =
        ⌈(invocationsPerWorkgroup modes : ℚ) / (invocationsPerSubgroup : ℚ)⌉₊ ∧
      invocationsPerWorkgroup modes =
        modes.WorkgroupSizeX * modes.WorkgroupSizeY * modes.WorkgroupSizeZ ∧
      invocationsPerSubgroup = SIMD.Width ∧
      (dispatchData modes groupCountX groupCountY groupCountZ).subgroupsPerWorkgroup =
        (⌈(invocationsPerWorkgroup modes : ℚ) / (invocationsPerSubgroup : ℚ)⌉₊ : Int) ∧
      (invocationsPerWorkgroup ⟨7, 5, 2, false⟩ = 70 ∧ invocationsPerSubgroup = 4 ∧
        subgroupsPerWorkgroup ⟨7, 5, 2, false⟩ = 18) := by
  have h := add_sub_one_div_eq_ceil (invocationsPerWorkgroup modes) invocationsPerSubgroup
    (by decide)
  refine ⟨h, rfl, rfl, ?_, by decide, by decide, by decide⟩
  show ((subgroupsPerWorkgroup modes : Nat) : Int) = _
  rw [← h]
  rfl

/-! ## Counted loops -/

theorem forLoop_eq_foldlM {m : Type → Type} [Monad m] [LawfulMonad m] {σ : Type}
    (bound : Nat) (body : Nat → σ → m σ) (i : Nat) (s : σ) :
    forLoop bound body i s =
      (List.range' i (bound - i)).foldlM (fun s i => body i s) s := by
  generalize h : bound - i = n
  induction n generalizing i s with
  | zero =>
    rw [forLoop, if_neg (by omega)]
    simp
  | succ n ih =>
    rw [forLoop, if_pos (by omega), List.range'_succ, List.foldlM_cons]
    congr 1
    funext s'
    exact ih (i + 1) s' (by omega)

theorem foldlM_push_eq_map {α β : Type} (f : α → β) (l : List α) (init : List β) :
    Id.run (l.foldlM (fun acc a => (pure (acc ++ [f a]) : Id (List β))) init) =
      init ++ l.map f := by
  induction l generalizing init with
  | nil => simp [Id.run]
  | cons a l ih =>
    rw [List.foldlM_cons]
    simp only [pure_bind, List.map_cons]
    rw [ih]
    simp

/-- The coroutines created for a workgroup, in closed form. -/
theorem createCoroutines_eq (modes : Modes) (data : Data) (groupX groupY groupZ : Nat) :
    createCoroutines modes data groupX groupY groupZ =
      if modes.ContainsControlBarriers then
        (List.range (subgroupsPerWorkgroup modes)).map
          fun i => ⟨data, groupX, groupY, groupZ, i, 1⟩
      else [⟨data, groupX, groupY, groupZ, 0, subgroupsPerWorkgroup modes⟩] := by
  unfold createCoroutines
  split
  · rw [forLoop_eq_foldlM]
    simp only [Nat.sub_zero, List.range_eq_range']
    rw [foldlM_push_eq_map]
    rfl
  · rfl


theorem foldlM_flatMap {m : Type → Type} [Monad m] [LawfulMonad m] {α β σ : Type}
    (l : List α) (f : α → List β) (g : σ → β → m σ) (s : σ) :
    (l.flatMap f).foldlM g s = l.foldlM (fun s a => (f a).foldlM g s) s := by
  induction l generalizing s with
  | nil => simp
  | cons a l ih =>
    rw [List.flatMap_cons, List.foldlM_append, List.foldlM_cons]
    congr 1
    funext s'
    exact ih s'

theorem foldlM_map' {m : Type → Type} [Monad m] [LawfulMonad m] {α β σ : Type}
    (l : List α) (f : α → β) (g : σ → β → m σ) (s : σ) :
    (l.map f).foldlM g s = l.foldlM (fun s a => g s (f a)) s := by
  induction l generalizing s with
  | nil => simp
  | cons a l ih =>
    rw [List.map_cons, List.foldlM_cons, List.foldlM_cons]
    congr 1
    funext s'
    exact ih s'

theorem scheduleInOrder_eq_foldlM {U ρ : Type} (prog : ComputeProgram U ρ) (fuel : Nat)
    (data : Data) (l : List (Nat × Nat × Nat)) (st : RunState U ρ) :
    scheduleInOrder prog fuel data l st =
      l.foldlM (fun st c => runWorkgroup prog fuel data c.1 c.2.1 c.2.2 st) st := by
  induction l generalizing st with
  | nil => rfl
  | cons c l ih =>
    obtain ⟨x, y, z⟩ := c
    rw [List.foldlM_cons]
    simp only [scheduleInOrder, runWorkgroup]
    cases h : scheduleWorkgroup prog fuel data x y z st.machine with
    | none => rfl
    | some r =>
      obtain ⟨trace, m'⟩ := r
      simp only [Option.bind_eq_bind, Option.some_bind]
      exact ih _

/-- The dispatch processes the visited coordinates one workgroup after the other. -/
theorem run_eq_scheduleInOrder {U ρ : Type} (prog : ComputeProgram U ρ) (fuel : Nat)
    (resources : ρ) (baseX baseY baseZ countX countY countZ : Nat) :
    run prog fuel resources baseX baseY baseZ countX countY countZ =
      scheduleInOrder prog fuel (dispatchData prog.shader.modes countX countY countZ)
        (u32GridCoords baseX baseY baseZ countX countY countZ)
        (initialState prog resources) := by
  rw [scheduleInOrder_eq_foldlM]
  simp only [run, forLoop_eq_foldlM, u32GridCoords, foldlM_flatMap, foldlM_map']
  rfl

theorem u32Range_eq (base count : Nat) (h : base + count < 2 ^ 32) :
    u32Range base count = List.range' base count := by
  unfold u32Range
  rw [Nat.mod_eq_of_lt h, Nat.add_sub_cancel_left]

theorem u32GridCoords_eq (baseX baseY baseZ countX countY countZ : Nat)
    (hx : baseX + countX < 2 ^ 32) (hy : baseY + countY < 2 ^ 32)
    (hz : baseZ + countZ < 2 ^ 32) :
    u32GridCoords baseX baseY baseZ countX countY countZ =
      gridCoords baseX baseY baseZ countX countY countZ := by
  unfold u32GridCoords gridCoords
  rw [u32Range_eq _ _ hx, u32Range_eq _ _ hy, u32Range_eq _ _ hz]


theorem scheduleWorkgroup_eq_some {U ρ : Type} (prog : ComputeProgram U ρ) (fuel : Nat)
    (data : Data) (x y z : Nat) (m m' : Machine ρ) (t : WorkgroupTrace U)
    (h : scheduleWorkgroup prog fuel data x y z m = some (t, m')) :
    t.coord = (x, y, z) ∧ t.created = createCoroutines prog.shader.modes data x y z ∧
      drainQueue prog.await fuel (t.created.map prog.call) m = some (t.resumed, m') := by
  simp only [scheduleWorkgroup] at h
  cases hd : drainQueue prog.await fuel
      ((createCoroutines prog.shader.modes data x y z).map prog.call) m with
  | none => rw [hd] at h; simp at h
  | some r =>
    obtain ⟨resumed, m''⟩ := r
    rw [hd] at h
    simp only [Option.some.injEq, Prod.mk.injEq] at h
    obtain ⟨rfl, rfl⟩ := h
    exact ⟨rfl, rfl, hd⟩

/-- What a completed sequence of workgroups leaves in the progress record. -/
theorem scheduleInOrder_traces {U ρ : Type} (prog : ComputeProgram U ρ) (fuel : Nat)
    (data : Data) (l : List (Nat × Nat × Nat)) (st st' : RunState U ρ)
    (h : scheduleInOrder prog fuel data l st = some st') :
    st'.traces.map WorkgroupTrace.coord = st.traces.map WorkgroupTrace.coord ++ l ∧
      ∀ t ∈ st'.traces, t ∈ st.traces ∨
        t.created = createCoroutines prog.shader.modes data t.groupX t.groupY t.groupZ := by
  induction l generalizing st with
  | nil =>
    simp only [scheduleInOrder, Option.some.injEq] at h
    subst h
    exact ⟨by simp, fun t ht => Or.inl ht⟩
  | cons c l ih =>
    obtain ⟨x, y, z⟩ := c
    simp only [scheduleInOrder] at h
    cases hs : scheduleWorkgroup prog fuel data x y z st.machine with
    | none => rw [hs] at h; simp at h
    | some r =>
      obtain ⟨trace, m'⟩ := r
      rw [hs] at h
      obtain ⟨hc, hcr, -⟩ := scheduleWorkgroup_eq_some prog fuel data x y z _ _ _ hs
      obtain ⟨h1, h2⟩ := ih _ h
      constructor
      · rw [h1]
        simp [hc]
      · intro t ht
        rcases h2 t ht with h3 | h3
        · simp only [List.mem_append, List.mem_singleton] at h3
          rcases h3 with h3 | h3
          · exact Or.inl h3
          · right
            subst h3
            have hx : t.groupX = x := congrArg Prod.fst hc
            have hy : t.groupY = y := congrArg (fun p => p.2.1) hc
            have hz : t.groupZ = z := congrArg (fun p => p.2.2) hc
            rw [hcr, hx, hy, hz]
        · exact Or.inr h3

/-- A sequence of workgroups completes when each workgroup's queue drains within the
fuel. -/
theorem scheduleInOrder_isSome {U ρ : Type} (prog : ComputeProgram U ρ) (fuel : Nat)
    (data : Data)
    (hterm : ∀ x y z m, (scheduleWorkgroup prog fuel data x y z m).isSome = true)
    (l : List (Nat × Nat × Nat)) (st : RunState U ρ) :
    ∃ st', scheduleInOrder prog fuel data l st = some st' := by
  induction l generalizing st with
  | nil => exact ⟨st, rfl⟩
  | cons c l ih =>
    obtain ⟨x, y, z⟩ := c
    simp only [scheduleInOrder]
    have := hterm x y z st.machine
    cases hs : scheduleWorkgroup prog fuel data x y z st.machine with
    | none => rw [hs] at this; simp at this
    | some r =>
      obtain ⟨trace, m'⟩ := r
      exact ih _

/-! ## The grid -/

theorem length_gridCoords (baseX baseY baseZ countX countY countZ : Nat) :
    (gridCoords baseX baseY baseZ countX countY countZ).length = countX * countY * countZ := by
  simp [gridCoords, List.length_flatMap, Function.comp_def]
  ring

theorem mem_gridCoords (baseX baseY baseZ countX countY countZ : Nat) (c : Nat × Nat × Nat) :
    c ∈ gridCoords baseX baseY baseZ countX countY countZ ↔
      (baseX ≤ c.1 ∧ c.1 < baseX + countX) ∧ (baseY ≤ c.2.1 ∧ c.2.1 < baseY + countY) ∧
        (baseZ ≤ c.2.2 ∧ c.2.2 < baseZ + countZ) := by
  obtain ⟨x, y, z⟩ := c
  simp only [gridCoords, List.mem_flatMap, List.mem_map, List.mem_range'_1, Prod.mk.injEq]
  constructor
  · rintro ⟨z', hz, y', hy, x', hx, rfl, rfl, rfl⟩
    exact ⟨hx, hy, hz⟩
  · rintro ⟨hx, hy, hz⟩
    exact ⟨z, hz, y, hy, x, hx, rfl, rfl, rfl⟩

theorem pairwise_gridCoords (baseX baseY baseZ countX countY countZ : Nat) :
    (gridCoords baseX baseY baseZ countX countY countZ).Pairwise gridBefore := by
  unfold gridCoords
  rw [List.pairwise_flatMap]
  constructor
  · intro z _
    rw [List.pairwise_flatMap]
    constructor
    · intro y _
      rw [List.pairwise_map]
      exact (List.pairwise_lt_range' baseX countX).imp fun h => Or.inr ⟨rfl, Or.inr ⟨rfl, h⟩⟩
    · refine (List.pairwise_lt_range' baseY countY).imp ?_
      intro y₁ y₂ h a ha b hb
      simp only [List.mem_map] at ha hb
      obtain ⟨_, _, rfl⟩ := ha
      obtain ⟨_, _, rfl⟩ := hb
      exact Or.inr ⟨rfl, Or.inl h⟩
  · refine (List.pairwise_lt_range' baseZ countZ).imp ?_
    intro z₁ z₂ h a ha b hb
    simp only [List.mem_flatMap, List.mem_map] at ha hb
    obtain ⟨_, _, _, _, rfl⟩ := ha
    obtain ⟨_, _, _, _, rfl⟩ := hb
    exact Or.inl h

theorem nodup_gridCoords (baseX baseY baseZ countX countY countZ : Nat) :
    (gridCoords baseX baseY baseZ countX countY countZ).Nodup := by
  refine (pairwise_gridCoords baseX baseY baseZ countX countY countZ).imp ?_
  rintro a b h rfl
  unfold gridBefore at h
  omega

/-! ## The coroutine queue -/

/-- A pass over the front part `q` of the queue: after `q.length` resumptions the queue
holds the units that were behind `q`, followed by the units of `q` that yielded. -/
theorem drainQueue_round {U ρ : Type} (await : U → Machine ρ → Bool × U × Machine ρ)
    (q : List U) : ∀ (acc : List U) (fuel : Nat) (m : Machine ρ),
    drainQueue await (fuel + q.length) (q ++ acc) m =
      (drainQueue await fuel (acc ++ (roundAll await q m).1) (roundAll await q m).2).map
        fun r => (q ++ r.1, r.2) := by
  induction q with
  | nil =>
    intro acc fuel m
    simp only [List.length_nil, Nat.add_zero, List.nil_append, roundAll, List.append_nil]
    cases drainQueue await fuel acc m <;> rfl
  | cons u q ih =>
    intro acc fuel m
    rw [List.length_cons, ← Nat.add_assoc, List.cons_append, drainQueue]
    rcases h : await u m with ⟨y, u', m'⟩
    cases y with
    | true =>
      simp only [roundAll, h]
      rw [List.append_assoc, ih (acc ++ [u']) fuel m', List.append_assoc, List.singleton_append]
      cases drainQueue await fuel (acc ++ u' :: (roundAll await q m').1)
        (roundAll await q m').2 <;> rfl
    | false =>
      simp only [roundAll, h]
      rw [ih acc fuel m']
      cases drainQueue await fuel (acc ++ (roundAll await q m').1)
        (roundAll await q m').2 <;> rfl


/-! ## Units that all reach the same number of barriers -/

theorem roundAll_uniform_succ {ρ : Type} (l : List Nat) (b : Nat) (m : Machine ρ) :
    roundAll BarrierUnit.await (l.map fun i => (⟨i, b + 1⟩ : BarrierUnit)) m =
      (l.map fun i => (⟨i, b⟩ : BarrierUnit), m) := by
  induction l with
  | nil => rfl
  | cons i l ih => simp only [List.map_cons, roundAll, BarrierUnit.await, ih]

theorem roundAll_uniform_zero {ρ : Type} (l : List Nat) (m : Machine ρ) :
    roundAll BarrierUnit.await (l.map fun i => (⟨i, 0⟩ : BarrierUnit)) m = ([], m) := by
  induction l with
  | nil => rfl
  | cons i l ih => simp only [List.map_cons, roundAll, BarrierUnit.await, ih]

theorem length_uniformUnits (n b : Nat) : (uniformUnits n b).length = n := by
  simp [uniformUnits]

theorem drainQueue_uniform {ρ : Type} (n b extra : Nat) (m : Machine ρ) :
    drainQueue BarrierUnit.await (extra + n * (b + 1)) (uniformUnits n b) m =
      some (uniformTrace n b, m) := by
  induction b generalizing extra with
  | zero =>
    have h := drainQueue_round (BarrierUnit.await (ρ := ρ)) (uniformUnits n 0) [] extra m
    rw [length_uniformUnits, List.append_nil] at h
    rw [Nat.zero_add, Nat.mul_one, h]
    simp only [uniformUnits, roundAll_uniform_zero, List.append_nil, drainQueue, Option.map_some',
      uniformTrace]
  | succ b ih =>
    have h := drainQueue_round (BarrierUnit.await (ρ := ρ)) (uniformUnits n (b + 1)) []
      (extra + n * (b + 1)) m
    rw [length_uniformUnits, List.append_nil] at h
    have e : extra + n * (b + 1 + 1) = extra + n * (b + 1) + n := by ring
    rw [e, h]
    simp only [uniformUnits, roundAll_uniform_succ, List.nil_append]
    have := ih extra
    simp only [uniformUnits] at this
    rw [this]
    simp only [Option.map_some', uniformTrace, uniformUnits]

theorem map_subgroup_uniformTrace (n b : Nat) :
    (uniformTrace n b).map BarrierUnit.subgroup = roundRobin n (b + 1) := by
  induction b with
  | zero => simp [uniformTrace, uniformUnits, roundRobin, Function.comp_def]
  | succ b ih =>
    rw [uniformTrace, List.map_append, ih]
    simp [uniformUnits, roundRobin, Function.comp_def]

theorem length_roundRobin (n rounds : Nat) : (roundRobin n rounds).length = n * rounds := by
  induction rounds with
  | zero => simp [roundRobin]
  | succ r ih => simp [roundRobin, ih]; ring

theorem count_range_of_lt (n i : Nat) (h : i < n) : (List.range n).count i = 1 :=
  List.count_eq_one_of_mem (List.nodup_range n) (List.mem_range.2 h)

theorem count_roundRobin (n rounds i : Nat) (h : i < n) :
    (roundRobin n rounds).count i = rounds := by
  induction rounds with
  | zero => simp [roundRobin]
  | succ r ih =>
    rw [roundRobin, List.count_append, ih, count_range_of_lt n i h]
    omega

/-- In the round-robin sequence, position `p` resumes unit `p % n`, which has been
resumed `p / n` times before. -/
theorem roundRobin_position (n rounds p : Nat) (hp : p < n * rounds) :
    (roundRobin n rounds).getD p 0 = p % n ∧
      ((roundRobin n rounds).take p).count (p % n) = p / n := by
  induction rounds generalizing p with
  | zero => omega
  | succ r ih =>
    have hn : 0 < n := by
      rcases Nat.eq_zero_or_pos n with h | h
      · subst h; simp at hp
      · exact h
    rw [roundRobin]
    by_cases hlt : p < n
    · constructor
      · rw [List.getD_append _ _ _ _ (by simpa using hlt)]
        rw [List.getD_eq_getElem _ _ (by simpa using hlt)]
        simp [Nat.mod_eq_of_lt hlt]
      · rw [List.take_append_of_le_length (by simp; omega), Nat.mod_eq_of_lt hlt,
          Nat.div_eq_of_lt hlt]
        rw [List.count_eq_zero]
        intro hmem
        rw [List.take_range, List.mem_range] at hmem
        omega
    · have hge : n ≤ p := Nat.le_of_not_lt hlt
      have hp' : p - n < n * r := by
        have : n * (r + 1) = n * r + n := by ring
        omega
      obtain ⟨h1, h2⟩ := ih (p - n) hp'
      have hmod : (p - n) % n = p % n := by
        conv_rhs => rw [← Nat.sub_add_cancel hge]
        rw [Nat.add_mod_right]
      have hdiv : p / n = (p - n) / n + 1 := by
        conv_lhs => rw [← Nat.sub_add_cancel hge]
        rw [Nat.add_div_right _ hn]
      constructor
      · rw [List.getD_append_right _ _ _ _ (by simpa using hge)]
        simp only [List.length_range]
        rw [h1, hmod]
      · rw [List.take_append_eq_append_take, List.take_of_length_le (by simp; omega),
          List.count_append, List.length_range, ← hmod, h2,
          count_range_of_lt n _ (Nat.mod_lt _ hn), hdiv]
        omega


theorem scheduleWorkgroup_barrierProgram {ρ : Type} (shader : SpirvShader)
    (hbar : shader.modes.ContainsControlBarriers = true) (barriers : Nat → Nat) (fuel : Nat)
    (data : Data) (groupX groupY groupZ : Nat) (m : Machine ρ) :
    scheduleWorkgroup (barrierProgram ρ shader barriers) fuel data groupX groupY groupZ m =
      (drainQueue BarrierUnit.await fuel
        ((List.range (subgroupsPerWorkgroup shader.modes)).map fun i => ⟨i, barriers i⟩) m).map
        fun r => (⟨groupX, groupY, groupZ,
          createCoroutines shader.modes data groupX groupY groupZ, r.1⟩, r.2) := by
  simp only [scheduleWorkgroup, barrierProgram, createCoroutines_eq, hbar, if_true,
    List.map_map, Function.comp_def]
  cases drainQueue BarrierUnit.await fuel
    ((List.range (subgroupsPerWorkgroup shader.modes)).map fun i => ⟨i, barriers i⟩) m <;> rfl

/-- Claim C5. Barrier ordering of the scheduler loop: for a barrier-bearing workgroup of
`n` units that each return `suspended` exactly `b` times and then `completed`, the loop
exits, every unit is resumed `b + 1` times, and whenever a position of the sequence of
resumptions is some unit's `k`-th resumption and another position is some unit's
`(k+1)`-th resumption, the first position comes before the second. -/
theorem C5_barrier_ordering (ρ : Type) (shader : SpirvShader)
    (hbar : shader.modes.ContainsControlBarriers = true) (b fuel : Nat)
    (hfuel : subgroupsPerWorkgroup shader.modes * (b + 1) ≤ fuel)
    (data : Data) (groupX groupY groupZ : Nat) (m : Machine ρ) :
    ∃ t, scheduleWorkgroup (barrierProgram ρ shader fun _ => b) fuel data groupX groupY groupZ m
        = some (t, m) ∧
      (∀ i, i < subgroupsPerWorkgroup shader.modes →
        (t.resumed.map BarrierUnit.subgroup).count i = b + 1) ∧
      ∀ p q, p < t.resumed.length → q < t.resumed.length →
        resumptionOrdinal (t.resumed.map BarrierUnit.subgroup) p + 1 =
          resumptionOrdinal (t.resumed.map BarrierUnit.subgroup) q → p < q := by
  have hd := drainQueue_uniform (fuel - subgroupsPerWorkgroup shader.modes * (b + 1))
    (n := subgroupsPerWorkgroup shader.modes) (b := b) (m := m)
  rw [Nat.sub_add_cancel hfuel] at hd
  refine ⟨⟨groupX, groupY, groupZ, createCoroutines shader.modes data groupX groupY groupZ,
    uniformTrace (subgroupsPerWorkgroup shader.modes) b⟩, ?_, ?_, ?_⟩
  · rw [scheduleWorkgroup_barrierProgram _ hbar]
    simp only [uniformUnits] at hd
    rw [hd]
    rfl
  · intro i hi
    simp only [map_subgroup_uniformTrace]
    exact count_roundRobin _ _ _ hi
  · intro p q hp hq hord
    simp only [map_subgroup_uniformTrace] at hord
    have hlen : (uniformTrace (subgroupsPerWorkgroup shader.modes) b).length =
        subgroupsPerWorkgroup shader.modes * (b + 1) := by
      rw [← List.length_map _ BarrierUnit.subgroup, map_subgroup_uniformTrace,
        length_roundRobin]
    simp only [hlen] at hp hq
    obtain ⟨hp1, hp2⟩ := roundRobin_position _ _ p hp
    obtain ⟨hq1, hq2⟩ := roundRobin_position _ _ q hq
    unfold resumptionOrdinal at hord
    rw [hp1, hq1, hp2, hq2] at hord
    by_contra hge
    have : q / subgroupsPerWorkgroup shader.modes ≤ p / subgroupsPerWorkgroup shader.modes :=
      Nat.div_le_div_right (Nat.le_of_not_lt hge)
    omega

/-! ## Units with individual barrier counts -/

/-- The invariant of the scheduler loop on barrier-counting units with distinct subgroups:
the loop exits within the pending resumptions, leaves the memory alone, resumes only
units of the queue, resumes each unit once more than its barrier count, and a later
resumption of a unit finds strictly fewer barriers remaining. -/
theorem drainQueue_barrierUnits {ρ : Type} (m : Machine ρ) :
    ∀ (fuel : Nat) (q : List BarrierUnit), pendingResumptions q ≤ fuel →
      (q.map BarrierUnit.subgroup).Nodup →
      ∃ resumed, drainQueue BarrierUnit.await fuel q m = some (resumed, m) ∧
        (∀ t ∈ resumed, ∃ u ∈ q, t.subgroup = u.subgroup ∧ t.remaining ≤ u.remaining) ∧
        (∀ u ∈ q, (resumed.map BarrierUnit.subgroup).count u.subgroup = u.remaining + 1) ∧
        resumed.Pairwise fun a c => a.subgroup = c.subgroup → c.remaining < a.remaining := by
  intro fuel
  induction fuel with
  | zero =>
    intro q hq _
    cases q with
    | nil => exact ⟨[], rfl, by simp, by simp, List.Pairwise.nil⟩
    | cons u rest => simp [pendingResumptions] at hq
  | succ fuel ih =>
    intro q hq hnd
    cases q with
    | nil => exact ⟨[], rfl, by simp, by simp, List.Pairwise.nil⟩
    | cons u rest =>
      obtain ⟨i, r⟩ := u
      simp only [List.map_cons, List.nodup_cons, List.mem_map, not_exists, not_and] at hnd
      obtain ⟨hi, hnd'⟩ := hnd
      have hq' : r + 1 + pendingResumptions rest ≤ fuel + 1 := by
        simpa [pendingResumptions] using hq
      cases r with
      | zero =>
        obtain ⟨resumed, hd, hmem, hcount, hpw⟩ := ih rest (by omega) hnd'
        have hnot : ∀ t ∈ resumed, t.subgroup ≠ i := by
          intro t ht hti
          obtain ⟨u, hu, hsub, -⟩ := hmem t ht
          exact hi u hu (hsub ▸ hti)
        refine ⟨⟨i, 0⟩ :: resumed, ?_, ?_, ?_, ?_⟩
        · simp only [drainQueue, BarrierUnit.await, hd]
        · intro t ht
          rcases List.mem_cons.1 ht with rfl | ht
          · exact ⟨_, List.mem_cons_self _ _, rfl, le_rfl⟩
          · obtain ⟨u, hu, h⟩ := hmem t ht
            exact ⟨u, List.mem_cons_of_mem _ hu, h⟩
        · intro u hu
          rcases List.mem_cons.1 hu with rfl | hu
          · have : (resumed.map BarrierUnit.subgroup).count i = 0 := by
              rw [List.count_eq_zero]
              intro h
              obtain ⟨t, ht, hti⟩ := List.mem_map.1 h
              exact hnot t ht hti
            simp [this]
          · have hne : i ≠ u.subgroup := fun h => hi u hu h.symm
            rw [List.map_cons]
            show List.count u.subgroup (i :: _) = _
            rw [List.count_cons_of_ne hne.symm]
            exact hcount u hu
        · refine List.Pairwise.cons ?_ hpw
          intro c hc hic
          exact absurd hic.symm (hnot c hc)
      | succ r =>
        have hnd'' : ((rest ++ [(⟨i, r⟩ : BarrierUnit)]).map BarrierUnit.subgroup).Nodup := by
          rw [List.map_append, List.nodup_append]
          refine ⟨hnd', by simp, ?_⟩
          intro a ha hb
          simp only [List.map_cons, List.map_nil, List.mem_singleton] at hb
          obtain ⟨u, hu, rfl⟩ := List.mem_map.1 ha
          exact hi u hu hb
        have hpend : pendingResumptions (rest ++ [(⟨i, r⟩ : BarrierUnit)]) ≤ fuel := by
          simp only [pendingResumptions, List.map_append, List.sum_append, List.map_cons,
            List.map_nil, List.sum_cons, List.sum_nil] at hq' ⊢
          omega
        obtain ⟨resumed, hd, hmem, hcount, hpw⟩ := ih (rest ++ [⟨i, r⟩]) hpend hnd''
        have hbound : ∀ t ∈ resumed, t.subgroup = i → t.remaining ≤ r := by
          intro t ht hti
          obtain ⟨u, hu, hsub, hrem⟩ := hmem t ht
          rcases List.mem_append.1 hu with hu | hu
          · exact absurd (hsub ▸ hti) (hi u hu)
          · rw [List.mem_singleton] at hu
            subst hu
            exact hrem
        refine ⟨⟨i, r + 1⟩ :: resumed, ?_, ?_, ?_, ?_⟩
        · simp only [drainQueue, BarrierUnit.await, hd]
        · intro t ht
          rcases List.mem_cons.1 ht with rfl | ht
          · exact ⟨_, List.mem_cons_self _ _, rfl, le_rfl⟩
          · obtain ⟨u, hu, hsub, hrem⟩ := hmem t ht
            rcases List.mem_append.1 hu with hu | hu
            · exact ⟨u, List.mem_cons_of_mem _ hu, hsub, hrem⟩
            · rw [List.mem_singleton] at hu
              subst hu
              exact ⟨_, List.mem_cons_self _ _, hsub, Nat.le_succ_of_le hrem⟩
        · intro u hu
          rcases List.mem_cons.1 hu with rfl | hu
          · have := hcount ⟨i, r⟩ (List.mem_append.2 (Or.inr (List.mem_singleton.2 rfl)))
            simp only at this
            simp [this]
          · have hne : i ≠ u.subgroup := fun h => hi u hu h.symm
            rw [List.map_cons]
            show List.count u.subgroup (i :: _) = _
            rw [List.count_cons_of_ne hne.symm]
            exact hcount u (List.mem_append.2 (Or.inl hu))
        · refine List.Pairwise.cons ?_ hpw
          intro c hc hic
          have := hbound c hc hic.symm
          simp only
          omega


theorem map_subgroup_barrierUnits (i : Nat) (bs : List Nat) :
    (barrierUnits i bs).map BarrierUnit.subgroup = List.range' i bs.length := by
  induction bs generalizing i with
  | nil => rfl
  | cons b bs ih => simp [barrierUnits, ih, List.range'_succ]

theorem pendingResumptions_barrierUnits (i : Nat) (bs : List Nat) :
    pendingResumptions (barrierUnits i bs) = bs.sum + bs.length := by
  induction bs generalizing i with
  | nil => rfl
  | cons b bs ih =>
    have := ih (i + 1)
    simp only [pendingResumptions] at this
    simp only [pendingResumptions, barrierUnits, List.map_cons, List.sum_cons, this,
      List.length_cons]
    omega

theorem mem_barrierUnits (i : Nat) (bs : List Nat) (k : Nat) (hk : k < bs.length) :
    (⟨i + k, bs[k]⟩ : BarrierUnit) ∈ barrierUnits i bs := by
  induction bs generalizing i k with
  | nil => simp at hk
  | cons b bs ih =>
    cases k with
    | zero => simp [barrierUnits]
    | succ k =>
      have hk' : k < bs.length := by simpa using hk
      have := ih (i + 1) k hk'
      rw [barrierUnits, List.mem_cons]
      right
      have e : i + (k + 1) = i + 1 + k := by omega
      simpa [e] using this

/-- Claim C7. Scheduler termination and resumption count: for every list of per-unit
barrier counts `b_0 .. b_(n-1)` the loop exits (with the queue empty) within
`Σ (b_i + 1)` resumptions, unit `i` is resumed exactly `b_i + 1` times, and no unit is
resumed after a resumption of it returned `completed`: every resumption that is followed
by a later resumption of the same unit returned `suspended`. -/
theorem C7_scheduler_termination (ρ : Type) (bs : List Nat) (fuel : Nat)
    (hfuel : bs.sum + bs.length ≤ fuel) (m : Machine ρ) :
    ∃ resumed, drainQueue BarrierUnit.await fuel (barrierUnits 0 bs) m = some (resumed, m) ∧
      (∀ (i : Nat) (hi : i < bs.length),
        (resumed.map BarrierUnit.subgroup).count i = bs[i] + 1) ∧
      resumed.Pairwise fun earlier later =>
        earlier.subgroup = later.subgroup → (BarrierUnit.await earlier m).1 = true := by
  obtain ⟨resumed, hd, -, hcount, hpw⟩ := drainQueue_barrierUnits m fuel (barrierUnits 0 bs)
    (by rw [pendingResumptions_barrierUnits]; exact hfuel)
    (by rw [map_subgroup_barrierUnits]; exact List.nodup_range' _ _)
  refine ⟨resumed, hd, ?_, ?_⟩
  · intro i hi
    have := hcount _ (mem_barrierUnits 0 bs i hi)
    simpa using this
  · refine hpw.imp ?_
    intro a c h hac
    have hlt := h hac
    unfold BarrierUnit.await
    cases hr : a.remaining with
    | zero => omega
    | succ r => rfl

/-! ## The one-barrier convergence program -/

theorem roundAll_sum_before (n : Nat) (l : List Nat) (m : Machine (Nat → Option Nat)) :
    roundAll SumUnit.await (l.map fun i => (⟨i, n, false⟩ : SumUnit)) m =
      (l.map fun i => (⟨i, n, true⟩ : SumUnit),
        { m with workgroupMemory := l.foldl (fun mem i => mem.set i i) m.workgroupMemory }) := by
  induction l generalizing m with
  | nil => rfl
  | cons i l ih =>
    simp only [List.map_cons, roundAll, SumUnit.await, Bool.false_eq_true, if_false, ih,
      List.foldl_cons]

theorem roundAll_sum_after (n : Nat) (l : List Nat) (m : Machine (Nat → Option Nat)) :
    roundAll SumUnit.await (l.map fun i => (⟨i, n, true⟩ : SumUnit)) m =
      ([], { m with resources := (l.foldl
        (fun res i => fun j => if j = i then some (cellSum n m.workgroupMemory) else res j)
        m.resources) }) := by
  induction l generalizing m with
  | nil => rfl
  | cons i l ih =>
    simp only [List.map_cons, roundAll, SumUnit.await, if_true, ih, List.foldl_cons]
    rfl

theorem length_foldl_set (l : List Nat) (mem : List Nat) :
    (l.foldl (fun mem i => mem.set i i) mem).length = mem.length := by
  induction l generalizing mem with
  | nil => rfl
  | cons i l ih => rw [List.foldl_cons, ih, List.length_set]

/-- After the first pass every cell below `n` holds its own index. -/
theorem getD_foldl_set_range (n : Nat) (mem : List Nat) (hn : n ≤ mem.length) (k : Nat)
    (hk : k < n) :
    ((List.range n).foldl (fun mem i => mem.set i i) mem).getD k 0 = k := by
  induction n with
  | zero => omega
  | succ n ih =>
    rw [List.range_succ, List.foldl_append, List.foldl_cons, List.foldl_nil]
    have hlen := length_foldl_set (List.range n) mem
    by_cases hkn : k = n
    · subst hkn
      rw [List.getD_eq_getElem _ _ (by rw [List.length_set, hlen]; omega)]
      simp
    · rw [List.getD_eq_getElem _ _ (by rw [List.length_set, hlen]; omega),
        List.getElem_set_ne (Ne.symm hkn)]
      have := ih (by omega) (by omega)
      rw [List.getD_eq_getElem _ _ (by rw [hlen]; omega)] at this
      exact this

theorem cellSum_foldl_set_range (n : Nat) (mem : List Nat) (hn : n ≤ mem.length) :
    cellSum n ((List.range n).foldl (fun mem i => mem.set i i) mem) = (List.range n).sum := by
  unfold cellSum
  congr 1
  conv_rhs => rw [← List.map_id (List.range n)]
  apply List.map_congr_left
  intro k hk
  exact getD_foldl_set_range n mem hn k (List.mem_range.1 hk)

theorem foldl_update_range (n : Nat) (s : Nat) (res : Nat → Option Nat) (i : Nat) (hi : i < n) :
    (List.range n).foldl (fun res i => fun j => if j = i then some s else res j) res i =
      some s := by
  induction n with
  | zero => omega
  | succ n ih =>
    rw [List.range_succ, List.foldl_append, List.foldl_cons, List.foldl_nil]
    by_cases hin : i = n
    · simp [hin]
    · simp only [if_neg hin]
      exact ih (by omega)


theorem drainQueue_sumUnits (n extra : Nat) (m : Machine (Nat → Option Nat)) :
    drainQueue SumUnit.await (extra + n + n)
        ((List.range n).map fun i => (⟨i, n, false⟩ : SumUnit)) m =
      some (((List.range n).map fun i => (⟨i, n, false⟩ : SumUnit)) ++
          ((List.range n).map fun i => (⟨i, n, true⟩ : SumUnit)),
        ⟨(List.range n).foldl (fun mem i => mem.set i i) m.workgroupMemory,
          (List.range n).foldl
            (fun res i => fun j =>
              if j = i then
                some (cellSum n
                  ((List.range n).foldl (fun mem i => mem.set i i) m.workgroupMemory))
              else res j)
            m.resources⟩) := by
  have h₁ := drainQueue_round SumUnit.await
    ((List.range n).map fun i => (⟨i, n, false⟩ : SumUnit)) [] (extra + n) m
  have h₂ := drainQueue_round SumUnit.await
    ((List.range n).map fun i => (⟨i, n, true⟩ : SumUnit)) [] extra
    ⟨(List.range n).foldl (fun mem i => mem.set i i) m.workgroupMemory, m.resources⟩
  simp only [List.length_map, List.length_range, List.append_nil, roundAll_sum_before,
    roundAll_sum_after, List.nil_append] at h₁ h₂
  rw [h₁, h₂]
  simp only [drainQueue, Option.map_some', List.append_nil]

/-- Claim C6. Barrier convergence on workgroup memory: for the one-barrier program whose
unit `i` writes `i` to cell `i` before the barrier and sums the cells `0 .. n-1` after it,
with `n = subgroupsPerWorkgroup ≥ 1` units and any initial content of a workgroup memory
that has the `n` cells, the scheduler exits and every unit has computed the same sum
`0 + 1 + ... + (n-1)`. -/
theorem C6_barrier_convergence (shader : SpirvShader)
    (hbar : shader.modes.ContainsControlBarriers = true)
    (groupCountX groupCountY groupCountZ groupX groupY groupZ : Nat)
    (m : Machine (Nat → Option Nat))
    (_hn : 1 ≤ subgroupsPerWorkgroup shader.modes)
    (hmem : subgroupsPerWorkgroup shader.modes ≤ m.workgroupMemory.length)
    (fuel : Nat) (hfuel : 2 * subgroupsPerWorkgroup shader.modes ≤ fuel) :
    ∃ t m', scheduleWorkgroup (sumProgram shader) fuel
        (dispatchData shader.modes groupCountX groupCountY groupCountZ)
        groupX groupY groupZ m = some (t, m') ∧
      ∀ i, i < subgroupsPerWorkgroup shader.modes →
        m'.resources i = some (List.range (subgroupsPerWorkgroup shader.modes)).sum := by
  have hd := drainQueue_sumUnits (subgroupsPerWorkgroup shader.modes)
    (fuel - 2 * subgroupsPerWorkgroup shader.modes) m
  have e : fuel - 2 * subgroupsPerWorkgroup shader.modes + subgroupsPerWorkgroup shader.modes +
      subgroupsPerWorkgroup shader.modes = fuel := by omega
  rw [e] at hd
  have hq : (createCoroutines shader.modes
        (dispatchData shader.modes groupCountX groupCountY groupCountZ)
        groupX groupY groupZ).map (sumProgram shader).call =
      (List.range (subgroupsPerWorkgroup shader.modes)).map
        fun i => (⟨i, subgroupsPerWorkgroup shader.modes, false⟩ : SumUnit) := by
    simp only [createCoroutines_eq, hbar, if_true, List.map_map, Function.comp_def, sumProgram,
      dispatchData, Int.toNat_ofNat]
  simp only [scheduleWorkgroup]
  rw [show (sumProgram shader).shader = shader from rfl, hq,
    show (sumProgram shader).await = SumUnit.await from rfl, hd]
  refine ⟨_, _, rfl, ?_⟩
  intro i hi
  simp only
  rw [foldl_update_range _ _ _ i hi, cellSum_foldl_set_range _ _ hmem]

/-! ## The workgroups of a dispatch -/

theorem scenario_run : run scenarioProgram 1 () 0 0 0 2 1 1 = some scenarioRun := by
  rw [run_eq_scheduleInOrder, u32GridCoords_eq _ _ _ _ _ _ (by decide) (by decide) (by decide)]
  rfl

/-- Claim C4. For every workgroup processed by `run`: without control barriers exactly
one unit is created, with `firstSubgroup = 0` and `subgroupCount = subgroupsPerWorkgroup`;
with control barriers exactly `subgroupsPerWorkgroup` units are created, the `i`-th (in
queue order) with `firstSubgroup = i` and `subgroupCount = 1`. -/
theorem C4_units_per_workgroup {U ρ : Type} (prog : ComputeProgram U ρ) (fuel : Nat)
    (resources : ρ) (baseX baseY baseZ countX countY countZ : Nat) (st : RunState U ρ)
    (hrun : run prog fuel resources baseX baseY baseZ countX countY countZ = some st)
    (t : WorkgroupTrace U) (ht : t ∈ st.traces) :
    (prog.shader.modes.ContainsControlBarriers = false →
      t.created = [⟨dispatchData prog.shader.modes countX countY countZ,
        t.groupX, t.groupY, t.groupZ, 0, subgroupsPerWorkgroup prog.shader.modes⟩]) ∧
    (prog.shader.modes.ContainsControlBarriers = true →
      t.created.length = subgroupsPerWorkgroup prog.shader.modes ∧
      ∀ (i : Nat) (hi : i < t.created.length),
        t.created[i] = ⟨dispatchData prog.shader.modes countX countY countZ,
          t.groupX, t.groupY, t.groupZ, i, 1⟩) := by
  rw [run_eq_scheduleInOrder] at hrun
  obtain ⟨-, hcreated⟩ := scheduleInOrder_traces _ _ _ _ _ _ hrun
  have hc : t.created = createCoroutines prog.shader.modes
      (dispatchData prog.shader.modes countX countY countZ) t.groupX t.groupY t.groupZ := by
    rcases hcreated t ht with h | h
    · simp [initialState] at h
    · exact h
  rw [createCoroutines_eq] at hc
  constructor
  · intro hb
    rw [hc, hb]
    rfl
  · intro hb
    rw [hb, if_pos rfl] at hc
    constructor
    · rw [hc]; simp
    · intro i hi
      simp only [hc, List.getElem_map, List.getElem_range]

theorem scenario_run_length : 1 < scenarioRun.traces.length := by decide

/-- Claim C4, instance: the second workgroup of the scenario dispatch (no barrier). -/
theorem C4_units_per_workgroup_witness :
    run scenarioProgram 1 () 0 0 0 2 1 1 = some scenarioRun ∧
      (scenarioRun.traces.get ⟨1, scenario_run_length⟩).created =
        [⟨dispatchData scenarioProgram.shader.modes 2 1 1,
          (scenarioRun.traces.get ⟨1, scenario_run_length⟩).groupX,
          (scenarioRun.traces.get ⟨1, scenario_run_length⟩).groupY,
          (scenarioRun.traces.get ⟨1, scenario_run_length⟩).groupZ, 0,
          subgroupsPerWorkgroup scenarioProgram.shader.modes⟩] :=
  ⟨scenario_run,
    (C4_units_per_workgroup scenarioProgram 1 () 0 0 0 2 1 1 scenarioRun scenario_run
      (scenarioRun.traces.get ⟨1, scenario_run_length⟩) (List.get_mem _ _ _)).1 rfl⟩

/-- Claim C8, as amended. Grid iteration of `run`: for a base coordinate and a workgroup
count (each count at least 1) whose sums `base + count` stay below `2 ^ 32` on every
axis, and a program whose workgroups each drain within the fuel, the dispatch returns;
the workgroups processed are exactly the coordinates `(x, y, z)` with
`base ≤ coordinate < base + count` per axis, each once (`cx * cy * cz` in total), in the
order `z` outermost, then `y`, then `x` fastest; and each workgroup is drained, on the
memory its predecessor left, before the next one starts. -/
theorem C8_grid_iteration {U ρ : Type} (prog : ComputeProgram U ρ) (fuel : Nat)
    (resources : ρ) (baseX baseY baseZ countX countY countZ : Nat)
    (_hcx : 1 ≤ countX) (_hcy : 1 ≤ countY) (_hcz : 1 ≤ countZ)
    (hx : baseX + countX < 2 ^ 32) (hy : baseY + countY < 2 ^ 32)
    (hz : baseZ + countZ < 2 ^ 32)
    (hterm : ∀ x y z m, (scheduleWorkgroup prog fuel
      (dispatchData prog.shader.modes countX countY countZ) x y z m).isSome = true) :
    GridIterationExact prog fuel resources baseX baseY baseZ countX countY countZ ∧
      run prog fuel resources baseX baseY baseZ countX countY countZ =
        scheduleInOrder prog fuel (dispatchData prog.shader.modes countX countY countZ)
          (gridCoords baseX baseY baseZ countX countY countZ) (initialState prog resources) ∧
      (gridCoords baseX baseY baseZ countX countY countZ).length = countX * countY * countZ ∧
      (∀ c, c ∈ gridCoords baseX baseY baseZ countX countY countZ ↔
        (baseX ≤ c.1 ∧ c.1 < baseX + countX) ∧ (baseY ≤ c.2.1 ∧ c.2.1 < baseY + countY) ∧
          (baseZ ≤ c.2.2 ∧ c.2.2 < baseZ + countZ)) ∧
      (gridCoords baseX baseY baseZ countX countY countZ).Nodup ∧
      (gridCoords baseX baseY baseZ countX countY countZ).Pairwise gridBefore := by
  have hrun := run_eq_scheduleInOrder prog fuel resources baseX baseY baseZ countX countY countZ
  rw [u32GridCoords_eq _ _ _ _ _ _ hx hy hz] at hrun
  obtain ⟨st, hst⟩ := scheduleInOrder_isSome prog fuel _ hterm
    (gridCoords baseX baseY baseZ countX countY countZ) (initialState prog resources)
  refine ⟨⟨st, hrun.trans hst, ?_⟩, hrun, length_gridCoords _ _ _ _ _ _,
    mem_gridCoords _ _ _ _ _ _, nodup_gridCoords _ _ _ _ _ _, pairwise_gridCoords _ _ _ _ _ _⟩
  have := (scheduleInOrder_traces _ _ _ _ _ _ hst).1
  simpa [initialState] using this

/-- Claim C8, instance: the scenario dispatch, base `(0, 0, 0)` and count `(2, 1, 1)`. -/
theorem C8_grid_iteration_witness :
    GridIterationExact scenarioProgram 1 () 0 0 0 2 1 1 ∧
      gridCoords 0 0 0 2 1 1 = [(0, 0, 0), (1, 0, 0)] :=
  ⟨(C8_grid_iteration scenarioProgram 1 () 0 0 0 2 1 1 (by decide) (by decide) (by decide)
      (by decide) (by decide) (by decide) (fun _ _ _ _ => rfl)).1, by decide⟩

/-- Claim C8 as stated fails where a loop bound wraps: with base `x = 2 ^ 32 - 1` and
count `(1, 1, 1)`, unsigned 32-bit values with each count at least 1, the bound
`base + count` is `0` in `uint32_t`; `run` returns having processed no workgroup, although
the coordinate `(2 ^ 32 - 1, 0, 0)` lies in the stated range and `1 * 1 * 1` workgroups
are due. -/
theorem C8_grid_iteration_counterexample :
    (4294967295 < 2 ^ 32 ∧ (1 : Nat) < 2 ^ 32) ∧
      (run scenarioProgram 1 () 4294967295 0 0 1 1 1).map (fun st => st.traces.length) =
        some 0 ∧
      (4294967295, 0, 0) ∈ gridCoords 4294967295 0 0 1 1 1 ∧
      ¬ GridIterationExact scenarioProgram 1 () 4294967295 0 0 1 1 1 := by
  have hnone : u32GridCoords 4294967295 0 0 1 1 1 = [] := by decide
  have hgrid : gridCoords 4294967295 0 0 1 1 1 = [(4294967295, 0, 0)] := by decide
  have hrun : run scenarioProgram 1 () 4294967295 0 0 1 1 1 =
      some (initialState scenarioProgram ()) := by
    rw [run_eq_scheduleInOrder, hnone]
    rfl
  refine ⟨by decide, ?_, ?_, ?_⟩
  · rw [hrun]
    rfl
  · rw [hgrid]
    exact List.mem_singleton.2 rfl
  · rintro ⟨st, hst, hcoords⟩
    rw [hrun, Option.some.injEq] at hst
    subst hst
    rw [hgrid] at hcoords
    simp [initialState] at hcoords

/-! ## Instances of the scheduler claims -/

/-- Claim C5, instance: two units with one barrier each, within four resumptions. -/
theorem C5_barrier_ordering_witness :
    subgroupsPerWorkgroup barrierShader.modes * (1 + 1) ≤ 4 ∧
    ∃ t, scheduleWorkgroup (barrierProgram Unit barrierShader fun _ => 1) 4
          (dispatchData barrierShader.modes 1 1 1) 0 0 0 ⟨[0, 0], ()⟩ = some (t, ⟨[0, 0], ()⟩) ∧
      (∀ i, i < subgroupsPerWorkgroup barrierShader.modes →
        (t.resumed.map BarrierUnit.subgroup).count i = 1 + 1) ∧
      ∀ p q, p < t.resumed.length → q < t.resumed.length →
        resumptionOrdinal (t.resumed.map BarrierUnit.subgroup) p + 1 =
          resumptionOrdinal (t.resumed.map BarrierUnit.subgroup) q → p < q :=
  ⟨by decide,
    C5_barrier_ordering Unit barrierShader rfl 1 4 (by decide)
      (dispatchData barrierShader.modes 1 1 1) 0 0 0 ⟨[0, 0], ()⟩⟩

/-- Claim C6, instance: two units on a memory that starts as `[7, 9]` both compute
`0 + 1`. -/
theorem C6_barrier_convergence_witness :
    (1 ≤ subgroupsPerWorkgroup barrierShader.modes ∧
      subgroupsPerWorkgroup barrierShader.modes ≤ [7, 9].length ∧
      2 * subgroupsPerWorkgroup barrierShader.modes ≤ 4) ∧
    ∃ t m', scheduleWorkgroup (sumProgram barrierShader) 4
          (dispatchData barrierShader.modes 1 1 1) 0 0 0 ⟨[7, 9], fun _ => none⟩ = some (t, m') ∧
      ∀ i, i < subgroupsPerWorkgroup barrierShader.modes →
        m'.resources i = some (List.range (subgroupsPerWorkgroup barrierShader.modes)).sum :=
  ⟨⟨by decide, by decide, by decide⟩,
    C6_barrier_convergence barrierShader rfl 1 1 1 0 0 0 ⟨[7, 9], fun _ => none⟩ (by decide)
      (by decide) 4 (by decide)⟩

/-- Claim C7, instance: barrier counts `2, 0, 1` drain within six resumptions. -/
theorem C7_scheduler_termination_witness :
    [2, 0, 1].sum + [2, 0, 1].length ≤ 6 ∧
    ∃ resumed, drainQueue BarrierUnit.await 6 (barrierUnits 0 [2, 0, 1]) ⟨[], ()⟩ =
        some (resumed, ⟨[], ()⟩) ∧
      (∀ (i : Nat) (hi : i < [2, 0, 1].length),
        (resumed.map BarrierUnit.subgroup).count i = [2, 0, 1][i] + 1) ∧
      resumed.Pairwise fun earlier later =>
        earlier.subgroup = later.subgroup →
          (BarrierUnit.await earlier (⟨[], ()⟩ : Machine Unit)).1 = true :=
  ⟨by decide, C7_scheduler_termination Unit [2, 0, 1] 6 (by decide) ⟨[], ()⟩⟩

/-- Claim C10, instance: lane 3 of the call for subgroup 0 of the scenario, whose shader
declares the three builtins in variables 4, 2 and 3. -/
theorem C10_subgroup_linear_builtins_witness :
    DisjointBuiltins scenarioShader ∧
    Extract ((scenarioCalls.get ⟨0, by decide⟩).routine.getVariable 4 0) 3 = (3 : Nat) ∧
    Extract ((scenarioCalls.get ⟨0, by decide⟩).routine.getVariable 2 0) 3 =
      ((0 : Int) + (0 : Nat)) * (SIMD.Width : Int) + (3 : Nat) ∧
    Extract ((scenarioCalls.get ⟨0, by decide⟩).routine.getVariable 3 0) 3 =
      (0 : Int) + (0 : Nat) :=
  have h := C10_subgroup_linear_builtins scenarioShader scenarioData blankRoutine 1 0 0 0 1
    scenarioCalls scenario_disjoint scenario_emit 0 (by decide) 3 (by decide)
  ⟨scenario_disjoint, h.1 ⟨4, 0, 1⟩ rfl, h.2.1 ⟨2, 0, 1⟩ rfl, h.2.2 ⟨3, 0, 1⟩ rfl⟩

/-! ## The resolver skips undeclared builtins -/

/-- Claim C11. Builtin resolver skip: for a builtin absent from `inputBuiltins`,
`setInputBuiltin` makes no call of the producer, reports no error (whatever the producer
would do) and returns the routine unchanged; for a builtin that is present, the producer
is called exactly once, with the mapping of the builtin and the variable named by the
`Id` of the mapping, and the result is written to that variable. -/
theorem C11_resolver_skip (shader : SpirvShader) (routine : SpirvRoutine) (id : BuiltIn)
    (cb : BuiltinMapping → Variable → Option Variable) :
    (setInputBuiltinTraced shader routine id cb).2 = setInputBuiltin shader routine id cb ∧
    (shader.inputBuiltins id = none →
      (setInputBuiltinTraced shader routine id cb).1 = [] ∧
        setInputBuiltin shader routine id cb = some routine) ∧
    (∀ builtin, shader.inputBuiltins id = some builtin →
      (setInputBuiltinTraced shader routine id cb).1 =
          [(builtin, routine.getVariable builtin.Id)] ∧
        setInputBuiltin shader routine id cb =
          (cb builtin (routine.getVariable builtin.Id)).map
            (routine.setVariable builtin.Id)) := by
  refine ⟨?_, ?_, ?_⟩
  · unfold setInputBuiltinTraced setInputBuiltin
    cases shader.inputBuiltins id <;> rfl
  · intro h
    unfold setInputBuiltinTraced setInputBuiltin
    rw [h]
    exact ⟨rfl, rfl⟩
  · intro builtin h
    unfold setInputBuiltinTraced setInputBuiltin
    rw [h]
    refine ⟨rfl, ?_⟩
    dsimp only
    cases cb builtin (routine.getVariable builtin.Id) <;> rfl

/-- Claim C11, instance: the scenario shader does not declare `NumWorkgroups`, so a
producer that would fail is never called; it declares `GlobalInvocationId` in variable 1. -/
theorem C11_resolver_skip_witness :
    ((setInputBuiltinTraced scenarioShader blankRoutine BuiltIn.NumWorkgroups
        fun _ _ => none).1 = [] ∧
      setInputBuiltin scenarioShader blankRoutine BuiltIn.NumWorkgroups (fun _ _ => none) =
        some blankRoutine) ∧
    (setInputBuiltinTraced scenarioShader blankRoutine BuiltIn.GlobalInvocationId
        fun _ value => some value).1 = [(⟨1, 0, 3⟩, blankRoutine.getVariable 1)] :=
  ⟨(C11_resolver_skip scenarioShader blankRoutine BuiltIn.NumWorkgroups
      (fun _ _ => none)).2.1 rfl,
    ((C11_resolver_skip scenarioShader blankRoutine BuiltIn.GlobalInvocationId
      (fun _ value => some value)).2.2 ⟨1, 0, 3⟩ rfl).1⟩

/-! ## The units of a dispatch and their arguments -/

/-- Every workgroup of a returned dispatch was given the coroutines of `createCoroutines`
on the dispatch record. -/
theorem run_created {U ρ : Type} (prog : ComputeProgram U ρ) (fuel : Nat)
    (resources : ρ) (baseX baseY baseZ countX countY countZ : Nat) (st : RunState U ρ)
    (hrun : run prog fuel resources baseX baseY baseZ countX countY countZ = some st)
    (t : WorkgroupTrace U) (ht : t ∈ st.traces) :
    t.created = createCoroutines prog.shader.modes
      (dispatchData prog.shader.modes countX countY countZ) t.groupX t.groupY t.groupZ := by
  rw [run_eq_scheduleInOrder] at hrun
  obtain ⟨-, hcreated⟩ := scheduleInOrder_traces _ _ _ _ _ _ hrun
  rcases hcreated t ht with h | h
  · simp [initialState] at h
  · exact h

/-- The arguments of a created coroutine. -/
theorem mem_createCoroutines (modes : Modes) (data : Data) (groupX groupY groupZ : Nat)
    (inv : Invocation) (h : inv ∈ createCoroutines modes data groupX groupY groupZ) :
    inv.data = data ∧ inv.groupX = groupX ∧ inv.groupY = groupY ∧ inv.groupZ = groupZ ∧
      ((modes.ContainsControlBarriers = true ∧ inv.firstSubgroup < subgroupsPerWorkgroup modes ∧
          inv.subgroupCount = 1) ∨
        (modes.ContainsControlBarriers = false ∧ inv.firstSubgroup = 0 ∧
          inv.subgroupCount = subgroupsPerWorkgroup modes)) := by
  rw [createCoroutines_eq] at h
  cases hb : modes.ContainsControlBarriers with
  | true =>
    rw [hb, if_pos rfl, List.mem_map] at h
    obtain ⟨i, hi, rfl⟩ := h
    exact ⟨rfl, rfl, rfl, rfl, Or.inl ⟨rfl, List.mem_range.1 hi, rfl⟩⟩
  | false =>
    rw [hb] at h
    simp only [Bool.false_eq_true, if_false, List.mem_singleton] at h
    subst h
    exact ⟨rfl, rfl, rfl, rfl, Or.inr ⟨rfl, rfl, rfl⟩⟩

/-- Claim C14. DispatchState assembly in `run`: the record handed to every execution unit
of every workgroup is the one record assembled before the loops, with
`numWorkgroups = (cx, cy, cz, 0)`, `workgroupSize = (sx, sy, sz, 0)`,
`invocationsPerSubgroup` the SIMD width, `invocationsPerWorkgroup = sx * sy * sz` and
`subgroupsPerWorkgroup` computed from those two. -/
theorem C14_dispatch_state {U ρ : Type} (prog : ComputeProgram U ρ) (fuel : Nat)
    (resources : ρ) (baseX baseY baseZ countX countY countZ : Nat) (st : RunState U ρ)
    (hrun : run prog fuel resources baseX baseY baseZ countX countY countZ = some st)
    (t : WorkgroupTrace U) (ht : t ∈ st.traces) (inv : Invocation) (hinv : inv ∈ t.created) :
    inv.data = dispatchData prog.shader.modes countX countY countZ ∧
    inv.data.numWorkgroups = ⟨countX, countY, countZ, 0⟩ ∧
    inv.data.workgroupSize = ⟨prog.shader.modes.WorkgroupSizeX,
      prog.shader.modes.WorkgroupSizeY, prog.shader.modes.WorkgroupSizeZ, 0⟩ ∧
    inv.data.invocationsPerSubgroup = (SIMD.Width : Int) ∧
    inv.data.invocationsPerWorkgroup =
      ((prog.shader.modes.WorkgroupSizeX * prog.shader.modes.WorkgroupSizeY *
        prog.shader.modes.WorkgroupSizeZ : Nat) : Int) ∧
    inv.data.subgroupsPerWorkgroup =
      (((prog.shader.modes.WorkgroupSizeX * prog.shader.modes.WorkgroupSizeY *
        prog.shader.modes.WorkgroupSizeZ + SIMD.Width - 1) / SIMD.Width : Nat) : Int) := by
  rw [run_created prog fuel resources _ _ _ _ _ _ st hrun t ht] at hinv
  obtain ⟨hdata, -⟩ := mem_createCoroutines _ _ _ _ _ _ hinv
  rw [hdata]
  exact ⟨rfl, rfl, rfl, rfl, rfl, rfl⟩

/-- Claim C13. Subgroup index bound: for every unit `run` creates, in either scheduling
mode, every index `firstSubgroup + i` with `i < subgroupCount` is below
`subgroupsPerWorkgroup`; and in `emit` run on the arguments of the unit, the `k`-th call of
`setSubgroupBuiltins` and of the shader body is for subgroup `firstSubgroup + k`, which
satisfies `0 ≤ firstSubgroup + k < subgroupsPerWorkgroup`. -/
theorem C13_subgroup_index_bound {U ρ : Type} (prog : ComputeProgram U ρ) (fuel : Nat)
    (resources : ρ) (baseX baseY baseZ countX countY countZ : Nat) (st : RunState U ρ)
    (hrun : run prog fuel resources baseX baseY baseZ countX countY countZ = some st)
    (t : WorkgroupTrace U) (ht : t ∈ st.traces) (inv : Invocation) (hinv : inv ∈ t.created)
    (routine : SpirvRoutine) (calls : List ShaderCall)
    (hemit : emit prog.shader inv.data routine inv.groupX inv.groupY inv.groupZ
      inv.firstSubgroup inv.subgroupCount = some calls)
    (k : Nat) (hk : k < calls.length) :
    (∀ i, i < inv.subgroupCount →
      inv.firstSubgroup + i < subgroupsPerWorkgroup prog.shader.modes) ∧
    (0 : Int) ≤ (inv.firstSubgroup : Int) + k ∧
    (inv.firstSubgroup : Int) + k < (subgroupsPerWorkgroup prog.shader.modes : Int) ∧
    ∃ prev, setSubgroupBuiltins prog.shader inv.data prev
        ((inv.groupX : Int), (inv.groupY : Int), (inv.groupZ : Int))
        (subgroupLocalInvocationIndex ((inv.firstSubgroup : Int) + k))
        ((inv.firstSubgroup : Int) + k) = some (calls[k]).routine := by
  rw [run_created prog fuel resources _ _ _ _ _ _ st hrun t ht] at hinv
  obtain ⟨-, -, -, -, hmode⟩ := mem_createCoroutines _ _ _ _ _ _ hinv
  have hbound : ∀ i, i < inv.subgroupCount →
      inv.firstSubgroup + i < subgroupsPerWorkgroup prog.shader.modes := by
    intro i hi
    rcases hmode with ⟨-, h1, h2⟩ | ⟨-, h1, h2⟩ <;> omega
  obtain ⟨hlen, hcalls⟩ := emit_spec prog.shader inv.data routine _ _ _ _ _ calls hemit
    (fun _ => True) (fun _ _ => trivial) (fun _ _ _ _ _ _ => trivial)
  have hk' : k < inv.subgroupCount := by
    rw [hlen, Int.toNat_ofNat] at hk
    exact hk
  obtain ⟨prev, -, hset, -⟩ := hcalls k hk
  refine ⟨hbound, by positivity, ?_, prev, hset⟩
  exact_mod_cast hbound k hk'


theorem scenario_created_length :
    0 < (scenarioRun.traces.get ⟨1, scenario_run_length⟩).created.length := by decide

theorem scenario_unit_emit :
    emit scenarioProgram.shader
        ((scenarioRun.traces.get ⟨1, scenario_run_length⟩).created.get
          ⟨0, scenario_created_length⟩).data blankRoutine
        (((scenarioRun.traces.get ⟨1, scenario_run_length⟩).created.get
          ⟨0, scenario_created_length⟩).groupX : Int)
        (((scenarioRun.traces.get ⟨1, scenario_run_length⟩).created.get
          ⟨0, scenario_created_length⟩).groupY : Int)
        (((scenarioRun.traces.get ⟨1, scenario_run_length⟩).created.get
          ⟨0, scenario_created_length⟩).groupZ : Int)
        (((scenarioRun.traces.get ⟨1, scenario_run_length⟩).created.get
          ⟨0, scenario_created_length⟩).firstSubgroup : Int)
        (((scenarioRun.traces.get ⟨1, scenario_run_length⟩).created.get
          ⟨0, scenario_created_length⟩).subgroupCount : Int) = some scenarioCalls := rfl

/-- Claim C14, instance: the unit of the second workgroup of the scenario dispatch. -/
theorem C14_dispatch_state_witness :
    ((scenarioRun.traces.get ⟨1, scenario_run_length⟩).created.get
        ⟨0, scenario_created_length⟩).data = dispatchData scenarioProgram.shader.modes 2 1 1 ∧
      ((scenarioRun.traces.get ⟨1, scenario_run_length⟩).created.get
        ⟨0, scenario_created_length⟩).data.numWorkgroups = ⟨2, 1, 1, 0⟩ :=
  have h := C14_dispatch_state scenarioProgram 1 () 0 0 0 2 1 1 scenarioRun scenario_run
    (scenarioRun.traces.get ⟨1, scenario_run_length⟩) (List.get_mem _ _ _)
    ((scenarioRun.traces.get ⟨1, scenario_run_length⟩).created.get
      ⟨0, scenario_created_length⟩) (List.get_mem _ _ _)
  ⟨h.1, h.2.1⟩

/-- Claim C13, instance: the only subgroup of the unit of the second workgroup of the
scenario dispatch. -/
theorem C13_subgroup_index_bound_witness :
    (0 : Int) ≤ (((scenarioRun.traces.get ⟨1, scenario_run_length⟩).created.get
        ⟨0, scenario_created_length⟩).firstSubgroup : Int) + (0 : Nat) ∧
      (((scenarioRun.traces.get ⟨1, scenario_run_length⟩).created.get
        ⟨0, scenario_created_length⟩).firstSubgroup : Int) + (0 : Nat) <
        (subgroupsPerWorkgroup scenarioProgram.shader.modes : Int) :=
  have h := C13_subgroup_index_bound scenarioProgram 1 () 0 0 0 2 1 1 scenarioRun scenario_run
    (scenarioRun.traces.get ⟨1, scenario_run_length⟩) (List.get_mem _ _ _)
    ((scenarioRun.traces.get ⟨1, scenario_run_length⟩).created.get
      ⟨0, scenario_created_length⟩) (List.get_mem _ _ _) blankRoutine scenarioCalls
    scenario_unit_emit 0 (by decide)
  ⟨h.2.1, h.2.2.1⟩

/-! ## The workgroup memory is handed from workgroup to workgroup -/

theorem scheduleInOrder_append {U ρ : Type} (prog : ComputeProgram U ρ) (fuel : Nat)
    (data : Data) (l₁ l₂ : List (Nat × Nat × Nat)) (st : RunState U ρ) :
    scheduleInOrder prog fuel data (l₁ ++ l₂) st =
      (scheduleInOrder prog fuel data l₁ st).bind (scheduleInOrder prog fuel data l₂) := by
  induction l₁ generalizing st with
  | nil => rfl
  | cons c l ih =>
    obtain ⟨x, y, z⟩ := c
    simp only [List.cons_append, scheduleInOrder]
    cases scheduleWorkgroup prog fuel data x y z st.machine with
    | none => rfl
    | some r => exact ih _

/-- A queue of coroutines that leave the workgroup memory alone drains without a change
to it: the loop itself writes nothing. -/
theorem drainQueue_workgroupMemory {U ρ : Type}
    (await : U → Machine ρ → Bool × U × Machine ρ)
    (hawait : ∀ u m, (await u m).2.2.workgroupMemory = m.workgroupMemory) :
    ∀ (fuel : Nat) (q : List U) (m : Machine ρ) (resumed : List U) (m' : Machine ρ),
      drainQueue await fuel q m = some (resumed, m') →
        m'.workgroupMemory = m.workgroupMemory := by
  intro fuel
  induction fuel with
  | zero =>
    intro q m resumed m' h
    cases q with
    | nil =>
      simp only [drainQueue, Option.some.injEq, Prod.mk.injEq] at h
      rw [← h.2]
    | cons u rest => simp [drainQueue] at h
  | succ fuel ih =>
    intro q m resumed m' h
    cases q with
    | nil =>
      simp only [drainQueue, Option.some.injEq, Prod.mk.injEq] at h
      rw [← h.2]
    | cons u rest =>
      rw [drainQueue] at h
      have hu := hawait u m
      rcases hr : await u m with ⟨y, u', m₁⟩
      rw [hr] at h hu
      cases y with
      | true =>
        simp only at h
        cases hd : drainQueue await fuel (rest ++ [u']) m₁ with
        | none => rw [hd] at h; simp at h
        | some r =>
          obtain ⟨resumed', m₂⟩ := r
          rw [hd] at h
          simp only [Option.some.injEq, Prod.mk.injEq] at h
          rw [← h.2, ih _ _ _ _ hd]
          exact hu
      | false =>
        simp only at h
        cases hd : drainQueue await fuel rest m₁ with
        | none => rw [hd] at h; simp at h
        | some r =>
          obtain ⟨resumed', m₂⟩ := r
          rw [hd] at h
          simp only [Option.some.injEq, Prod.mk.injEq] at h
          rw [← h.2, ih _ _ _ _ hd]
          exact hu

theorem scheduleInOrder_workgroupMemory {U ρ : Type} (prog : ComputeProgram U ρ)
    (hawait : ∀ u m, (prog.await u m).2.2.workgroupMemory = m.workgroupMemory)
    (fuel : Nat) (data : Data) (l : List (Nat × Nat × Nat)) (st st' : RunState U ρ)
    (h : scheduleInOrder prog fuel data l st = some st') :
    st'.machine.workgroupMemory = st.machine.workgroupMemory := by
  induction l generalizing st with
  | nil =>
    simp only [scheduleInOrder, Option.some.injEq] at h
    rw [h]
  | cons c l ih =>
    obtain ⟨x, y, z⟩ := c
    simp only [scheduleInOrder] at h
    cases hs : scheduleWorkgroup prog fuel data x y z st.machine with
    | none => rw [hs] at h; simp at h
    | some r =>
      obtain ⟨trace, m'⟩ := r
      rw [hs] at h
      obtain ⟨-, -, hd⟩ := scheduleWorkgroup_eq_some prog fuel data x y z _ _ _ hs
      rw [ih _ h]
      exact drainQueue_workgroupMemory prog.await hawait _ _ _ _ _ hd

theorem memoryAfter_cons {U ρ : Type} (await : U → Machine ρ → Bool × U × Machine ρ)
    (u : U) (resumed : List U) (m : Machine ρ) :
    memoryAfter await (u :: resumed) m = memoryAfter await resumed (await u m).2.2 := rfl

theorem memoryAfter_append {U ρ : Type} (await : U → Machine ρ → Bool × U × Machine ρ)
    (xs ys : List U) (m : Machine ρ) :
    memoryAfter await (xs ++ ys) m = memoryAfter await ys (memoryAfter await xs m) := by
  simp [memoryAfter, List.foldl_append]

/-- The loop of `run` changes the memory only through the resumptions: the memory it
leaves is the memory the resumed coroutines leave, each resumed on what its predecessor
left; and the first resumptions are those of the queue the loop starts with, in order. -/
theorem drainQueue_memoryAfter {U ρ : Type}
    (await : U → Machine ρ → Bool × U × Machine ρ) :
    ∀ (fuel : Nat) (q : List U) (m : Machine ρ) (resumed : List U) (m' : Machine ρ),
      drainQueue await fuel q m = some (resumed, m') →
        m' = memoryAfter await resumed m ∧ q <+: resumed := by
  intro fuel
  induction fuel with
  | zero =>
    intro q m resumed m' h
    cases q with
    | nil =>
      simp only [drainQueue, Option.some.injEq, Prod.mk.injEq] at h
      obtain ⟨rfl, rfl⟩ := h
      exact ⟨rfl, List.prefix_refl _⟩
    | cons u rest => simp [drainQueue] at h
  | succ fuel ih =>
    intro q m resumed m' h
    cases q with
    | nil =>
      simp only [drainQueue, Option.some.injEq, Prod.mk.injEq] at h
      obtain ⟨rfl, rfl⟩ := h
      exact ⟨rfl, List.prefix_refl _⟩
    | cons u rest =>
      rw [drainQueue] at h
      rcases hr : await u m with ⟨y, u', m₁⟩
      have hm : (await u m).2.2 = m₁ := by rw [hr]
      rw [hr] at h
      cases y with
      | true =>
        simp only at h
        cases hd : drainQueue await fuel (rest ++ [u']) m₁ with
        | none => rw [hd] at h; simp at h
        | some r =>
          obtain ⟨resumed', m₂⟩ := r
          rw [hd] at h
          simp only [Option.some.injEq, Prod.mk.injEq] at h
          obtain ⟨rfl, rfl⟩ := h
          obtain ⟨e, hp⟩ := ih _ _ _ _ hd
          refine ⟨by rw [memoryAfter_cons, hm, e], ?_⟩
          exact (List.prefix_cons_inj u).2 ((List.prefix_append rest [u']).trans hp)
      | false =>
        simp only at h
        cases hd : drainQueue await fuel rest m₁ with
        | none => rw [hd] at h; simp at h
        | some r =>
          obtain ⟨resumed', m₂⟩ := r
          rw [hd] at h
          simp only [Option.some.injEq, Prod.mk.injEq] at h
          obtain ⟨rfl, rfl⟩ := h
          obtain ⟨e, hp⟩ := ih _ _ _ _ hd
          exact ⟨by rw [memoryAfter_cons, hm, e], (List.prefix_cons_inj u).2 hp⟩

theorem scheduleInOrder_memoryAfter {U ρ : Type} (prog : ComputeProgram U ρ)
    (fuel : Nat) (data : Data) (l : List (Nat × Nat × Nat)) (st st' : RunState U ρ)
    (h : scheduleInOrder prog fuel data l st = some st') :
    ∃ ts, st'.traces = st.traces ++ ts ∧
      st'.machine = memoryAfter prog.await (ts.flatMap fun t => t.resumed) st.machine := by
  induction l generalizing st with
  | nil =>
    simp only [scheduleInOrder, Option.some.injEq] at h
    exact ⟨[], by rw [h, List.append_nil], by rw [h]; rfl⟩
  | cons c l ih =>
    obtain ⟨x, y, z⟩ := c
    simp only [scheduleInOrder] at h
    cases hs : scheduleWorkgroup prog fuel data x y z st.machine with
    | none => rw [hs] at h; simp at h
    | some r =>
      obtain ⟨trace, m'⟩ := r
      rw [hs] at h
      obtain ⟨-, -, hd⟩ := scheduleWorkgroup_eq_some prog fuel data x y z _ _ _ hs
      obtain ⟨e, -⟩ := drainQueue_memoryAfter prog.await _ _ _ _ _ hd
      obtain ⟨ts, h1, h2⟩ := ih _ h
      refine ⟨trace :: ts, by rw [h1]; simp, ?_⟩
      rw [h2, List.flatMap_cons, memoryAfter_append, e]


/-- Claim C12. Workgroup-memory reuse in `run`. The dispatch starts on one zero-filled
buffer whose length is the declared workgroup-memory size. For every workgroup of the
iteration, the coroutines `run` creates are all resumed, first and in queue order, and the
memory at the start of the next workgroup is the memory the resumptions of this workgroup
leave, the first of them resumed on the memory this workgroup started with: the content
at the start of the workgroup at position `k + 1` is the content left at the end of the
workgroup at position `k`. The memory at the end of the dispatch is what the resumptions
of all workgroups, in order, make of the initial buffer: the driver itself never writes to
it, and when no coroutine writes to it either, it is still the initial buffer. -/
theorem C12_workgroup_memory_reuse {U ρ : Type} (prog : ComputeProgram U ρ) (fuel : Nat)
    (resources : ρ) (baseX baseY baseZ countX countY countZ : Nat) (st : RunState U ρ)
    (hrun : run prog fuel resources baseX baseY baseZ countX countY countZ = some st) :
    (stateAtWorkgroup prog fuel resources baseX baseY baseZ countX countY countZ 0 =
        some (initialState prog resources) ∧
      (initialState prog resources).machine.workgroupMemory =
        List.replicate prog.shader.workgroupMemory 0 ∧
      (initialState prog resources).machine.workgroupMemory.length =
        prog.shader.workgroupMemory) ∧
    (∀ k, k < (u32GridCoords baseX baseY baseZ countX countY countZ).length →
      ∃ s t,
        stateAtWorkgroup prog fuel resources baseX baseY baseZ countX countY countZ k =
          some s ∧
        (u32GridCoords baseX baseY baseZ countX countY countZ)[k]? = some t.coord ∧
        t.created = createCoroutines prog.shader.modes
          (dispatchData prog.shader.modes countX countY countZ) t.groupX t.groupY t.groupZ ∧
        t.created.map prog.call <+: t.resumed ∧
        stateAtWorkgroup prog fuel resources baseX baseY baseZ countX countY countZ (k + 1) =
          some ⟨s.traces ++ [t], memoryAfter prog.await t.resumed s.machine⟩) ∧
    stateAtWorkgroup prog fuel resources baseX baseY baseZ countX countY countZ
        (u32GridCoords baseX baseY baseZ countX countY countZ).length = some st ∧
    st.machine = memoryAfter prog.await (st.traces.flatMap fun t => t.resumed)
      (initialState prog resources).machine ∧
    ((∀ u m, (prog.await u m).2.2.workgroupMemory = m.workgroupMemory) →
      st.machine.workgroupMemory = List.replicate prog.shader.workgroupMemory 0) := by
  rw [run_eq_scheduleInOrder] at hrun
  refine ⟨⟨rfl, rfl, by simp [initialState]⟩, ?_, ?_, ?_, ?_⟩
  · intro k hk
    have hrun' := hrun
    have hsplit := List.take_append_drop k (u32GridCoords baseX baseY baseZ countX countY countZ)
    rw [← hsplit, scheduleInOrder_append] at hrun'
    cases hs : scheduleInOrder prog fuel (dispatchData prog.shader.modes countX countY countZ)
        ((u32GridCoords baseX baseY baseZ countX countY countZ).take k)
        (initialState prog resources) with
    | none => rw [hs] at hrun'; simp at hrun'
    | some s =>
      rw [hs, Option.some_bind, List.drop_eq_getElem_cons hk] at hrun'
      simp only [scheduleInOrder, List.get_eq_getElem] at hrun'
      cases hw : scheduleWorkgroup prog fuel (dispatchData prog.shader.modes countX countY countZ)
          ((u32GridCoords baseX baseY baseZ countX countY countZ)[k]).1
          ((u32GridCoords baseX baseY baseZ countX countY countZ)[k]).2.1
          ((u32GridCoords baseX baseY baseZ countX countY countZ)[k]).2.2 s.machine with
      | none => rw [hw] at hrun'; simp at hrun'
      | some r =>
        obtain ⟨t, m'⟩ := r
        obtain ⟨hcoord, hcreated, hd⟩ := scheduleWorkgroup_eq_some prog fuel _ _ _ _ _ _ _ hw
        obtain ⟨hm, hp⟩ := drainQueue_memoryAfter prog.await _ _ _ _ _ hd
        have hx : t.groupX = ((u32GridCoords baseX baseY baseZ countX countY countZ)[k]).1 :=
          congrArg Prod.fst hcoord
        have hy : t.groupY = ((u32GridCoords baseX baseY baseZ countX countY countZ)[k]).2.1 :=
          congrArg (fun c => c.2.1) hcoord
        have hz : t.groupZ = ((u32GridCoords baseX baseY baseZ countX countY countZ)[k]).2.2 :=
          congrArg (fun c => c.2.2) hcoord
        refine ⟨s, t, hs, ?_, ?_, hp, ?_⟩
        · rw [List.getElem?_eq_getElem hk, hcoord]
        · rw [hcreated, hx, hy, hz]
        · unfold stateAtWorkgroup
          rw [List.take_succ, List.getElem?_eq_getElem hk, scheduleInOrder_append, hs]
          simp only [Option.some_bind, Option.toList, scheduleInOrder, List.get_eq_getElem, hw,
            hm]
  · unfold stateAtWorkgroup
    rw [List.take_length]
    exact hrun
  · obtain ⟨ts, h1, h2⟩ := scheduleInOrder_memoryAfter prog fuel _ _ _ _ hrun
    have h1' : st.traces = ts := by
      rw [h1]
      rfl
    rw [h1']
    exact h2
  · intro hawait
    exact scheduleInOrder_workgroupMemory prog hawait _ _ _ _ _ hrun

/-- Claim C12, instance: two workgroups of the reuse test. The first reads the zero of the
fresh buffer and writes 7; the second starts on the buffer holding that 7 and reads it
back. -/
theorem C12_workgroup_memory_reuse_witness :
    (run staleProgram 1 [] 0 0 0 2 1 1).map (fun st => st.machine.resources) = some [0, 7] ∧
    (stateAtWorkgroup staleProgram 1 [] 0 0 0 2 1 1 1).map
        (fun s => s.machine.workgroupMemory) = some [7] ∧
    ∃ s t,
      stateAtWorkgroup staleProgram 1 [] 0 0 0 2 1 1 1 = some s ∧
      (u32GridCoords 0 0 0 2 1 1)[1]? = some t.coord ∧
      t.created = createCoroutines staleProgram.shader.modes
        (dispatchData staleProgram.shader.modes 2 1 1) t.groupX t.groupY t.groupZ ∧
      t.created.map staleProgram.call <+: t.resumed ∧
      stateAtWorkgroup staleProgram 1 [] 0 0 0 2 1 1 (1 + 1) =
        some ⟨s.traces ++ [t], memoryAfter staleProgram.await t.resumed s.machine⟩ :=
  have hrun : run staleProgram 1 [] 0 0 0 2 1 1 =
      some ((scheduleInOrder staleProgram 1 (dispatchData staleProgram.shader.modes 2 1 1)
        (u32GridCoords 0 0 0 2 1 1) (initialState staleProgram [])).getD
          (initialState staleProgram [])) := by
    rw [run_eq_scheduleInOrder]
    rfl
  ⟨by rw [hrun]; rfl, by rfl,
    (C12_workgroup_memory_reuse staleProgram 1 [] 0 0 0 2 1 1 _ hrun).2.1 1 (by decide)⟩

/-! ## Dispatches with a zero subgroup count -/

theorem subgroupsPerWorkgroup_eq_zero (modes : Modes) (h : invocationsPerWorkgroup modes = 0) :
    subgroupsPerWorkgroup modes = 0 := by
  unfold subgroupsPerWorkgroup
  rw [h]
  decide

theorem drainQueue_cons_eq_some {U ρ : Type} (await : U → Machine ρ → Bool × U × Machine ρ)
    (fuel : Nat) (u : U) (rest : List U) (m m' : Machine ρ) (resumed : List U)
    (h : drainQueue await fuel (u :: rest) m = some (resumed, m')) :
    resumed.head? = some u := by
  cases fuel with
  | zero => simp [drainQueue] at h
  | succ fuel =>
    rw [drainQueue] at h
    rcases hr : await u m with ⟨y, u', m₁⟩
    rw [hr] at h
    cases y with
    | true =>
      simp only at h
      cases hd : drainQueue await fuel (rest ++ [u']) m₁ with
      | none => rw [hd] at h; simp at h
      | some r =>
        rw [hd] at h
        simp only [Option.some.injEq, Prod.mk.injEq] at h
        rw [← h.1]
        rfl
    | false =>
      simp only at h
      cases hd : drainQueue await fuel rest m₁ with
      | none => rw [hd] at h; simp at h
      | some r =>
        rw [hd] at h
        simp only [Option.some.injEq, Prod.mk.injEq] at h
        rw [← h.1]
        rfl

theorem emit_zero (shader : SpirvShader) (data : Data) (routine : SpirvRoutine)
    (workgroupX workgroupY workgroupZ firstSubgroup : Int) :
    emit shader data routine workgroupX workgroupY workgroupZ firstSubgroup 0 =
      (setWorkgroupBuiltins shader data routine (workgroupX, workgroupY, workgroupZ)).map
        fun _ => [] := by
  simp only [emit]
  cases setWorkgroupBuiltins shader data routine (workgroupX, workgroupY, workgroupZ) <;> rfl


/-- The resumptions recorded for a workgroup are those of draining its queue. -/
theorem scheduleInOrder_resumed {U ρ : Type} (prog : ComputeProgram U ρ) (fuel : Nat)
    (data : Data) (l : List (Nat × Nat × Nat)) (st st' : RunState U ρ)
    (h : scheduleInOrder prog fuel data l st = some st') :
    ∀ t ∈ st'.traces, t ∈ st.traces ∨
      ∃ m m', drainQueue prog.await fuel (t.created.map prog.call) m = some (t.resumed, m') := by
  induction l generalizing st with
  | nil =>
    simp only [scheduleInOrder, Option.some.injEq] at h
    subst h
    exact fun t ht => Or.inl ht
  | cons c l ih =>
    obtain ⟨x, y, z⟩ := c
    simp only [scheduleInOrder] at h
    cases hs : scheduleWorkgroup prog fuel data x y z st.machine with
    | none => rw [hs] at h; simp at h
    | some r =>
      obtain ⟨trace, m'⟩ := r
      rw [hs] at h
      obtain ⟨-, -, hd⟩ := scheduleWorkgroup_eq_some prog fuel data x y z _ _ _ hs
      intro t ht
      rcases ih _ h t ht with h3 | h3
      · simp only [List.mem_append, List.mem_singleton] at h3
        rcases h3 with h3 | h3
        · exact Or.inl h3
        · subst h3
          exact Or.inr ⟨_, _, hd⟩
      · exact Or.inr h3

/-- Claim C15, as amended. A zero subgroup count raises no assertion: `run` contains
none. For a dispatch whose workgroup size has a zero component (so that
`invocationsPerWorkgroup = 0` and `subgroupsPerWorkgroup = 0`) and whose workgroups each
drain within the fuel, `run` returns normally; with control barriers no unit is created or
resumed; without control barriers exactly one unit per workgroup is created, with
`firstSubgroup = 0` and `subgroupCount = 0`, and it is resumed; `emit` with
`subgroupCount = 0` runs `setWorkgroupBuiltins` and calls the shader body zero times. -/
theorem C15_zero_subgroup_count {U ρ : Type} (prog : ComputeProgram U ρ) (fuel : Nat)
    (resources : ρ) (baseX baseY baseZ countX countY countZ : Nat)
    (hzero : prog.shader.modes.WorkgroupSizeX = 0 ∨ prog.shader.modes.WorkgroupSizeY = 0 ∨
      prog.shader.modes.WorkgroupSizeZ = 0)
    (hterm : ∀ x y z m, (scheduleWorkgroup prog fuel
      (dispatchData prog.shader.modes countX countY countZ) x y z m).isSome = true) :
    invocationsPerWorkgroup prog.shader.modes = 0 ∧
    subgroupsPerWorkgroup prog.shader.modes = 0 ∧
    (∃ st, run prog fuel resources baseX baseY baseZ countX countY countZ = some st ∧
      ∀ t ∈ st.traces,
        (prog.shader.modes.ContainsControlBarriers = true →
          t.created = [] ∧ t.resumed = []) ∧
        (prog.shader.modes.ContainsControlBarriers = false →
          t.created = [⟨dispatchData prog.shader.modes countX countY countZ,
            t.groupX, t.groupY, t.groupZ, 0, 0⟩] ∧
          t.resumed.head? = some (prog.call
            ⟨dispatchData prog.shader.modes countX countY countZ,
              t.groupX, t.groupY, t.groupZ, 0, 0⟩))) ∧
    (∀ (data : Data) (routine : SpirvRoutine)
        (workgroupX workgroupY workgroupZ firstSubgroup : Int),
      emit prog.shader data routine workgroupX workgroupY workgroupZ firstSubgroup 0 =
        (setWorkgroupBuiltins prog.shader data routine
          (workgroupX, workgroupY, workgroupZ)).map fun _ => []) := by
  have hipw : invocationsPerWorkgroup prog.shader.modes = 0 := by
    unfold invocationsPerWorkgroup
    rcases hzero with h | h | h <;> simp [h]
  have hspw := subgroupsPerWorkgroup_eq_zero _ hipw
  refine ⟨hipw, hspw, ?_, fun data routine x y z f => emit_zero _ _ _ _ _ _ _⟩
  obtain ⟨st, hst⟩ := scheduleInOrder_isSome prog fuel _ hterm
    (u32GridCoords baseX baseY baseZ countX countY countZ) (initialState prog resources)
  have hrun : run prog fuel resources baseX baseY baseZ countX countY countZ = some st := by
    rw [run_eq_scheduleInOrder]
    exact hst
  refine ⟨st, hrun, ?_⟩
  intro t ht
  have hc : t.created = createCoroutines prog.shader.modes
      (dispatchData prog.shader.modes countX countY countZ) t.groupX t.groupY t.groupZ := by
    rcases (scheduleInOrder_traces _ _ _ _ _ _ hst).2 t ht with h | h
    · simp [initialState] at h
    · exact h
  have hr : ∃ m m', drainQueue prog.await fuel (t.created.map prog.call) m =
      some (t.resumed, m') := by
    rcases scheduleInOrder_resumed _ _ _ _ _ _ hst t ht with h | h
    · simp [initialState] at h
    · exact h
  obtain ⟨m, m', hd⟩ := hr
  rw [createCoroutines_eq, hspw] at hc
  constructor
  · intro hb
    rw [hb, if_pos rfl] at hc
    simp only [List.range_zero, List.map_nil] at hc
    rw [hc] at hd
    simp only [List.map_nil, drainQueue, Option.some.injEq, Prod.mk.injEq] at hd
    exact ⟨hc, hd.1.symm⟩
  · intro hb
    rw [hb] at hc
    simp only [Bool.false_eq_true, if_false] at hc
    refine ⟨hc, ?_⟩
    rw [hc] at hd
    exact drainQueue_cons_eq_some _ _ _ _ _ _ _ hd

/-- Claim C15, instance: the zero-size program on a `(1, 1, 1)` grid. -/
theorem C15_zero_subgroup_count_witness :
    (zeroProgram.shader.modes.WorkgroupSizeX = 0 ∨ zeroProgram.shader.modes.WorkgroupSizeY = 0 ∨
      zeroProgram.shader.modes.WorkgroupSizeZ = 0) ∧
    invocationsPerWorkgroup zeroProgram.shader.modes = 0 ∧
    subgroupsPerWorkgroup zeroProgram.shader.modes = 0 :=
  have h := C15_zero_subgroup_count zeroProgram 1 () 0 0 0 1 1 1 (Or.inl rfl)
    (fun _ _ _ _ => rfl)
  ⟨Or.inl rfl, h.1, h.2.1⟩

/-- Claim C15 as stated fails: `run` contains no assertion. With workgroup size
`(0, 1, 1)` and no barrier, `subgroupsPerWorkgroup` is 0 and `run` returns normally, having
created one unit for the workgroup and resumed it once. -/
theorem C15_zero_subgroup_count_counterexample :
    subgroupsPerWorkgroup zeroProgram.shader.modes = 0 ∧
    (run zeroProgram 1 () 0 0 0 1 1 1).map
        (fun st => st.traces.map fun t => (t.created.length, t.resumed.length)) =
      some [(1, 1)] ∧
    ¬ ZeroSubgroupsStopped zeroProgram 1 () 0 0 0 1 1 1 := by
  have hrun : run zeroProgram 1 () 0 0 0 1 1 1 =
      some ((scheduleInOrder zeroProgram 1 (dispatchData zeroProgram.shader.modes 1 1 1)
        (u32GridCoords 0 0 0 1 1 1) (initialState zeroProgram ())).getD
          (initialState zeroProgram ())) := by
    rw [run_eq_scheduleInOrder]
    rfl
  refine ⟨by decide, ?_, ?_⟩
  · rw [hrun]
    rfl
  · intro h
    have := h (by decide)
    rw [hrun] at this
    simp at this

/-! ## Lane coordinates of arbitrary non-negative indices -/

/-- The lane decomposition of a non-negative index, whether the lane is active or not. -/
theorem localInvocationID_spec (workgroupSize : Int4) (localInvocationIndex : SIMD.Int)
    (lane : Nat) (hlane : lane < SIMD.Width)
    (hsx : 1 ≤ Extract workgroupSize X) (hsy : 1 ≤ Extract workgroupSize Y)
    (hi0 : 0 ≤ Extract localInvocationIndex lane) :
    Extract (localInvocationID workgroupSize localInvocationIndex Z) lane *
          Extract workgroupSize X * Extract workgroupSize Y +
        Extract (localInvocationID workgroupSize localInvocationIndex Y) lane *
          Extract workgroupSize X +
        Extract (localInvocationID workgroupSize localInvocationIndex X) lane =
      Extract localInvocationIndex lane ∧
    (0 ≤ Extract (localInvocationID workgroupSize localInvocationIndex X) lane ∧
      Extract (localInvocationID workgroupSize localInvocationIndex X) lane <
        Extract workgroupSize X) ∧
    (0 ≤ Extract (localInvocationID workgroupSize localInvocationIndex Y) lane ∧
      Extract (localInvocationID workgroupSize localInvocationIndex Y) lane <
        Extract workgroupSize Y) ∧
    Extract (localInvocationID workgroupSize localInvocationIndex Z) lane =
      Extract localInvocationIndex lane / (Extract workgroupSize X * Extract workgroupSize Y) := by
  have hj : lane < 4 := hlane
  obtain ⟨ez, ey, ex⟩ := localInvocationID_lane workgroupSize localInvocationIndex lane hj
  have hd := decompose_scalar (Extract workgroupSize X) (Extract workgroupSize Y)
    (Extract localInvocationIndex lane) hsx hsy hi0
  simp only at hd
  have hxe : Extract (localInvocationID workgroupSize localInvocationIndex X) lane = _ := ex
  have hye : Extract (localInvocationID workgroupSize localInvocationIndex Y) lane = _ := ey
  have hze : Extract (localInvocationID workgroupSize localInvocationIndex Z) lane = _ := ez
  rw [← hze] at hd hye hxe
  rw [← hye] at hd hxe
  rw [← hxe] at hd
  obtain ⟨h1, h2, h3, h4, h5, -, h7⟩ := hd
  exact ⟨h1, ⟨h2, h3⟩, ⟨h4, h5⟩, h7⟩

/-- Claim C20. Dead lanes of the lane decomposition: for a workgroup size `(sx, sy, sz)`
with `sx, sy ≥ 1` and a lane whose index `i` is at least `N = sx * sy * sz`, the coordinates
computed by `setSubgroupBuiltins` satisfy `z * sx * sy + y * sx + x = i`, `0 ≤ x < sx`,
`0 ≤ y < sy` and `z ≥ sz`; so they differ from the coordinates of every active lane
(index in `[0, N)`). -/
theorem C20_dead_lanes (modes : Modes) (groupCountX groupCountY groupCountZ : Nat)
    (localInvocationIndex : SIMD.Int) (lane : Nat) (hlane : lane < SIMD.Width)
    (hsx : 1 ≤ modes.WorkgroupSizeX) (hsy : 1 ≤ modes.WorkgroupSizeY)
    (hdead : (invocationsPerWorkgroup modes : Int) ≤ Extract localInvocationIndex lane) :
    let workgroupSize := (dispatchData modes groupCountX groupCountY groupCountZ).workgroupSize
    let x := Extract (localInvocationID workgroupSize localInvocationIndex X) lane
    let y := Extract (localInvocationID workgroupSize localInvocationIndex Y) lane
    let z := Extract (localInvocationID workgroupSize localInvocationIndex Z) lane
    z * modes.WorkgroupSizeX * modes.WorkgroupSizeY + y * modes.WorkgroupSizeX + x =
        Extract localInvocationIndex lane ∧
      (0 ≤ x ∧ x < modes.WorkgroupSizeX) ∧ (0 ≤ y ∧ y < modes.WorkgroupSizeY) ∧
      (modes.WorkgroupSizeZ : Int) ≤ z ∧
      ∀ (activeIndex : SIMD.Int) (activeLane : Nat), activeLane < SIMD.Width →
        0 ≤ Extract activeIndex activeLane →
        Extract activeIndex activeLane < (invocationsPerWorkgroup modes : Int) →
        ¬ (Extract (localInvocationID workgroupSize activeIndex X) activeLane = x ∧
          Extract (localInvocationID workgroupSize activeIndex Y) activeLane = y ∧
          Extract (localInvocationID workgroupSize activeIndex Z) activeLane = z) := by
  intro workgroupSize x y z
  have hX : Extract workgroupSize X = (modes.WorkgroupSizeX : Int) := rfl
  have hY : Extract workgroupSize Y = (modes.WorkgroupSizeY : Int) := rfl
  have hsx' : (1 : Int) ≤ Extract workgroupSize X := by rw [hX]; exact_mod_cast hsx
  have hsy' : (1 : Int) ≤ Extract workgroupSize Y := by rw [hY]; exact_mod_cast hsy
  have hN : (invocationsPerWorkgroup modes : Int) =
      (modes.WorkgroupSizeZ : Int) * ((modes.WorkgroupSizeX : Int) * modes.WorkgroupSizeY) := by
    unfold invocationsPerWorkgroup
    push_cast
    ring
  have hi0 : 0 ≤ Extract localInvocationIndex lane :=
    le_trans (Int.ofNat_nonneg _) hdead
  have hxy : (0 : Int) < (modes.WorkgroupSizeX : Int) * modes.WorkgroupSizeY := by
    have h1 : (0 : Int) < modes.WorkgroupSizeX := by exact_mod_cast hsx
    have h2 : (0 : Int) < modes.WorkgroupSizeY := by exact_mod_cast hsy
    positivity
  obtain ⟨h1, h2, h3, h4⟩ := localInvocationID_spec workgroupSize localInvocationIndex lane
    hlane hsx' hsy' hi0
  simp only [hX, hY] at h1 h2 h3 h4
  have hz : (modes.WorkgroupSizeZ : Int) ≤ z := by
    show _ ≤ Extract (localInvocationID workgroupSize localInvocationIndex Z) lane
    rw [h4]
    exact Int.le_ediv_of_mul_le hxy (by rw [← hN]; exact hdead)
  refine ⟨h1, h2, h3, hz, ?_⟩
  intro activeIndex activeLane hal ha0 haN hsame
  obtain ⟨-, -, -, g4⟩ := localInvocationID_spec workgroupSize activeIndex activeLane
    hal hsx' hsy' ha0
  simp only [hX, hY] at g4
  have hlt : Extract (localInvocationID workgroupSize activeIndex Z) activeLane <
      (modes.WorkgroupSizeZ : Int) := by
    rw [g4]
    exact Int.ediv_lt_of_lt_mul hxy (by rw [← hN]; exact haN)
  have := hsame.2.2
  omega

/-- Claim C20, instance: workgroup size `(4, 3, 2)` has 24 invocations; lane 1 of the
subgroup with indices `24..27` gets `z = 2 ≥ sz`. -/
theorem C20_dead_lanes_witness :
    ((invocationsPerWorkgroup ⟨4, 3, 2, false⟩ : Nat) : Int) ≤
        Extract (⟨24, 25, 26, 27⟩ : Int4) 1 ∧
      (((⟨4, 3, 2, false⟩ : Modes).WorkgroupSizeZ : Nat) : Int) ≤
        Extract (localInvocationID (dispatchData ⟨4, 3, 2, false⟩ 1 1 1).workgroupSize
          ⟨24, 25, 26, 27⟩ Z) 1 :=
  ⟨by decide,
    (C20_dead_lanes ⟨4, 3, 2, false⟩ 1 1 1 ⟨24, 25, 26, 27⟩ 1 (by decide) (by decide)
      (by decide) (by decide)).2.2.2.1⟩


/-- The coordinates of an active lane: the recomposition and the three ranges, with the
components named by index. -/
theorem activeLane_bounds (workgroupSize : Int4) (localInvocationIndex : SIMD.Int)
    (lane : Nat) (hlane : lane < SIMD.Width)
    (hsx : 1 ≤ Extract workgroupSize X) (hsy : 1 ≤ Extract workgroupSize Y)
    (hi0 : 0 ≤ Extract localInvocationIndex lane)
    (hiN : Extract localInvocationIndex lane <
      Extract workgroupSize X * Extract workgroupSize Y * Extract workgroupSize Z) :
    Extract (localInvocationID workgroupSize localInvocationIndex 2) lane *
          Extract workgroupSize 0 * Extract workgroupSize 1 +
        Extract (localInvocationID workgroupSize localInvocationIndex 1) lane *
          Extract workgroupSize 0 +
        Extract (localInvocationID workgroupSize localInvocationIndex 0) lane =
      Extract localInvocationIndex lane ∧
    (0 ≤ Extract (localInvocationID workgroupSize localInvocationIndex 0) lane ∧
      Extract (localInvocationID workgroupSize localInvocationIndex 0) lane <
        Extract workgroupSize 0) ∧
    (0 ≤ Extract (localInvocationID workgroupSize localInvocationIndex 1) lane ∧
      Extract (localInvocationID workgroupSize localInvocationIndex 1) lane <
        Extract workgroupSize 1) ∧
    (0 ≤ Extract (localInvocationID workgroupSize localInvocationIndex 2) lane ∧
      Extract (localInvocationID workgroupSize localInvocationIndex 2) lane <
        Extract workgroupSize 2) := by
  obtain ⟨h1, h2, h3, h4⟩ := localInvocationID_spec workgroupSize localInvocationIndex lane
    hlane hsx hsy hi0
  have hxy : (0 : Int) < Extract workgroupSize X * Extract workgroupSize Y := by positivity
  refine ⟨h1, h2, h3, ?_, ?_⟩
  · show 0 ≤ Extract (localInvocationID workgroupSize localInvocationIndex Z) lane
    rw [h4]
    exact Int.ediv_nonneg hi0 hxy.le
  · show Extract (localInvocationID workgroupSize localInvocationIndex Z) lane < _
    rw [h4]
    exact Int.ediv_lt_of_lt_mul hxy (by rw [mul_comm]; exact hiN)

/-! ## The global invocation id determines the invocation -/

/-- A quotient and a remainder in range are determined by `a * s + l`. -/
theorem mul_add_inj (s a a' l l' : Int) (hl : 0 ≤ l ∧ l < s) (hl' : 0 ≤ l' ∧ l' < s)
    (h : a * s + l = a' * s + l') : a = a' ∧ l = l' := by
  have hs : 0 < s := lt_of_le_of_lt hl.1 hl.2
  have e : l = l' := by
    have h1 : (a * s + l) % s = l := by
      rw [Int.add_comm, Int.add_mul_emod_self, Int.emod_eq_of_lt hl.1 hl.2]
    have h2 : (a' * s + l') % s = l' := by
      rw [Int.add_comm, Int.add_mul_emod_self, Int.emod_eq_of_lt hl'.1 hl'.2]
    rw [← h1, ← h2, h]
  subst e
  have : a * s = a' * s := by linarith
  exact ⟨mul_right_cancel₀ hs.ne' this, rfl⟩

/-- Claim C17. Global-invocation-id is injective over a dispatch: for a workgroup size
with all components at least 1, two workgroup coordinates and two lanes whose local
invocation indices lie in `[0, sx * sy * sz)`, if the three components of the
`GlobalInvocationId` builtin that `setSubgroupBuiltins` writes agree, then the workgroup
coordinates agree and the local invocation indices agree. -/
theorem C17_global_invocation_id_injective (shader : SpirvShader) (data : Data)
    (routine₁ routine₁' routine₂ routine₂' : SpirvRoutine)
    (workgroupID₁ workgroupID₂ : Int × Int × Int)
    (localInvocationIndex₁ localInvocationIndex₂ : SIMD.Int)
    (subgroupIndex₁ subgroupIndex₂ : Int)
    (hset₁ : setSubgroupBuiltins shader data routine₁ workgroupID₁ localInvocationIndex₁
      subgroupIndex₁ = some routine₁')
    (hset₂ : setSubgroupBuiltins shader data routine₂ workgroupID₂ localInvocationIndex₂
      subgroupIndex₂ = some routine₂')
    (b : BuiltinMapping) (hb : shader.inputBuiltins BuiltIn.GlobalInvocationId = some b)
    (hsize : 3 ≤ b.SizeInComponents)
    (hsx : 1 ≤ Extract data.workgroupSize X) (hsy : 1 ≤ Extract data.workgroupSize Y)
    (_hsz : 1 ≤ Extract data.workgroupSize Z)
    (lane₁ lane₂ : Nat) (hlane₁ : lane₁ < SIMD.Width) (hlane₂ : lane₂ < SIMD.Width)
    (hi₁ : 0 ≤ Extract localInvocationIndex₁ lane₁ ∧ Extract localInvocationIndex₁ lane₁ <
      Extract data.workgroupSize X * Extract data.workgroupSize Y * Extract data.workgroupSize Z)
    (hi₂ : 0 ≤ Extract localInvocationIndex₂ lane₂ ∧ Extract localInvocationIndex₂ lane₂ <
      Extract data.workgroupSize X * Extract data.workgroupSize Y * Extract data.workgroupSize Z)
    (heq : ∀ c, c < 3 →
      Extract (routine₁'.getVariable b.Id (b.FirstComponent + c)) lane₁ =
        Extract (routine₂'.getVariable b.Id (b.FirstComponent + c)) lane₂) :
    workgroupID₁ = workgroupID₂ ∧
      Extract localInvocationIndex₁ lane₁ = Extract localInvocationIndex₂ lane₂ := by
  have g₁ := fun c (hc : c < 3) => setSubgroupBuiltins_global shader data routine₁ routine₁'
    workgroupID₁ localInvocationIndex₁ subgroupIndex₁ hset₁ b hb c (by omega) hc lane₁ hlane₁
  have g₂ := fun c (hc : c < 3) => setSubgroupBuiltins_global shader data routine₂ routine₂'
    workgroupID₂ localInvocationIndex₂ subgroupIndex₂ hset₂ b hb c (by omega) hc lane₂ hlane₂
  obtain ⟨d₁, x₁, y₁, z₁⟩ := activeLane_bounds data.workgroupSize localInvocationIndex₁ lane₁ hlane₁
    hsx hsy hi₁.1 hi₁.2
  obtain ⟨d₂, x₂, y₂, z₂⟩ := activeLane_bounds data.workgroupSize localInvocationIndex₂ lane₂ hlane₂
    hsx hsy hi₂.1 hi₂.2
  have e0 := heq 0 (by decide)
  have e1 := heq 1 (by decide)
  have e2 := heq 2 (by decide)
  rw [g₁ 0 (by decide), g₂ 0 (by decide)] at e0
  rw [g₁ 1 (by decide), g₂ 1 (by decide)] at e1
  rw [g₁ 2 (by decide), g₂ 2 (by decide)] at e2
  obtain ⟨wx, lx⟩ := mul_add_inj _ _ _ _ _ x₁ x₂ e0
  obtain ⟨wy, ly⟩ := mul_add_inj _ _ _ _ _ y₁ y₂ e1
  obtain ⟨wz, lz⟩ := mul_add_inj _ _ _ _ _ z₁ z₂ e2
  constructor
  · obtain ⟨a, b', c⟩ := workgroupID₁
    obtain ⟨a', b'', c'⟩ := workgroupID₂
    simp only [workgroupIDAt] at wx wy wz
    rw [wx, wy, wz]
  · rw [← d₁, ← d₂]
    rw [lx, ly, lz]

/-! ## Every invocation is covered once -/

theorem filter_lt_range' (N : Nat) : ∀ (w a : Nat),
    (List.range' a w).filter (fun x => decide (x < N)) = List.range' a (min w (N - a)) := by
  intro w
  induction w with
  | zero => intro a; simp
  | succ w ih =>
    intro a
    rw [List.range'_succ]
    by_cases h : a < N
    · rw [List.filter_cons_of_pos (by simpa using h), ih (a + 1)]
      have e : min (w + 1) (N - a) = min w (N - (a + 1)) + 1 := by omega
      rw [e, List.range'_succ]
    · rw [List.filter_cons_of_neg (by simpa using h), ih (a + 1)]
      have e1 : min w (N - (a + 1)) = 0 := by omega
      have e2 : min (w + 1) (N - a) = 0 := by omega
      rw [e1, e2]
      rfl

/-- The active indices of one subgroup, as a range. -/
theorem subgroup_block (w N s : Nat) :
    (((List.range w).filter fun j => s * w + j < N).map fun j => s * w + j) =
      List.range' (s * w) (min w (N - s * w)) := by
  rw [← filter_lt_range' N w (s * w), List.range'_eq_map_range, List.filter_map]
  rfl

/-- The first `k` subgroups cover the indices below `min (k * w) N`. -/
theorem subgroup_blocks (w N : Nat) (k : Nat) :
    ((List.range k).flatMap fun s =>
        ((List.range w).filter fun j => s * w + j < N).map fun j => s * w + j) =
      List.range (min (k * w) N) := by
  induction k with
  | zero => simp
  | succ k ih =>
    rw [List.range_succ, List.flatMap_append, ih, List.flatMap_singleton, subgroup_block,
      List.range_eq_range', List.range_eq_range']
    have e : (k + 1) * w = k * w + w := by ring
    by_cases h : k * w ≤ N
    · have e1 : min (k * w) N = k * w := by omega
      have e2 : min ((k + 1) * w) N = min w (N - k * w) + k * w := by omega
      rw [e1, e2, ← List.range'_append 0 (k * w) (min w (N - k * w)) 1]
      simp
    · have e1 : min (k * w) N = N := by omega
      have e2 : min ((k + 1) * w) N = N := by omega
      have e3 : min w (N - k * w) = 0 := by omega
      rw [e1, e2, e3]
      simp

theorem le_subgroups_mul (w N : Nat) (hw : 1 ≤ w) : N ≤ (N + w - 1) / w * w := by
  have h1 := Nat.div_add_mod (N + w - 1) w
  have h2 := Nat.mod_lt (N + w - 1) hw
  have h3 : w * ((N + w - 1) / w) = (N + w - 1) / w * w := Nat.mul_comm _ _
  omega

theorem activeIndicesOfWidth_eq (w N : Nat) (hw : 1 ≤ w) :
    activeIndicesOfWidth w N = List.range N := by
  unfold activeIndicesOfWidth
  rw [subgroup_blocks, Nat.min_eq_right (le_subgroups_mul w N hw)]

theorem subgroup_mul_lt (w N s : Nat) (hw : 1 ≤ w) (hs : s < (N + w - 1) / w) : s * w < N := by
  have h1 : (s + 1) * w ≤ (N + w - 1) / w * w := Nat.mul_le_mul_right w hs
  have h2 : (N + w - 1) / w * w ≤ N + w - 1 := Nat.div_mul_le_self _ _
  have e : (s + 1) * w = s * w + w := by ring
  omega


/-- The active lanes of a subgroup of `emit` are the lanes `j` with `s * Width + j` below
`invocationsPerWorkgroup`, and they carry that index. -/
theorem activeLaneIndices_eq (data : Data) (N s : Nat)
    (hN : data.invocationsPerWorkgroup = (N : Int)) :
    activeLaneIndices data (s : Int) =
      List.map Int.ofNat (((List.range SIMD.Width).filter fun j => s * SIMD.Width + j < N).map
        fun j => s * SIMD.Width + j) := by
  unfold activeLaneIndices
  rw [List.map_map]
  have hfilter : ((List.range SIMD.Width).filter fun lane =>
      laneActive (CmpLT (subgroupLocalInvocationIndex (s : Int))
        (Int4.broadcast data.invocationsPerWorkgroup)) lane) =
      (List.range SIMD.Width).filter fun j => decide (s * SIMD.Width + j < N) := by
    apply List.filter_congr
    intro j hj
    have hj4 : j < 4 := List.mem_range.1 hj
    have h := laneActive_CmpLT (subgroupLocalInvocationIndex (s : Int))
      (Int4.broadcast data.invocationsPerWorkgroup) j hj4
    rw [Extract_subgroupLocalInvocationIndex _ _ hj4, Extract_broadcast _ _ hj4, hN] at h
    have h' : ((s : Int) * (SIMD.Width : Int) + (j : Int) < (N : Int)) ↔
        s * SIMD.Width + j < N := by
      constructor <;> intro g <;> exact_mod_cast g
    rw [Bool.eq_iff_iff, hN, h, decide_eq_true_iff, h']
  rw [hfilter]
  apply List.map_congr_left
  intro j hj
  have hj4 : j < 4 := List.mem_range.1 (List.mem_filter.1 hj).1
  rw [Extract_subgroupLocalInvocationIndex _ _ hj4]
  simp

theorem workgroupActiveIndices_eq (modes : Modes) (groupCountX groupCountY groupCountZ : Nat) :
    workgroupActiveIndices modes (dispatchData modes groupCountX groupCountY groupCountZ) =
      List.map Int.ofNat (activeIndicesOfWidth SIMD.Width (invocationsPerWorkgroup modes)) := by
  unfold workgroupActiveIndices activeIndicesOfWidth
  rw [List.map_flatMap]
  have : (List.range (subgroupsPerWorkgroup modes)) =
      List.range ((invocationsPerWorkgroup modes + SIMD.Width - 1) / SIMD.Width) := rfl
  rw [this]
  congr 1
  funext s
  exact activeLaneIndices_eq _ _ s rfl

/-- Claim C16. Invocation coverage: for `N ≥ 1` invocations per workgroup and a SIMD width
`w ≥ 1`, with `n = (N + w - 1) / w` subgroups, the indices `s * w + j` below `N` over the
subgroups `s < n` and lanes `j < w` are exactly `0, .., N - 1`, each once, and lane 0 of
every subgroup is active. For the width of the code, the active lanes of `emit` over the
subgroups `0 .. subgroupsPerWorkgroup - 1` of `run` carry exactly those indices, and every
such subgroup has an active lane. -/
theorem C16_invocation_coverage (N w : Nat) (_hN : 1 ≤ N) (hw : 1 ≤ w) :
    activeIndicesOfWidth w N = List.range N ∧
    (∀ s, s < (N + w - 1) / w → s * w + 0 < N) ∧
    ∀ (modes : Modes) (groupCountX groupCountY groupCountZ : Nat),
      invocationsPerWorkgroup modes = N →
        workgroupActiveIndices modes
            (dispatchData modes groupCountX groupCountY groupCountZ) =
          List.map Int.ofNat (List.range N) ∧
        ∀ s, s < subgroupsPerWorkgroup modes →
          laneActive (CmpLT (subgroupLocalInvocationIndex (s : Int))
            (Int4.broadcast
              (dispatchData modes groupCountX groupCountY groupCountZ).invocationsPerWorkgroup))
            0 = true := by
  refine ⟨activeIndicesOfWidth_eq w N hw, fun s hs => subgroup_mul_lt w N s hw hs, ?_⟩
  intro modes cx cy cz hmodes
  constructor
  · rw [workgroupActiveIndices_eq, hmodes, activeIndicesOfWidth_eq _ _ (by decide)]
  · intro s hs
    rw [laneActive_CmpLT _ _ 0 (by decide),
      Extract_subgroupLocalInvocationIndex _ _ (by decide), Extract_broadcast _ _ (by decide)]
    have h := subgroup_mul_lt SIMD.Width (invocationsPerWorkgroup modes) s (by decide) hs
    show (s : Int) * (SIMD.Width : Int) + ((0 : Nat) : Int) < ((invocationsPerWorkgroup modes : Nat) : Int)
    exact_mod_cast h

/-- Claim C16, instance: 70 invocations in subgroups of 4 lanes. -/
theorem C16_invocation_coverage_witness :
    (1 ≤ 70 ∧ 1 ≤ 4) ∧ activeIndicesOfWidth 4 70 = List.range 70 ∧
      workgroupActiveIndices ⟨7, 5, 2, false⟩ (dispatchData ⟨7, 5, 2, false⟩ 1 1 1) =
        List.map Int.ofNat (List.range 70) :=
  have h := C16_invocation_coverage 70 4 (by decide) (by decide)
  ⟨⟨by decide, by decide⟩, h.1, (h.2.2 ⟨7, 5, 2, false⟩ 1 1 1 rfl).1⟩

/-! ## The resolver overwrites fixed slots -/

theorem SpirvRoutine.ext' (r₁ r₂ : SpirvRoutine)
    (h : ∀ v c, r₁.getVariable v c = r₂.getVariable v c) : r₁ = r₂ := by
  cases r₁ with
  | mk f =>
    cases r₂ with
    | mk g =>
      congr 1
      funext v c
      exact h v c

/-- A multi-component resolver step, slot by slot: the slots of the mapping get the
produced components, every other slot keeps its value. -/
theorem setInputBuiltin_components_pointwise (shader : SpirvShader)
    (routine routine' : SpirvRoutine) (id : BuiltIn) (f : Nat → SIMD.Int)
    (h : setInputBuiltin shader routine id
      (fun builtin value => some (forComponents builtin f value)) = some routine')
    (v c : Nat) :
    routine'.getVariable v c =
      if ownsSlot shader id v c then f (slotComponent shader id c)
      else routine.getVariable v c := by
  unfold ownsSlot slotComponent
  rcases setInputBuiltin_eq_some _ _ _ _ _ h with ⟨hn, rfl⟩ | ⟨b, value, hb, hv, rfl⟩
  · rw [hn]
    rfl
  · rw [hb]
    simp only [Option.some.injEq] at hv
    subst hv
    rw [getVariable_setVariable]
    by_cases hvid : v = b.Id
    · subst hvid
      rw [if_pos rfl, forComponents_apply]
      by_cases hc : b.FirstComponent ≤ c ∧ c < b.FirstComponent + b.SizeInComponents
      · rw [if_pos hc, if_pos (by simpa using hc)]
      · rw [if_neg hc, if_neg (by simpa using hc)]
    · rw [if_neg hvid, if_neg (by simp [hvid])]

/-- A single-component resolver step, slot by slot. -/
theorem setInputBuiltin_single_pointwise (shader : SpirvShader)
    (routine routine' : SpirvRoutine) (id : BuiltIn) (x : SIMD.Int)
    (h : setInputBuiltin shader routine id
      (fun builtin value => singleComponent builtin x value) = some routine')
    (v c : Nat) :
    routine'.getVariable v c =
      if ownsSlot shader id v c then x else routine.getVariable v c := by
  unfold ownsSlot
  rcases setInputBuiltin_eq_some _ _ _ _ _ h with ⟨hn, rfl⟩ | ⟨b, value, hb, hv, rfl⟩
  · rw [hn]
    rfl
  · rw [hb]
    obtain ⟨hs, rfl⟩ := singleComponent_eq_some _ _ _ _ hv
    rw [getVariable_setVariable]
    by_cases hvid : v = b.Id
    · subst hvid
      rw [if_pos rfl, Variable.set_apply]
      by_cases hc : c = b.FirstComponent
      · rw [if_pos hc, if_pos (by simp; omega)]
      · rw [if_neg hc, if_neg (by simp; omega)]
    · rw [if_neg hvid, if_neg (by simp [hvid])]

/-- Whether a single-component resolver step succeeds depends on the shader only. -/
theorem setInputBuiltin_single_isSome (shader : SpirvShader) (routine₁ routine₂ : SpirvRoutine)
    (id : BuiltIn) (x₁ x₂ : SIMD.Int)
    (h : (setInputBuiltin shader routine₁ id
      (fun builtin value => singleComponent builtin x₁ value)).isSome = true) :
    (setInputBuiltin shader routine₂ id
      (fun builtin value => singleComponent builtin x₂ value)).isSome = true := by
  unfold setInputBuiltin singleComponent ASSERT at h ⊢
  cases hb : shader.inputBuiltins id with
  | none => rfl
  | some b =>
    rw [hb] at h
    by_cases hs : b.SizeInComponents = 1
    · simp [hs]
    · simp [hs] at h

theorem setInputBuiltin_components_isSome (shader : SpirvShader) (routine : SpirvRoutine)
    (id : BuiltIn) (f : Nat → SIMD.Int) :
    (setInputBuiltin shader routine id
      (fun builtin value => some (forComponents builtin f value))).isSome = true := by
  unfold setInputBuiltin
  cases shader.inputBuiltins id <;> rfl


/-- The routine after `setSubgroupBuiltins`, slot by slot: the slots of the four
subgroup-scope builtins hold values fixed by the arguments, every other slot keeps its
value. -/
theorem setSubgroupBuiltins_pointwise (shader : SpirvShader) (data : Data)
    (routine routine' : SpirvRoutine) (workgroupID : Int × Int × Int)
    (localInvocationIndex : SIMD.Int) (subgroupIndex : Int)
    (h : setSubgroupBuiltins shader data routine workgroupID localInvocationIndex
      subgroupIndex = some routine') (v c : Nat) :
    routine'.getVariable v c =
      if ownsSlot shader BuiltIn.GlobalInvocationId v c then
        Int4.broadcast (Extract (data.workgroupSize *
            Insert (Insert (Insert (Int4.broadcast 0) (workgroupIDAt workgroupID X) X)
              (workgroupIDAt workgroupID Y) Y) (workgroupIDAt workgroupID Z) Z)
            (slotComponent shader BuiltIn.GlobalInvocationId c)) +
          localInvocationID data.workgroupSize localInvocationIndex
            (slotComponent shader BuiltIn.GlobalInvocationId c)
      else if ownsSlot shader BuiltIn.LocalInvocationId v c then
        localInvocationID data.workgroupSize localInvocationIndex
          (slotComponent shader BuiltIn.LocalInvocationId c)
      else if ownsSlot shader BuiltIn.SubgroupId v c then Int4.broadcast subgroupIndex
      else if ownsSlot shader BuiltIn.LocalInvocationIndex v c then localInvocationIndex
      else routine.getVariable v c := by
  obtain ⟨r₁, r₂, r₃, e₁, e₂, e₃, e₄⟩ := setSubgroupBuiltins_eq_some _ _ _ _ _ _ _ h
  rw [setInputBuiltin_components_pointwise shader r₃ routine' _ _ e₄ v c,
    setInputBuiltin_components_pointwise shader r₂ r₃ _ _ e₃ v c,
    setInputBuiltin_single_pointwise shader r₁ r₂ _ _ e₂ v c,
    setInputBuiltin_single_pointwise shader routine r₁ _ _ e₁ v c]

/-- Whether `setSubgroupBuiltins` succeeds depends on the shader only. -/
theorem setSubgroupBuiltins_isSome (shader : SpirvShader) (data : Data)
    (routine routine' routine₀ : SpirvRoutine) (workgroupID workgroupID₀ : Int × Int × Int)
    (localInvocationIndex localInvocationIndex₀ : SIMD.Int) (subgroupIndex subgroupIndex₀ : Int)
    (h : setSubgroupBuiltins shader data routine workgroupID localInvocationIndex
      subgroupIndex = some routine') :
    ∃ routine₀', setSubgroupBuiltins shader data routine₀ workgroupID₀ localInvocationIndex₀
      subgroupIndex₀ = some routine₀' := by
  obtain ⟨r₁, r₂, r₃, e₁, e₂, e₃, e₄⟩ := setSubgroupBuiltins_eq_some _ _ _ _ _ _ _ h
  simp only [setSubgroupBuiltins, Option.bind_eq_bind, Option.bind_eq_some]
  obtain ⟨s₁, hs₁⟩ := Option.isSome_iff_exists.1
    (setInputBuiltin_single_isSome shader routine routine₀ BuiltIn.LocalInvocationIndex
      localInvocationIndex localInvocationIndex₀ (by rw [e₁]; rfl))
  obtain ⟨s₂, hs₂⟩ := Option.isSome_iff_exists.1
    (setInputBuiltin_single_isSome shader r₁ s₁ BuiltIn.SubgroupId
      (Int4.broadcast subgroupIndex) (Int4.broadcast subgroupIndex₀) (by rw [e₂]; rfl))
  obtain ⟨s₃, hs₃⟩ := Option.isSome_iff_exists.1
    (setInputBuiltin_components_isSome shader s₂ BuiltIn.LocalInvocationId
      (fun component => localInvocationID data.workgroupSize localInvocationIndex₀ component))
  obtain ⟨s₄, hs₄⟩ := Option.isSome_iff_exists.1
    (setInputBuiltin_components_isSome shader s₃ BuiltIn.GlobalInvocationId
      (fun component =>
        Int4.broadcast (Extract (data.workgroupSize *
          Insert (Insert (Insert (Int4.broadcast 0) (workgroupIDAt workgroupID₀ X) X)
            (workgroupIDAt workgroupID₀ Y) Y) (workgroupIDAt workgroupID₀ Z) Z) component) +
        localInvocationID data.workgroupSize localInvocationIndex₀ component))
  exact ⟨s₄, s₁, hs₁, s₂, hs₂, s₃, hs₃, hs₄⟩

/-- An earlier `setSubgroupBuiltins` leaves no trace once the next one has run: both
write the same slots. -/
theorem setSubgroupBuiltins_absorb (shader : SpirvShader) (data : Data)
    (routine routine₁ : SpirvRoutine) (workgroupID workgroupID' : Int × Int × Int)
    (localInvocationIndex localInvocationIndex' : SIMD.Int) (subgroupIndex subgroupIndex' : Int)
    (h : setSubgroupBuiltins shader data routine workgroupID localInvocationIndex
      subgroupIndex = some routine₁) :
    setSubgroupBuiltins shader data routine₁ workgroupID' localInvocationIndex'
        subgroupIndex' =
      setSubgroupBuiltins shader data routine workgroupID' localInvocationIndex'
        subgroupIndex' := by
  obtain ⟨r₂, h₂⟩ := setSubgroupBuiltins_isSome shader data routine routine₁ routine₁
    workgroupID workgroupID' localInvocationIndex localInvocationIndex' subgroupIndex
    subgroupIndex' h
  obtain ⟨r₃, h₃⟩ := setSubgroupBuiltins_isSome shader data routine routine₁ routine
    workgroupID workgroupID' localInvocationIndex localInvocationIndex' subgroupIndex
    subgroupIndex' h
  rw [h₂, h₃]
  congr 1
  apply SpirvRoutine.ext'
  intro v c
  rw [setSubgroupBuiltins_pointwise _ _ _ _ _ _ _ h₂ v c,
    setSubgroupBuiltins_pointwise _ _ _ _ _ _ _ h₃ v c,
    setSubgroupBuiltins_pointwise _ _ _ _ _ _ _ h v c]
  split_ifs <;> rfl


/-! ## One unit for all subgroups against one unit per subgroup -/

/-- The rest of the subgroup loop does not depend on what the previous iteration wrote. -/
theorem emitSubgroups_absorb (shader : SpirvShader) (data : Data)
    (workgroupID : Int × Int × Int) (firstSubgroup : Int) (routine routine₁ : SpirvRoutine)
    (localInvocationIndex : SIMD.Int) (subgroupIndex : Int)
    (h : setSubgroupBuiltins shader data routine workgroupID localInvocationIndex
      subgroupIndex = some routine₁) (n : Nat) (i : Int) :
    emitSubgroups shader data workgroupID firstSubgroup n i routine₁ =
      emitSubgroups shader data workgroupID firstSubgroup n i routine := by
  cases n with
  | zero => rfl
  | succ n =>
    simp only [emitSubgroups]
    rw [setSubgroupBuiltins_absorb shader data routine routine₁ workgroupID workgroupID
      localInvocationIndex _ subgroupIndex _ h]

/-- The first iteration of the loop of the single unit is the loop of the unit of that
subgroup. -/
theorem emitSubgroups_succ (shader : SpirvShader) (data : Data)
    (workgroupID : Int × Int × Int) (routine : SpirvRoutine) (n i : Nat) :
    emitSubgroups shader data workgroupID 0 (n + 1) (i : Int) routine =
      match emitSubgroups shader data workgroupID (i : Int) 1 0 routine with
      | none => none
      | some calls =>
        match emitSubgroups shader data workgroupID 0 n ((i : Int) + 1) routine with
        | none => none
        | some more => some (calls ++ more) := by
  simp only [emitSubgroups, Int.zero_add, Int.add_zero]
  cases hs : setSubgroupBuiltins shader data routine workgroupID
      (subgroupLocalInvocationIndex (i : Int)) (i : Int) with
  | none => rfl
  | some r₁ =>
    simp only
    rw [emitSubgroups_absorb shader data workgroupID 0 routine r₁ _ _ hs n ((i : Int) + 1)]
    cases emitSubgroups shader data workgroupID 0 n ((i : Int) + 1) routine <;> rfl

theorem emitSubgroups_eq_emitUnits (shader : SpirvShader) (data : Data)
    (routine routine₀ : SpirvRoutine) (workgroupX workgroupY workgroupZ : Int)
    (hw : setWorkgroupBuiltins shader data routine (workgroupX, workgroupY, workgroupZ) =
      some routine₀) (n : Nat) : ∀ i : Nat,
    emitSubgroups shader data (workgroupX, workgroupY, workgroupZ) 0 n (i : Int) routine₀ =
      emitUnits shader data routine workgroupX workgroupY workgroupZ (List.range' i n) := by
  induction n with
  | zero => intro i; rfl
  | succ n ih =>
    intro i
    rw [emitSubgroups_succ, List.range'_succ, emitUnits]
    have he : emit shader data routine workgroupX workgroupY workgroupZ (i : Int) 1 =
        emitSubgroups shader data (workgroupX, workgroupY, workgroupZ) (i : Int) 1 0 routine₀ := by
      simp only [emit, hw]
      rfl
    have hi := ih (i + 1)
    rw [Nat.cast_add, Nat.cast_one] at hi
    rw [he, hi]

/-- Claim C18. The two scheduling strategies agree on what the shader body is run with:
the sequence of calls (routine state with the subgroup builtins, and active lane mask)
that `emit` produces for one unit with `firstSubgroup = 0` and `subgroupCount = n` is the
concatenation, for `i = 0 .. n-1`, of the sequences it produces for the units with
`firstSubgroup = i` and `subgroupCount = 1`; the `k`-th call is for subgroup `k` in both. -/
theorem C18_strategies_agree (shader : SpirvShader) (data : Data) (routine : SpirvRoutine)
    (workgroupX workgroupY workgroupZ : Int) (n : Nat) (calls : List ShaderCall)
    (hemit : emit shader data routine workgroupX workgroupY workgroupZ 0 (n : Int) =
      some calls) :
    emitUnits shader data routine workgroupX workgroupY workgroupZ (List.range n) =
      some calls := by
  rw [← hemit]
  simp only [emit] at hemit ⊢
  cases hw : setWorkgroupBuiltins shader data routine (workgroupX, workgroupY, workgroupZ) with
  | none => rw [hw] at hemit; simp at hemit
  | some r₀ =>
    simp only [Int.toNat_ofNat]
    have := emitSubgroups_eq_emitUnits shader data routine r₀ workgroupX workgroupY workgroupZ
      hw n 0
    rw [List.range_eq_range']
    rw [← this]
    rfl

/-- Claim C18, instance: two subgroups of the scenario shader (8 invocations would need
both); the single unit and the two per-subgroup units give the same two calls. -/
theorem C18_strategies_agree_witness :
    emit scenarioShader scenarioData blankRoutine 1 0 0 0 ((2 : Nat) : Int) =
        some ((emit scenarioShader scenarioData blankRoutine 1 0 0 0 ((2 : Nat) : Int)).getD
          []) ∧
      emitUnits scenarioShader scenarioData blankRoutine 1 0 0 (List.range 2) =
        some ((emit scenarioShader scenarioData blankRoutine 1 0 0 0 ((2 : Nat) : Int)).getD
          []) :=
  ⟨rfl, C18_strategies_agree scenarioShader scenarioData blankRoutine 1 0 0 2 _ rfl⟩

/-! ## Rounds of the queue -/

theorem roundAll_barrier {ρ : Type} (q : List BarrierUnit) (m : Machine ρ) :
    roundAll BarrierUnit.await q m = (nextRound q, m) := by
  induction q with
  | nil => rfl
  | cons u q ih =>
    obtain ⟨i, r⟩ := u
    cases r with
    | zero => simp only [roundAll, BarrierUnit.await, ih, nextRound, List.filterMap_cons]
    | succ r => simp only [roundAll, BarrierUnit.await, ih, nextRound, List.filterMap_cons]

theorem pendingResumptions_nextRound (q : List BarrierUnit) :
    pendingResumptions q = q.length + pendingResumptions (nextRound q) := by
  induction q with
  | nil => rfl
  | cons u q ih =>
    obtain ⟨i, r⟩ := u
    have e : pendingResumptions (⟨i, r⟩ :: q) = r + 1 + pendingResumptions q := by
      simp [pendingResumptions]
    rw [e, ih]
    cases r with
    | zero =>
      have : nextRound (⟨i, 0⟩ :: q) = nextRound q := by
        simp [nextRound, List.filterMap_cons]
      rw [this, List.length_cons]
      omega
    | succ r =>
      have : nextRound (⟨i, r + 1⟩ :: q) = ⟨i, r⟩ :: nextRound q := by
        simp [nextRound, List.filterMap_cons]
      have e' : pendingResumptions (⟨i, r⟩ :: nextRound q) =
          r + 1 + pendingResumptions (nextRound q) := by
        simp [pendingResumptions]
      rw [this, e', List.length_cons]
      omega

theorem mem_nextRound (q : List BarrierUnit) (u : BarrierUnit) (h : u ∈ nextRound q) :
    (⟨u.subgroup, u.remaining + 1⟩ : BarrierUnit) ∈ q := by
  unfold nextRound at h
  rw [List.mem_filterMap] at h
  obtain ⟨a, ha, hu⟩ := h
  obtain ⟨i, r⟩ := a
  cases r with
  | zero => simp at hu
  | succ r =>
    simp only [Option.some.injEq] at hu
    subst hu
    exact ha

/-- With enough rounds and enough fuel, the loop resumes the units round by round. -/
theorem drainQueue_eq_roundsTrace {ρ : Type} (m : Machine ρ) :
    ∀ (rounds : Nat) (q : List BarrierUnit), (∀ u ∈ q, u.remaining < rounds) →
      ∀ extra, drainQueue BarrierUnit.await (extra + pendingResumptions q) q m =
        some (roundsTrace rounds q, m) := by
  intro rounds
  induction rounds with
  | zero =>
    intro q hq extra
    cases q with
    | nil => simp [drainQueue, roundsTrace]
    | cons u rest => exact absurd (hq u (List.mem_cons_self _ _)) (Nat.not_lt_zero _)
  | succ rounds ih =>
    intro q hq extra
    have hnext : ∀ u ∈ nextRound q, u.remaining < rounds := by
      intro u hu
      have := hq _ (mem_nextRound q u hu)
      simp only at this
      omega
    have h := drainQueue_round (BarrierUnit.await (ρ := ρ)) q []
      (extra + pendingResumptions (nextRound q)) m
    rw [List.append_nil, roundAll_barrier, List.nil_append] at h
    have e : extra + pendingResumptions q =
        extra + pendingResumptions (nextRound q) + q.length := by
      rw [pendingResumptions_nextRound q]
      omega
    rw [e, h]
    simp only
    rw [ih (nextRound q) hnext extra]
    rfl

theorem remaining_lt_pendingResumptions (q : List BarrierUnit) (u : BarrierUnit) (h : u ∈ q) :
    u.remaining < pendingResumptions q := by
  induction q with
  | nil => simp at h
  | cons a q ih =>
    have e : pendingResumptions (a :: q) = a.remaining + 1 + pendingResumptions q := by
      simp [pendingResumptions]
    rw [e]
    rcases List.mem_cons.1 h with rfl | h
    · omega
    · have := ih h
      omega


/-! ## Order of the resumptions within a round -/

theorem resumptionOrdinal_append_left (L T : List Nat) (hL : L.Nodup) (p : Nat)
    (hp : p < L.length) : resumptionOrdinal (L ++ T) p = 0 := by
  unfold resumptionOrdinal
  rw [List.take_append_of_le_length (Nat.le_of_lt hp), List.getD_append _ _ _ _ hp,
    List.getD_eq_getElem _ _ hp, List.count_eq_zero]
  intro hmem
  obtain ⟨k, hk, hkeq⟩ := List.getElem_of_mem hmem
  have hk' : k < p := by
    rw [List.length_take] at hk
    omega
  rw [List.getElem_take] at hkeq
  have := (List.Nodup.getElem_inj_iff hL).1 hkeq
  omega

theorem resumptionOrdinal_append_right (L T : List Nat) (hL : L.Nodup)
    (hT : ∀ x ∈ T, x ∈ L) (p : Nat) (hp : p < T.length) :
    resumptionOrdinal (L ++ T) (L.length + p) = 1 + resumptionOrdinal T p := by
  unfold resumptionOrdinal
  have hget : (L ++ T).getD (L.length + p) 0 = T.getD p 0 := by
    rw [List.getD_append_right _ _ _ _ (Nat.le_add_right _ _), Nat.add_sub_cancel_left]
  rw [hget, List.take_append_eq_append_take, List.take_of_length_le (Nat.le_add_right _ _),
    Nat.add_sub_cancel_left, List.count_append]
  congr 1
  apply List.count_eq_one_of_mem hL
  rw [List.getD_eq_getElem _ _ hp]
  exact hT _ (List.getElem_mem _)

/-- A strictly increasing round placed before an ordered sequence of units of that round
gives an ordered sequence. -/
theorem fifoOrdered_append (L T : List Nat) (hL : L.Pairwise (· < ·))
    (hT : ∀ x ∈ T, x ∈ L) (h : FifoOrdered T) : FifoOrdered (L ++ T) := by
  have hnd : L.Nodup := hL.imp (fun h => Nat.ne_of_lt h)
  intro p q hp hq hlt hord
  rw [List.length_append] at hp hq
  by_cases hpL : p < L.length
  · by_cases hqL : q < L.length
    · rw [List.getD_append _ _ _ _ hpL, List.getD_append _ _ _ _ hqL,
        List.getD_eq_getElem _ _ hpL, List.getD_eq_getElem _ _ hqL] at hlt
      by_contra hge
      rcases Nat.eq_or_lt_of_le (Nat.le_of_not_lt hge) with heq | hqp
      · subst heq
        exact Nat.lt_irrefl _ hlt
      · have := List.pairwise_iff_getElem.1 hL q p hqL hpL hqp
        omega
    · omega
  · by_cases hqL : q < L.length
    · have hp' : p = L.length + (p - L.length) := by omega
      rw [resumptionOrdinal_append_left L T hnd q hqL, hp',
        resumptionOrdinal_append_right L T hnd hT _ (by omega)] at hord
      omega
    · have hp' : p = L.length + (p - L.length) := by omega
      have hq' : q = L.length + (q - L.length) := by omega
      rw [hp', hq', resumptionOrdinal_append_right L T hnd hT _ (by omega),
        resumptionOrdinal_append_right L T hnd hT _ (by omega)] at hord
      rw [hp', hq', List.getD_append_right _ _ _ _ (Nat.le_add_right _ _),
        List.getD_append_right _ _ _ _ (Nat.le_add_right _ _), Nat.add_sub_cancel_left,
        Nat.add_sub_cancel_left] at hlt
      have := h (p - L.length) (q - L.length) (by omega) (by omega) hlt (by omega)
      omega

theorem map_subgroup_nextRound (q : List BarrierUnit) :
    (nextRound q).map BarrierUnit.subgroup =
      (q.filter fun u => u.remaining != 0).map BarrierUnit.subgroup := by
  induction q with
  | nil => rfl
  | cons u q ih =>
    obtain ⟨i, r⟩ := u
    cases r with
    | zero =>
      have : nextRound (⟨i, 0⟩ :: q) = nextRound q := by
        simp [nextRound, List.filterMap_cons]
      rw [this, ih]
      simp [List.filter_cons]
    | succ r =>
      have : nextRound (⟨i, r + 1⟩ :: q) = ⟨i, r⟩ :: nextRound q := by
        simp [nextRound, List.filterMap_cons]
      rw [this, List.map_cons, ih]
      simp [List.filter_cons]

theorem sublist_nextRound (q : List BarrierUnit) :
    ((nextRound q).map BarrierUnit.subgroup).Sublist (q.map BarrierUnit.subgroup) := by
  rw [map_subgroup_nextRound]
  exact (List.filter_sublist q).map _

theorem mem_roundsTrace (rounds : Nat) : ∀ (q : List BarrierUnit),
    ∀ x ∈ (roundsTrace rounds q).map BarrierUnit.subgroup, x ∈ q.map BarrierUnit.subgroup := by
  induction rounds with
  | zero => intro q x hx; simp [roundsTrace] at hx
  | succ rounds ih =>
    intro q x hx
    rw [roundsTrace, List.map_append, List.mem_append] at hx
    rcases hx with hx | hx
    · exact hx
    · exact (sublist_nextRound q).subset (ih (nextRound q) x hx)

/-- The resumptions of a queue with increasing subgroup indices are ordered. -/
theorem fifoOrdered_roundsTrace (rounds : Nat) : ∀ (q : List BarrierUnit),
    (q.map BarrierUnit.subgroup).Pairwise (· < ·) →
      FifoOrdered ((roundsTrace rounds q).map BarrierUnit.subgroup) := by
  induction rounds with
  | zero =>
    intro q _ p q' hp
    simp [roundsTrace] at hp
  | succ rounds ih =>
    intro q hq
    rw [roundsTrace, List.map_append]
    apply fifoOrdered_append _ _ hq
    · intro x hx
      exact (sublist_nextRound q).subset (mem_roundsTrace rounds (nextRound q) x hx)
    · exact ih (nextRound q) (hq.sublist (sublist_nextRound q))

/-- No queue at the head of the loop holds a unit twice. -/
theorem queueHistory_nodup {ρ : Type} : ∀ (fuel : Nat) (q : List BarrierUnit) (m : Machine ρ),
    (q.map BarrierUnit.subgroup).Nodup →
      ∀ queue ∈ queueHistory BarrierUnit.await fuel q m,
        (queue.map BarrierUnit.subgroup).Nodup := by
  intro fuel
  induction fuel with
  | zero =>
    intro q m hq queue hmem
    cases q with
    | nil =>
      simp only [queueHistory, List.mem_singleton] at hmem
      subst hmem
      exact List.nodup_nil
    | cons u rest =>
      simp only [queueHistory, List.mem_singleton] at hmem
      subst hmem
      exact hq
  | succ fuel ih =>
    intro q m hq queue hmem
    cases q with
    | nil =>
      simp only [queueHistory, List.mem_singleton] at hmem
      subst hmem
      exact List.nodup_nil
    | cons u rest =>
      obtain ⟨i, r⟩ := u
      rw [queueHistory, List.mem_cons] at hmem
      rcases hmem with rfl | hmem
      · exact hq
      · simp only [List.map_cons, List.nodup_cons, List.mem_map, not_exists, not_and] at hq
        obtain ⟨hi, hnd⟩ := hq
        cases r with
        | zero =>
          simp only [BarrierUnit.await] at hmem
          exact ih rest m hnd queue hmem
        | succ r =>
          simp only [BarrierUnit.await] at hmem
          refine ih (rest ++ [⟨i, r⟩]) m ?_ queue hmem
          rw [List.map_append, List.nodup_append]
          refine ⟨hnd, by simp, ?_⟩
          intro a ha hb
          simp only [List.map_cons, List.map_nil, List.mem_singleton] at hb
          obtain ⟨u, hu, rfl⟩ := List.mem_map.1 ha
          exact hi u hu hb

/-- Claim C19. FIFO order is preserved across rounds: for every list of per-unit barrier
counts the loop exits, and in the sequence of resumptions, whenever positions `p` and `q`
resume units `i < j` and both are the `k`-th resumption of their unit, `p` comes before
`q`; and no queue at the head of the loop contains the same unit twice. -/
theorem C19_fifo_order (ρ : Type) (bs : List Nat) (fuel : Nat)
    (hfuel : bs.sum + bs.length ≤ fuel) (m : Machine ρ) :
    ∃ resumed, drainQueue BarrierUnit.await fuel (barrierUnits 0 bs) m = some (resumed, m) ∧
      FifoOrdered (resumed.map BarrierUnit.subgroup) ∧
      ∀ queue ∈ queueHistory BarrierUnit.await fuel (barrierUnits 0 bs) m,
        (queue.map BarrierUnit.subgroup).Nodup := by
  have hsorted : ((barrierUnits 0 bs).map BarrierUnit.subgroup).Pairwise (· < ·) := by
    rw [map_subgroup_barrierUnits]
    exact List.pairwise_lt_range' _ _
  have hd := drainQueue_eq_roundsTrace m (pendingResumptions (barrierUnits 0 bs))
    (barrierUnits 0 bs) (fun u hu => remaining_lt_pendingResumptions _ u hu)
    (fuel - pendingResumptions (barrierUnits 0 bs))
  rw [Nat.sub_add_cancel (by rw [pendingResumptions_barrierUnits]; exact hfuel)] at hd
  refine ⟨_, hd, fifoOrdered_roundsTrace _ _ hsorted, ?_⟩
  exact queueHistory_nodup fuel _ m (hsorted.imp (fun h => Nat.ne_of_lt h))

/-- Claim C19, instance: barrier counts `2, 0, 1` within six resumptions. -/
theorem C19_fifo_order_witness :
    [2, 0, 1].sum + [2, 0, 1].length ≤ 6 ∧
    ∃ resumed, drainQueue BarrierUnit.await 6 (barrierUnits 0 [2, 0, 1]) ⟨[], ()⟩ =
        some (resumed, ⟨[], ()⟩) ∧
      FifoOrdered (resumed.map BarrierUnit.subgroup) ∧
      ∀ queue ∈ queueHistory BarrierUnit.await 6 (barrierUnits 0 [2, 0, 1])
          (⟨[], ()⟩ : Machine Unit),
        (queue.map BarrierUnit.subgroup).Nodup :=
  ⟨by decide, C19_fifo_order Unit [2, 0, 1] 6 (by decide) ⟨[], ()⟩⟩

/-! ## Instance of the injectivity claim -/

theorem scenario_setSubgroupBuiltins :
    setSubgroupBuiltins scenarioShader scenarioData blankRoutine (1, 0, 0)
      (subgroupLocalInvocationIndex 0) 0 = some scenarioSubgroupRoutine := rfl

/-- Claim C17, instance: lane 2 of subgroup 0 of workgroup `(1, 0, 0)` of the scenario,
compared with itself. -/
theorem C17_global_invocation_id_injective_witness :
    (1 ≤ Extract scenarioData.workgroupSize X ∧ 1 ≤ Extract scenarioData.workgroupSize Y ∧
      1 ≤ Extract scenarioData.workgroupSize Z) ∧
    (0 ≤ Extract (subgroupLocalInvocationIndex 0) 2 ∧
      Extract (subgroupLocalInvocationIndex 0) 2 <
        Extract scenarioData.workgroupSize X * Extract scenarioData.workgroupSize Y *
          Extract scenarioData.workgroupSize Z) ∧
    ((1, 0, 0) : Int × Int × Int) = (1, 0, 0) ∧
      Extract (subgroupLocalInvocationIndex 0) 2 = Extract (subgroupLocalInvocationIndex 0) 2 :=
  ⟨⟨by decide, by decide, by decide⟩, ⟨by decide, by decide⟩,
    C17_global_invocation_id_injective scenarioShader scenarioData blankRoutine
      scenarioSubgroupRoutine blankRoutine scenarioSubgroupRoutine (1, 0, 0) (1, 0, 0)
      (subgroupLocalInvocationIndex 0) (subgroupLocalInvocationIndex 0) 0 0
      scenario_setSubgroupBuiltins scenario_setSubgroupBuiltins ⟨1, 0, 3⟩ rfl (by decide)
      (by decide) (by decide) (by decide) 2 2 (by decide) (by decide)
      ⟨by decide, by decide⟩ ⟨by decide, by decide⟩ (fun _ _ => rfl)⟩

namespace vk

/-! ## Render pass: the subpass cursor -/

theorem construct_members {sizeof : Sizeof} {ci : VkRenderPassCreateInfo} {this rp : RenderPass}
    {placed : List (Nat × Nat)} (hc : RenderPass.construct sizeof ci this = some (rp, placed)) :
    0 < ci.subpassCount ∧ rp.attachmentCount = ci.attachmentCount ∧
      rp.subpassCount = ci.subpassCount ∧ rp.dependencyCount = ci.dependencyCount ∧
      rp.currentSubpass = this.currentSubpass := by
  unfold RenderPass.construct at hc
  by_cases h0 : 0 < ci.subpassCount
  · simp only [ASSERT, h0, decide_True, if_true, Option.some_bind, Option.bind_eq_bind,
      Option.bind_eq_some] at hc
    obtain ⟨s, _, hs⟩ := hc
    simp only [Option.some.injEq, Prod.mk.injEq] at hs
    obtain ⟨rfl, _⟩ := hs
    exact ⟨h0, rfl, rfl, rfl, rfl⟩
  · simp [ASSERT, h0] at hc

theorem nextSubpass_eq (s : RenderPass) :
    s.nextSubpass = if s.currentSubpass + 1 < s.subpassCount then
      some ⟨s.attachmentCount, s.subpassCount, s.dependencyCount, s.currentSubpass + 1,
        s.attachmentFirstUse⟩ else none := by
  unfold RenderPass.nextSubpass
  by_cases h : s.currentSubpass + 1 < s.subpassCount <;> simp [ASSERT, h]

theorem callSequence_cons (c : CursorCall) (calls : List CursorCall) (s : RenderPass) :
    callSequence (c :: calls) s = (c.apply s).bind (callSequence calls) := by
  simp [callSequence, List.foldlM_cons]

theorem callSequence_append (xs ys : List CursorCall) (s : RenderPass) :
    callSequence (xs ++ ys) s = (callSequence xs s).bind (callSequence ys) := by
  simp [callSequence, List.foldlM_append]

theorem callSequence_nextSubpass (k : Nat) (s : RenderPass) :
    callSequence (List.replicate k CursorCall.nextSubpass) s =
      if k = 0 ∨ s.currentSubpass + k < s.subpassCount then
        some ⟨s.attachmentCount, s.subpassCount, s.dependencyCount, s.currentSubpass + k,
          s.attachmentFirstUse⟩ else none := by
  induction k generalizing s with
  | zero => simp [callSequence]
  | succ k ih =>
    rw [List.replicate_succ, callSequence_cons]
    simp only [CursorCall.apply, nextSubpass_eq]
    by_cases h : s.currentSubpass + 1 < s.subpassCount
    · simp only [h, if_true, Option.some_bind, ih]
      by_cases hk : k = 0
      · subst hk
        simp [h]
      · have e : s.currentSubpass + 1 + k = s.currentSubpass + (k + 1) := by omega
        simp only [hk, false_or, e, Nat.succ_ne_zero]
    · have h' : ¬ s.currentSubpass + (k + 1) < s.subpassCount := by omega
      simp [h, h']

theorem apply_subpassCount {c : CursorCall} {s s' : RenderPass} (h : c.apply s = some s') :
    s'.subpassCount = s.subpassCount ∧ s'.currentSubpass < s'.subpassCount ∨
      s'.subpassCount = s.subpassCount ∧ s'.currentSubpass = 0 := by
  cases c
  · simp only [CursorCall.apply, Option.some.injEq] at h
    subst h
    exact Or.inr ⟨rfl, rfl⟩
  · simp only [CursorCall.apply, nextSubpass_eq] at h
    split at h
    · rename_i hlt
      simp only [Option.some.injEq] at h
      subst h
      exact Or.inl ⟨rfl, hlt⟩
    · exact absurd h (by simp)
  · simp only [CursorCall.apply, Option.some.injEq] at h
    subst h
    exact Or.inr ⟨rfl, rfl⟩

theorem callSequence_invariant (calls : List CursorCall) (s s' : RenderPass)
    (h : callSequence calls s = some s') (h0 : 0 < s.subpassCount) :
    s'.subpassCount = s.subpassCount ∧
      ((calls ≠ [] ∨ s.currentSubpass < s.subpassCount) →
        s'.currentSubpass < s'.subpassCount) := by
  induction calls using List.reverseRecOn generalizing s' with
  | nil =>
    simp only [callSequence, List.foldlM_nil, pure, Option.some.injEq] at h
    subst h
    exact ⟨rfl, fun hh => hh.resolve_left (by simp)⟩
  | append_singleton calls c ih =>
    rw [callSequence_append, Option.bind_eq_some] at h
    obtain ⟨t, ht, hc⟩ := h
    have hc' : c.apply t = some s' := by
      simpa [callSequence, List.foldlM_cons] using hc
    obtain ⟨e, _⟩ := ih t ht
    rcases apply_subpassCount hc' with ⟨e', hlt⟩ | ⟨e', hz⟩
    · exact ⟨e'.trans e, fun _ => hlt⟩
    · exact ⟨e'.trans e, fun _ => by rw [hz, e', e]; exact h0⟩

end vk

namespace vk

/-! ## Render pass: the bytes the constructor places -/

theorem foldlM_some_preserve {σ α τ : Type} (f : σ → α → Option σ) (r : σ → τ)
    (h : ∀ s x s', f s x = some s' → r s' = r s) :
    ∀ (l : List α) (s s' : σ), l.foldlM f s = some s' → r s' = r s := by
  intro l
  induction l with
  | nil =>
    intro s s' hs
    simp only [List.foldlM_nil, pure, Option.some.injEq] at hs
    rw [hs]
  | cons x l ih =>
    intro s s' hs
    simp only [List.foldlM_cons, Option.bind_eq_bind, Option.bind_eq_some] at hs
    obtain ⟨t, ht, hs⟩ := hs
    rw [ih t s' hs, h s x t ht]

theorem foldlM_some_add {σ α : Type} (f : σ → α → Option σ) (m : σ → Nat) (g : α → Nat)
    (h : ∀ s x s', f s x = some s' → m s' = m s + g x) :
    ∀ (l : List α) (s s' : σ), l.foldlM f s = some s' → m s' = m s + (l.map g).sum := by
  intro l
  induction l with
  | nil =>
    intro s s' hs
    simp only [List.foldlM_nil, pure, Option.some.injEq] at hs
    simp [hs]
  | cons x l ih =>
    intro s s' hs
    simp only [List.foldlM_cons, Option.bind_eq_bind, Option.bind_eq_some] at hs
    obtain ⟨t, ht, hs⟩ := hs
    rw [ih t s' hs, h s x t ht, List.map_cons, List.sum_cons, Nat.add_assoc]

theorem foldl_add_eq_sum {α : Type} (g : α → Nat) (l : List α) (a : Nat) :
    l.foldl (fun acc x => acc + g x) a = a + (l.map g).sum := by
  induction l generalizing a with
  | nil => simp
  | cons x l ih => simp [ih, Nat.add_assoc]

theorem bytesPlaced_append (xs ys : List (Nat × Nat)) :
    bytesPlaced (xs ++ ys) = bytesPlaced xs + bytesPlaced ys := by
  simp [bytesPlaced]

theorem bytesPlaced_memcpy_advance (s : Construction) (n k : Nat) :
    bytesPlaced ((s.memcpy n).advance k).placed = bytesPlaced s.placed + n := by
  simp [Construction.memcpy, Construction.advance, bytesPlaced]

theorem markFirstUse_placed {s s' : Construction} {a i : Nat}
    (h : s.markFirstUse a i = some s') : s'.placed = s.placed := by
  unfold Construction.markFirstUse at h
  split at h
  · simp only [Option.some.injEq] at h
    rw [← h]
  · exact absurd h (by simp)

theorem markColorAttachment_placed {subpass : VkSubpassDescription} {i j : Nat}
    {s s' : Construction} (h : markColorAttachment subpass i s j = some s') :
    s'.placed = s.placed := by
  unfold markColorAttachment at h
  simp only [Option.bind_eq_bind, Option.bind_eq_some] at h
  obtain ⟨t, ht, h⟩ := h
  have e1 : t.placed = s.placed := by
    split at ht
    · exact markFirstUse_placed ht
    · simp only [Option.some.injEq] at ht
      rw [← ht]
  have e2 : s'.placed = t.placed := by
    split at h
    · split at h
      · exact markFirstUse_placed h
      · simp only [Option.some.injEq] at h
        rw [← h]
    · simp only [Option.some.injEq] at h
      rw [← h]
  rw [e2, e1]

theorem copyInputAttachments_bytes {sizeof : Sizeof} {subpass : VkSubpassDescription}
    {i : Nat} {s s' : Construction} (h : copyInputAttachments sizeof subpass i s = some s') :
    bytesPlaced s'.placed =
      bytesPlaced s.placed + subpass.inputAttachmentCount * sizeof.VkAttachmentReference := by
  unfold copyInputAttachments at h
  split at h
  · have e := foldlM_some_preserve _ Construction.placed (fun s x s' hx => by
      split at hx
      · exact markFirstUse_placed hx
      · simp only [Option.some.injEq] at hx
        rw [← hx]) _ _ _ h
    rw [e, bytesPlaced_memcpy_advance]
  · rename_i h0
    simp only [Option.some.injEq] at h
    have : subpass.inputAttachmentCount = 0 := by omega
    simp [← h, this]

theorem copyColorAttachments_bytes {sizeof : Sizeof} {subpass : VkSubpassDescription}
    {i : Nat} {s s' : Construction} (h : copyColorAttachments sizeof subpass i s = some s') :
    bytesPlaced s'.placed =
      bytesPlaced s.placed + (subpass.colorAttachmentCount * sizeof.VkAttachmentReference
        + if subpass.pResolveAttachments.isSome then
            subpass.colorAttachmentCount * sizeof.VkAttachmentReference else 0) := by
  unfold copyColorAttachments at h
  split at h
  · have e := foldlM_some_preserve _ Construction.placed
      (fun s x s' hx => markColorAttachment_placed hx) _ _ _ h
    rw [e]
    cases hr : subpass.pResolveAttachments.isSome
    · simp only [Bool.false_eq_true, if_false, bytesPlaced_memcpy_advance, Nat.add_zero]
    · simp only [if_true, bytesPlaced_memcpy_advance]
      omega
  · rename_i h0
    simp only [Option.some.injEq] at h
    have : subpass.colorAttachmentCount = 0 := by omega
    simp [← h, this]

theorem copyDepthStencilAttachment_bytes {sizeof : Sizeof} {subpass : VkSubpassDescription}
    {i : Nat} {s s' : Construction}
    (h : copyDepthStencilAttachment sizeof subpass i s = some s') :
    bytesPlaced s'.placed =
      bytesPlaced s.placed
        + if subpass.pDepthStencilAttachment.isSome then sizeof.VkAttachmentReference
          else 0 := by
  unfold copyDepthStencilAttachment at h
  split at h
  · rename_i d hd
    have e : s'.placed = ((s.memcpy sizeof.VkAttachmentReference).advance
        sizeof.VkAttachmentReference).placed := by
      split at h
      · exact markFirstUse_placed h
      · simp only [Option.some.injEq] at h
        rw [← h]
    rw [e, bytesPlaced_memcpy_advance, hd]
    simp
  · rename_i hd
    simp only [Option.some.injEq] at h
    simp [← h, hd]

theorem copyPreserveAttachments_bytes {sizeof : Sizeof} {subpass : VkSubpassDescription}
    {i : Nat} {s s' : Construction} (h : copyPreserveAttachments sizeof subpass i s = some s') :
    bytesPlaced s'.placed =
      bytesPlaced s.placed + subpass.preserveAttachmentCount * sizeof.uint32_t := by
  unfold copyPreserveAttachments at h
  split at h
  · have e := foldlM_some_preserve _ Construction.placed (fun s x s' hx => by
      split at hx
      · exact markFirstUse_placed hx
      · simp only [Option.some.injEq] at hx
        rw [← hx]) _ _ _ h
    rw [e, bytesPlaced_memcpy_advance]
  · rename_i h0
    simp only [Option.some.injEq] at h
    have : subpass.preserveAttachmentCount = 0 := by omega
    simp [← h, this]

theorem deepCopySubpass_bytes {sizeof : Sizeof} {subpass : VkSubpassDescription}
    {i : Nat} {s s' : Construction} (h : deepCopySubpass sizeof subpass i s = some s') :
    bytesPlaced s'.placed =
      bytesPlaced s.placed + (sizeof.VkAttachmentReference * referenceCount subpass
        + sizeof.uint32_t * subpass.preserveAttachmentCount) := by
  unfold deepCopySubpass at h
  simp only [Option.bind_eq_bind, Option.bind_eq_some] at h
  obtain ⟨s1, h1, s2, h2, s3, h3, h4⟩ := h
  rw [copyPreserveAttachments_bytes h4, copyDepthStencilAttachment_bytes h3,
    copyColorAttachments_bytes h2, copyInputAttachments_bytes h1]
  unfold referenceCount
  cases subpass.pResolveAttachments.isSome <;>
    cases subpass.pDepthStencilAttachment.isSome <;>
    simp only [Bool.false_eq_true, if_true, if_false] <;> ring

theorem nbAttachments_eq {subpass : VkSubpassDescription}
    (h : referenceCount subpass < 2 ^ 32) : nbAttachments subpass = referenceCount subpass := by
  unfold referenceCount at h
  unfold nbAttachments referenceCount
  revert h
  cases subpass.pResolveAttachments.isSome <;>
    cases subpass.pDepthStencilAttachment.isSome <;>
    simp only [Bool.false_eq_true, if_true, if_false, Nat.add_zero] <;> intro h <;> omega

/-- The bytes the constructor places, in closed form. -/
theorem construct_bytes {sizeof : Sizeof} {ci : VkRenderPassCreateInfo} {this rp : RenderPass}
    {placed : List (Nat × Nat)} (hc : RenderPass.construct sizeof ci this = some (rp, placed)) :
    bytesPlaced placed =
      ci.subpassCount * sizeof.VkSubpassDescription
        + (ci.attachmentCount * sizeof.VkAttachmentDescription + ci.attachmentCount * sizeof.int)
        + ((List.range ci.subpassCount).map fun i =>
            sizeof.VkAttachmentReference * referenceCount (ci.pSubpasses i)
              + sizeof.uint32_t * (ci.pSubpasses i).preserveAttachmentCount).sum
        + ci.dependencyCount * sizeof.VkSubpassDependency := by
  unfold RenderPass.construct at hc
  simp only [Option.bind_eq_bind, Option.bind_eq_some] at hc
  obtain ⟨_, _, s, hs, hc⟩ := hc
  simp only [Option.some.injEq, Prod.mk.injEq] at hc
  obtain ⟨_, rfl⟩ := hc
  have e := foldlM_some_add _ (fun s : Construction => bytesPlaced s.placed)
    (fun i => sizeof.VkAttachmentReference * referenceCount (ci.pSubpasses i)
              + sizeof.uint32_t * (ci.pSubpasses i).preserveAttachmentCount)
    (fun s x s' hx => deepCopySubpass_bytes hx) _ _ _ hs
  have e0 : bytesPlaced (copyAttachments sizeof ci
      (((Construction.mk 0 [] this.attachmentFirstUse).memcpy
        (ci.subpassCount * sizeof.VkSubpassDescription)).advance
        (ci.subpassCount * sizeof.VkSubpassDescription))).placed =
      ci.subpassCount * sizeof.VkSubpassDescription
        + (ci.attachmentCount * sizeof.VkAttachmentDescription
          + ci.attachmentCount * sizeof.int) := by
    unfold copyAttachments
    by_cases ha : 0 < ci.attachmentCount
    · simp only [ha, if_true, bytesPlaced_append, bytesPlaced_memcpy_advance]
      simp [bytesPlaced, Nat.add_assoc]
    · have : ci.attachmentCount = 0 := by omega
      simp [this, bytesPlaced, Construction.memcpy, Construction.advance]
  simp only at e
  by_cases hd : 0 < ci.dependencyCount
  · simp only [hd, if_true, Construction.memcpy, bytesPlaced_append]
    rw [e, e0]
    simp [bytesPlaced]
  · have : ci.dependencyCount = 0 := by omega
    simp only [this, if_false, Nat.lt_irrefl, Nat.zero_mul, Nat.add_zero]
    rw [e, e0]

/-- The size `ComputeRequiredAllocationSize` returns, as a sum over the subpasses. -/
theorem ComputeRequiredAllocationSize_eq (sizeof : Sizeof) (ci : VkRenderPassCreateInfo) :
    RenderPass.ComputeRequiredAllocationSize sizeof ci =
      (ci.attachmentCount * sizeof.VkAttachmentDescription + ci.attachmentCount * sizeof.int)
        + ((List.range ci.subpassCount).map fun i =>
            sizeof.VkSubpassDescription
              + sizeof.VkAttachmentReference * nbAttachments (ci.pSubpasses i)
              + sizeof.uint32_t * (ci.pSubpasses i).preserveAttachmentCount).sum
        + ci.dependencyCount * sizeof.VkSubpassDependency := by
  unfold RenderPass.ComputeRequiredAllocationSize
  simp only [foldl_add_eq_sum, Nat.zero_add]

theorem sum_range_split (n c : Nat) (g : Nat → Nat) :
    ((List.range n).map fun i => c + g i).sum = n * c + ((List.range n).map g).sum := by
  induction n with
  | zero => simp
  | succ n ih =>
    simp only [List.range_succ, List.map_append, List.sum_append, List.map_cons, List.map_nil,
      List.sum_cons, List.sum_nil, Nat.add_zero] at ih ⊢
    rw [ih]
    ring

theorem sum_range_congr (n : Nat) (f g : Nat → Nat) (h : ∀ i < n, f i = g i) :
    ((List.range n).map f).sum = ((List.range n).map g).sum := by
  congr 1
  apply List.map_congr_left
  intro i hi
  exact h i (List.mem_range.1 hi)

end vk

namespace vk

/-! ## Render pass: the first-use table as a sequence of marks -/

theorem markAll_nil (table : List Int) : markAll [] table = some table := rfl

theorem markAll_append (xs ys : List (Nat × Nat)) (table : List Int) :
    markAll (xs ++ ys) table = (markAll xs table).bind (markAll ys) := by
  simp [markAll, List.foldlM_append]

theorem markAll_cons (m : Nat × Nat) (ms : List (Nat × Nat)) (table : List Int) :
    markAll (m :: ms) table = (markAll [m] table).bind (markAll ms) :=
  markAll_append [m] ms table

theorem markFirstUse_table (s : Construction) (a i : Nat) :
    (s.markFirstUse a i).map Construction.attachmentFirstUse =
      markAll [(a, i)] s.attachmentFirstUse := by
  unfold Construction.markFirstUse markAll
  by_cases h : a < s.attachmentFirstUse.length <;> simp [h]

theorem markIf_table (s : Construction) (a i : Nat) :
    (if a ≠ VK_ATTACHMENT_UNUSED then s.markFirstUse a i else some s).map
        Construction.attachmentFirstUse =
      markAll ((markedBy a).map fun a => (a, i)) s.attachmentFirstUse := by
  unfold markedBy
  by_cases h : a ≠ VK_ATTACHMENT_UNUSED
  · simp only [h, if_true, List.map_cons, List.map_nil, ne_eq, not_false_eq_true]
    exact markFirstUse_table s a i
  · simp only [h, if_false, List.map_nil, Option.map_some', markAll_nil]

theorem bind_map_table {f : Construction → Option Construction}
    {g : List Int → Option (List Int)} (x : Option Construction)
    (h : ∀ s, (f s).map Construction.attachmentFirstUse = g s.attachmentFirstUse) :
    (x.bind f).map Construction.attachmentFirstUse =
      (x.map Construction.attachmentFirstUse).bind g := by
  cases x with
  | none => rfl
  | some s => simpa using h s

theorem foldlM_table (i : Nat) (body : Construction → Nat → Option Construction)
    (marks : Nat → List Nat)
    (h : ∀ s j, (body s j).map Construction.attachmentFirstUse =
      markAll ((marks j).map fun a => (a, i)) s.attachmentFirstUse) :
    ∀ (l : List Nat) (s : Construction),
      (l.foldlM body s).map Construction.attachmentFirstUse =
        markAll ((l.flatMap marks).map fun a => (a, i)) s.attachmentFirstUse := by
  intro l
  induction l with
  | nil =>
    intro s
    simp [markAll_nil]
  | cons j l ih =>
    intro s
    rw [List.foldlM_cons, List.flatMap_cons, List.map_append, markAll_append, ← h s j]
    exact bind_map_table (body s j) ih

theorem copyInputAttachments_table (sizeof : Sizeof) (subpass : VkSubpassDescription)
    (i : Nat) (s : Construction) :
    (copyInputAttachments sizeof subpass i s).map Construction.attachmentFirstUse =
      markAll (((List.range subpass.inputAttachmentCount).flatMap
        (fun j => markedBy (subpass.pInputAttachments j).attachment)).map fun a => (a, i))
        s.attachmentFirstUse := by
  unfold copyInputAttachments
  split
  · exact foldlM_table i _ (fun j => markedBy (subpass.pInputAttachments j).attachment)
      (fun s j => markIf_table s _ i) _ _
  · rename_i h0
    have : subpass.inputAttachmentCount = 0 := by omega
    simp [this, markAll_nil]

theorem markColorAttachment_table (subpass : VkSubpassDescription) (i : Nat)
    (s : Construction) (j : Nat) :
    (markColorAttachment subpass i s j).map Construction.attachmentFirstUse =
      markAll ((markedBy (subpass.pColorAttachments j).attachment
        ++ (match subpass.pResolveAttachments with
            | some pResolveAttachments => markedBy (pResolveAttachments j).attachment
            | none => [])).map fun a => (a, i)) s.attachmentFirstUse := by
  unfold markColorAttachment
  rw [List.map_append, markAll_append, ← markIf_table]
  apply bind_map_table
  intro t
  cases subpass.pResolveAttachments with
  | none => simp [markAll_nil]
  | some r => exact markIf_table t _ i

theorem copyColorAttachments_table (sizeof : Sizeof) (subpass : VkSubpassDescription)
    (i : Nat) (s : Construction) :
    (copyColorAttachments sizeof subpass i s).map Construction.attachmentFirstUse =
      markAll (((List.range subpass.colorAttachmentCount).flatMap
        (fun j => markedBy (subpass.pColorAttachments j).attachment
          ++ (match subpass.pResolveAttachments with
              | some pResolveAttachments => markedBy (pResolveAttachments j).attachment
              | none => []))).map fun a => (a, i))
        s.attachmentFirstUse := by
  unfold copyColorAttachments
  split
  · have e := foldlM_table i _ _ (markColorAttachment_table subpass i)
      (List.range subpass.colorAttachmentCount)
    simp only [e]
    cases subpass.pResolveAttachments.isSome <;> rfl
  · rename_i h0
    have : subpass.colorAttachmentCount = 0 := by omega
    simp [this, markAll_nil]

theorem copyDepthStencilAttachment_table (sizeof : Sizeof) (subpass : VkSubpassDescription)
    (i : Nat) (s : Construction) :
    (copyDepthStencilAttachment sizeof subpass i s).map Construction.attachmentFirstUse =
      markAll ((match subpass.pDepthStencilAttachment with
        | some pDepthStencilAttachment => markedBy pDepthStencilAttachment.attachment
        | none => []).map fun a => (a, i)) s.attachmentFirstUse := by
  unfold copyDepthStencilAttachment
  cases subpass.pDepthStencilAttachment with
  | none => simp [markAll_nil]
  | some d => exact markIf_table _ _ i

theorem copyPreserveAttachments_table (sizeof : Sizeof) (subpass : VkSubpassDescription)
    (i : Nat) (s : Construction) :
    (copyPreserveAttachments sizeof subpass i s).map Construction.attachmentFirstUse =
      markAll (((List.range subpass.preserveAttachmentCount).flatMap
        (fun j => markedBy (subpass.pPreserveAttachments j))).map fun a => (a, i))
        s.attachmentFirstUse := by
  unfold copyPreserveAttachments
  split
  · exact foldlM_table i _ (fun j => markedBy (subpass.pPreserveAttachments j))
      (fun s j => markIf_table s _ i) _ _
  · rename_i h0
    have : subpass.preserveAttachmentCount = 0 := by omega
    simp [this, markAll_nil]

theorem bind_table {f : Construction → Option Construction}
    {g h : List Int → Option (List Int)} (x : Option Construction) (table : List Int)
    (hx : x.map Construction.attachmentFirstUse = g table)
    (hf : ∀ s, (f s).map Construction.attachmentFirstUse = h s.attachmentFirstUse) :
    (x.bind f).map Construction.attachmentFirstUse = (g table).bind h := by
  rw [bind_map_table x hf, hx]

theorem deepCopySubpass_table (sizeof : Sizeof) (subpass : VkSubpassDescription)
    (i : Nat) (s : Construction) :
    (deepCopySubpass sizeof subpass i s).map Construction.attachmentFirstUse =
      markAll ((markedAttachments subpass).map fun a => (a, i)) s.attachmentFirstUse := by
  unfold deepCopySubpass markedAttachments
  simp only [List.map_append, markAll_append, Option.bind_eq_bind, Option.bind_assoc]
  exact bind_table _ _ (copyInputAttachments_table sizeof subpass i s) fun s1 =>
    bind_table _ _ (copyColorAttachments_table sizeof subpass i s1) fun s2 =>
      bind_table _ _ (copyDepthStencilAttachment_table sizeof subpass i s2) fun s3 =>
        copyPreserveAttachments_table sizeof subpass i s3

theorem deepCopySubpasses_table (sizeof : Sizeof) (pSubpasses : Nat → VkSubpassDescription) :
    ∀ (l : List Nat) (s : Construction),
      (l.foldlM (fun s i => deepCopySubpass sizeof (pSubpasses i) i s) s).map
          Construction.attachmentFirstUse =
        markAll (l.flatMap fun i => (markedAttachments (pSubpasses i)).map fun a => (a, i))
          s.attachmentFirstUse := by
  intro l
  induction l with
  | nil =>
    intro s
    simp [markAll_nil]
  | cons i l ih =>
    intro s
    rw [List.foldlM_cons, List.flatMap_cons, markAll_append]
    exact bind_table _ _ (deepCopySubpass_table sizeof (pSubpasses i) i s) ih

/-- The table the constructor starts the subpass loop with. -/
theorem copyAttachments_table (sizeof : Sizeof) (ci : VkRenderPassCreateInfo)
    (s : Construction) :
    (copyAttachments sizeof ci s).attachmentFirstUse =
      if 0 < ci.attachmentCount then List.replicate ci.attachmentCount (-1)
      else s.attachmentFirstUse := by
  unfold copyAttachments
  split <;> rfl

/-- The first-use table of the constructed object, as a sequence of marks. -/
theorem construct_table (sizeof : Sizeof) (ci : VkRenderPassCreateInfo) (this : RenderPass) :
    (RenderPass.construct sizeof ci this).map (fun r => r.1.attachmentFirstUse) =
      if 0 < ci.subpassCount then
        markAll (allMarks ci)
          (if 0 < ci.attachmentCount then List.replicate ci.attachmentCount (-1)
           else this.attachmentFirstUse)
      else none := by
  unfold RenderPass.construct
  by_cases h0 : 0 < ci.subpassCount
  · simp only [ASSERT, h0, decide_True, if_true, Option.bind_eq_bind, Option.some_bind]
    have e := deepCopySubpasses_table sizeof ci.pSubpasses (List.range ci.subpassCount)
      (copyAttachments sizeof ci
        (((Construction.mk 0 [] this.attachmentFirstUse).memcpy
          (ci.subpassCount * sizeof.VkSubpassDescription)).advance
          (ci.subpassCount * sizeof.VkSubpassDescription)))
    have e' : (copyAttachments sizeof ci
        (((Construction.mk 0 [] this.attachmentFirstUse).memcpy
          (ci.subpassCount * sizeof.VkSubpassDescription)).advance
          (ci.subpassCount * sizeof.VkSubpassDescription))).attachmentFirstUse =
        if 0 < ci.attachmentCount then List.replicate ci.attachmentCount (-1)
        else this.attachmentFirstUse := by
      rw [copyAttachments_table]
      rfl
    rw [e'] at e
    unfold allMarks
    rw [← e]
    cases List.foldlM (fun s i => deepCopySubpass sizeof (ci.pSubpasses i) i s)
      (copyAttachments sizeof ci
        (((Construction.mk 0 [] this.attachmentFirstUse).memcpy
          (ci.subpassCount * sizeof.VkSubpassDescription)).advance
          (ci.subpassCount * sizeof.VkSubpassDescription))) (List.range ci.subpassCount) with
    | none => rfl
    | some s =>
      simp only [Option.some_bind, Option.map_some', Option.some.injEq]
      split <;> rfl
  · simp [ASSERT, h0]

end vk

namespace vk

/-! ## Render pass: what a sequence of marks leaves in the table -/

theorem markAll_cons_of_lt (m : Nat × Nat) (ms : List (Nat × Nat)) (table : List Int)
    (h : m.1 < table.length) :
    markAll (m :: ms) table =
      markAll ms (table.set m.1 (MarkFirstUse (table.get ⟨m.1, h⟩) (Int.ofNat m.2))) := by
  simp [markAll, List.foldlM_cons, h]

theorem markAll_cons_of_not_lt (m : Nat × Nat) (ms : List (Nat × Nat)) (table : List Int)
    (h : ¬ m.1 < table.length) : markAll (m :: ms) table = none := by
  simp [markAll, List.foldlM_cons, h]

theorem firstMark_nil (a : Nat) : firstMark [] a = -1 := rfl

theorem firstMark_cons_self (m : Nat × Nat) (ms : List (Nat × Nat)) :
    firstMark (m :: ms) m.1 = Int.ofNat m.2 := by
  simp [firstMark, List.find?_cons]

theorem firstMark_cons_of_ne (m : Nat × Nat) (ms : List (Nat × Nat)) (a : Nat)
    (h : m.1 ≠ a) : firstMark (m :: ms) a = firstMark ms a := by
  simp [firstMark, List.find?_cons, h]

/-- A sequence of marks inside the table succeeds; a slot holding `-1` receives the
subpass of its first mark, any other slot keeps its content. -/
theorem markAll_spec (marks : List (Nat × Nat)) :
    ∀ table : List Int, (∀ m ∈ marks, m.1 < table.length) →
      ∃ table', markAll marks table = some table' ∧ table'.length = table.length ∧
        ∀ a, table'[a]? =
          table[a]?.map fun v => if v = -1 then firstMark marks a else v := by
  induction marks with
  | nil =>
    intro table _
    refine ⟨table, rfl, rfl, fun a => ?_⟩
    cases h : table[a]? with
    | none => rfl
    | some v =>
      simp only [Option.map_some', firstMark_nil, Option.some.injEq]
      split <;> simp_all
  | cons m ms ih =>
    intro table hin
    have hm : m.1 < table.length := hin m (List.mem_cons_self _ _)
    obtain ⟨table', h1, h2, h3⟩ := ih
      (table.set m.1 (MarkFirstUse (table.get ⟨m.1, hm⟩) (Int.ofNat m.2)))
      (fun x hx => by
        rw [List.length_set]
        exact hin x (List.mem_cons_of_mem _ hx))
    refine ⟨table', ?_, ?_, fun a => ?_⟩
    · rw [markAll_cons_of_lt m ms table hm, h1]
    · rw [h2, List.length_set]
    · rw [h3 a, List.getElem?_set]
      by_cases hma : m.1 = a
      · subst hma
        have hget : table[m.1]? = some (table.get ⟨m.1, hm⟩) := by
          rw [List.get_eq_getElem, List.getElem?_eq_getElem hm]
        simp only [hm, if_true, hget, Option.map_some', Option.some.injEq,
          firstMark_cons_self]
        unfold MarkFirstUse
        by_cases hv : table.get ⟨m.1, hm⟩ = -1
        · have hne : ¬ Int.ofNat m.2 = -1 := by
            intro hh
            have hnn : (0 : Int) ≤ Int.ofNat m.2 := Int.ofNat_nonneg m.2
            rw [hh] at hnn
            exact absurd hnn (by decide)
          simp only [hv, if_true, hne, if_false]
        · simp only [hv, if_false]
      · simp only [hma, if_false, firstMark_cons_of_ne m ms a hma]

/-- On the fresh table, every slot receives the subpass of its first mark. -/
theorem markAll_replicate (marks : List (Nat × Nat)) (n : Nat)
    (hin : ∀ m ∈ marks, m.1 < n) :
    ∃ table', markAll marks (List.replicate n (-1)) = some table' ∧ table'.length = n ∧
      ∀ a < n, table'[a]? = some (firstMark marks a) := by
  obtain ⟨table', h1, h2, h3⟩ := markAll_spec marks (List.replicate n (-1))
    (fun m hm => by
      rw [List.length_replicate]
      exact hin m hm)
  refine ⟨table', h1, by rw [h2, List.length_replicate], fun a ha => ?_⟩
  rw [h3 a, List.getElem?_replicate]
  simp [ha]

end vk

namespace vk

/-! ## Render pass: the first mark of an attachment -/

theorem find?_marks_of_subpass (l : List Nat) (i a : Nat) :
    (l.map fun b => (b, i)).find? (fun m => m.1 == a) =
      if a ∈ l then some (a, i) else none := by
  induction l with
  | nil => simp
  | cons b l ih =>
    rw [List.map_cons, List.find?_cons]
    by_cases hb : b = a
    · subst hb
      simp
    · have hb' : ¬ a = b := fun h => hb h.symm
      have hbeq : (b == a) = false := by simpa using hb
      simp only [hbeq, List.mem_cons, hb', false_or]
      exact ih

theorem find?_marks_range (f : Nat → List Nat) (a : Nat) (n : Nat) :
    (∃ i < n, a ∈ f i ∧ (∀ k < i, a ∉ f k) ∧
        ((List.range n).flatMap fun i => (f i).map fun b => (b, i)).find?
          (fun m => m.1 == a) = some (a, i)) ∨
      ((∀ i < n, a ∉ f i) ∧
        ((List.range n).flatMap fun i => (f i).map fun b => (b, i)).find?
          (fun m => m.1 == a) = none) := by
  induction n with
  | zero => exact Or.inr ⟨fun i hi => absurd hi (Nat.not_lt_zero i), rfl⟩
  | succ n ih =>
    rw [List.range_succ, List.flatMap_append, List.find?_append]
    simp only [List.flatMap_cons, List.flatMap_nil, List.append_nil]
    rcases ih with ⟨i, hi, hmem, hmin, hfind⟩ | ⟨hnone, hfind⟩
    · exact Or.inl ⟨i, Nat.lt_succ_of_lt hi, hmem, hmin, by rw [hfind]; rfl⟩
    · rw [hfind, find?_marks_of_subpass]
      by_cases hn : a ∈ f n
      · exact Or.inl ⟨n, Nat.lt_succ_self n, hn, hnone, by simp [hn]⟩
      · refine Or.inr ⟨fun i hi => ?_, by simp [hn]⟩
        rcases Nat.lt_succ_iff_lt_or_eq.1 hi with h | h
        · exact hnone i h
        · rw [h]
          exact hn

/-- The first mark of an attachment in a create info is in the first subpass that marks
it. -/
theorem firstMark_allMarks (ci : VkRenderPassCreateInfo) (a : Nat) :
    (∃ i < ci.subpassCount, a ∈ markedAttachments (ci.pSubpasses i) ∧
        (∀ k < i, a ∉ markedAttachments (ci.pSubpasses k)) ∧
        firstMark (allMarks ci) a = Int.ofNat i) ∨
      ((∀ i < ci.subpassCount, a ∉ markedAttachments (ci.pSubpasses i)) ∧
        firstMark (allMarks ci) a = -1) := by
  unfold firstMark allMarks
  rcases find?_marks_range (fun i => markedAttachments (ci.pSubpasses i)) a ci.subpassCount
    with ⟨i, hi, hmem, hmin, hfind⟩ | ⟨hnone, hfind⟩
  · exact Or.inl ⟨i, hi, hmem, hmin, by rw [hfind]⟩
  · exact Or.inr ⟨hnone, by rw [hfind]⟩

theorem mem_allMarks {ci : VkRenderPassCreateInfo} {m : Nat × Nat} (h : m ∈ allMarks ci) :
    m.2 < ci.subpassCount ∧ m.1 ∈ markedAttachments (ci.pSubpasses m.2) := by
  unfold allMarks at h
  simp only [List.mem_flatMap, List.mem_range, List.mem_map] at h
  obtain ⟨i, hi, b, hb, rfl⟩ := h
  exact ⟨hi, hb⟩

theorem mem_markedBy {a b : Nat} : a ∈ markedBy b ↔ b = a ∧ a ≠ VK_ATTACHMENT_UNUSED := by
  unfold markedBy
  by_cases h : b ≠ VK_ATTACHMENT_UNUSED
  · simp only [h, if_true, List.mem_singleton, ne_eq, not_false_eq_true]
    constructor
    · intro e
      subst e
      exact ⟨rfl, h⟩
    · intro e
      exact e.1.symm
  · simp only [h, if_false, List.not_mem_nil, false_iff]
    rintro ⟨rfl, h2⟩
    exact h h2

theorem mem_flatMap_markedBy (n : Nat) (g : Nat → Nat) (a : Nat) :
    a ∈ (List.range n).flatMap (fun j => markedBy (g j)) ↔
      a ≠ VK_ATTACHMENT_UNUSED ∧ ∃ j < n, g j = a := by
  simp only [List.mem_flatMap, List.mem_range, mem_markedBy]
  constructor
  · rintro ⟨j, hj, e, hu⟩
    exact ⟨hu, j, hj, e⟩
  · rintro ⟨hu, j, hj, e⟩
    exact ⟨j, hj, e, hu⟩

theorem any_range_eq_true (n : Nat) (g : Nat → Nat) (a : Nat) :
    (List.range n).any (fun j => g j == a) = true ↔ ∃ j < n, g j = a := by
  simp only [List.any_eq_true, List.mem_range, beq_iff_eq]

theorem references_aux (nu ei ec er ed ep : Prop) :
    ((((nu ∧ ei) ∨ (nu ∧ (ec ∨ er))) ∨ (nu ∧ ed)) ∨ (nu ∧ ep)) ↔
      (nu ∧ ((((ei ∨ ec) ∨ er) ∨ ed) ∨ ep)) := by
  tauto

theorem mem_colorMarks (subpass : VkSubpassDescription) (a : Nat) :
    a ∈ (List.range subpass.colorAttachmentCount).flatMap
        (fun j => markedBy (subpass.pColorAttachments j).attachment
          ++ (match subpass.pResolveAttachments with
              | some pResolveAttachments => markedBy (pResolveAttachments j).attachment
              | none => [])) ↔
      a ≠ VK_ATTACHMENT_UNUSED ∧
        ((∃ j < subpass.colorAttachmentCount, (subpass.pColorAttachments j).attachment = a) ∨
          (match subpass.pResolveAttachments with
            | some pResolveAttachments => (List.range subpass.colorAttachmentCount).any
                (fun j => (pResolveAttachments j).attachment == a)
            | none => false) = true) := by
  cases subpass.pResolveAttachments with
  | none =>
    simp only [List.append_nil, Bool.false_eq_true, or_false]
    exact mem_flatMap_markedBy _ (fun j => (subpass.pColorAttachments j).attachment) a
  | some r =>
    simp only [List.mem_flatMap, List.mem_range, List.mem_append, mem_markedBy,
      List.any_eq_true, beq_iff_eq]
    constructor
    · rintro ⟨j, hj, ⟨e, hu⟩ | ⟨e, hu⟩⟩
      · exact ⟨hu, Or.inl ⟨j, hj, e⟩⟩
      · exact ⟨hu, Or.inr ⟨j, hj, e⟩⟩
    · rintro ⟨hu, ⟨j, hj, e⟩ | ⟨j, hj, e⟩⟩
      · exact ⟨j, hj, Or.inl ⟨e, hu⟩⟩
      · exact ⟨j, hj, Or.inr ⟨e, hu⟩⟩

theorem mem_depthMark (subpass : VkSubpassDescription) (a : Nat) :
    a ∈ (match subpass.pDepthStencilAttachment with
        | some pDepthStencilAttachment => markedBy pDepthStencilAttachment.attachment
        | none => []) ↔
      a ≠ VK_ATTACHMENT_UNUSED ∧
        (match subpass.pDepthStencilAttachment with
          | some pDepthStencilAttachment => pDepthStencilAttachment.attachment == a
          | none => false) = true := by
  cases subpass.pDepthStencilAttachment with
  | none => simp
  | some d =>
    simp only [mem_markedBy, beq_iff_eq]
    exact And.comm

/-- The constructor marks exactly the attachments the subpass references. -/
theorem mem_markedAttachments (subpass : VkSubpassDescription) (a : Nat) :
    a ∈ markedAttachments subpass ↔ referencesAttachment subpass a = true := by
  have h1 := mem_flatMap_markedBy subpass.inputAttachmentCount
    (fun j => (subpass.pInputAttachments j).attachment) a
  have h2 := mem_colorMarks subpass a
  have h3 := mem_depthMark subpass a
  have h4 := mem_flatMap_markedBy subpass.preserveAttachmentCount
    (fun j => subpass.pPreserveAttachments j) a
  have hL := or_congr (or_congr (or_congr h1 h2) h3) h4
  rw [references_aux] at hL
  have hR : referencesAttachment subpass a = true ↔
      (a ≠ VK_ATTACHMENT_UNUSED ∧
        (((((∃ j < subpass.inputAttachmentCount, (subpass.pInputAttachments j).attachment = a) ∨
          (∃ j < subpass.colorAttachmentCount, (subpass.pColorAttachments j).attachment = a)) ∨
          (match subpass.pResolveAttachments with
            | some pResolveAttachments => (List.range subpass.colorAttachmentCount).any
                (fun j => (pResolveAttachments j).attachment == a)
            | none => false) = true) ∨
          (match subpass.pDepthStencilAttachment with
            | some pDepthStencilAttachment => pDepthStencilAttachment.attachment == a
            | none => false) = true) ∨
          (∃ j < subpass.preserveAttachmentCount, subpass.pPreserveAttachments j = a))) := by
    unfold referencesAttachment
    rw [Bool.and_eq_true, Bool.or_eq_true, Bool.or_eq_true, Bool.or_eq_true, Bool.or_eq_true,
      any_range_eq_true _ (fun j => (subpass.pInputAttachments j).attachment),
      any_range_eq_true _ (fun j => (subpass.pColorAttachments j).attachment),
      any_range_eq_true _ (fun j => subpass.pPreserveAttachments j), bne_iff_ne]
  unfold markedAttachments
  rw [List.mem_append, List.mem_append, List.mem_append]
  exact hL.trans hR.symm

end vk

namespace vk

/-! ## Render pass: the claims on the constructor -/

/-- The constructor completes when the assertion holds and every mark is inside the
table the subpass loop starts with. -/
theorem construct_completes (sizeof : Sizeof) (ci : VkRenderPassCreateInfo) (this : RenderPass)
    (hs : 0 < ci.subpassCount)
    (hin : ∀ m ∈ allMarks ci, m.1 <
      (if 0 < ci.attachmentCount then List.replicate ci.attachmentCount (-1)
       else this.attachmentFirstUse).length) :
    ∃ rp placed table, RenderPass.construct sizeof ci this = some (rp, placed) ∧
      markAll (allMarks ci)
        (if 0 < ci.attachmentCount then List.replicate ci.attachmentCount (-1)
         else this.attachmentFirstUse) = some table ∧
      rp.attachmentFirstUse = table := by
  obtain ⟨table, h1, _, _⟩ := markAll_spec (allMarks ci) _ hin
  have e := construct_table sizeof ci this
  rw [if_pos hs, h1, Option.map_eq_some'] at e
  obtain ⟨⟨rp, placed⟩, hc, ht⟩ := e
  exact ⟨rp, placed, table, hc, h1, ht⟩

theorem marks_lt_of_references {ci : VkRenderPassCreateInfo}
    (hv : ∀ i < ci.subpassCount, ∀ a,
      referencesAttachment (ci.pSubpasses i) a = true → a < ci.attachmentCount) :
    ∀ m ∈ allMarks ci, m.1 < ci.attachmentCount := by
  intro m hm
  obtain ⟨h1, h2⟩ := mem_allMarks hm
  exact hv m.2 h1 m.1 ((mem_markedAttachments _ _).1 h2)

/-- Claim C21, amended: when, for every subpass, the number of attachment references
(input and colour references, the resolve references when present, the depth-stencil
reference when present) is below `2 ^ 32`, the bytes the constructor places into its host
memory block are as many as `ComputeRequiredAllocationSize` returns for the same create
info. -/
theorem C21_allocation_size (sizeof : Sizeof) (ci : VkRenderPassCreateInfo) (this : RenderPass)
    (hnb : ∀ i < ci.subpassCount, referenceCount (ci.pSubpasses i) < 2 ^ 32) :
    AllocationSizeExact sizeof ci this := by
  intro rp placed hc
  rw [construct_bytes hc, ComputeRequiredAllocationSize_eq]
  have e : ((List.range ci.subpassCount).map fun i =>
      sizeof.VkSubpassDescription
        + sizeof.VkAttachmentReference * nbAttachments (ci.pSubpasses i)
        + sizeof.uint32_t * (ci.pSubpasses i).preserveAttachmentCount).sum =
      ci.subpassCount * sizeof.VkSubpassDescription
        + ((List.range ci.subpassCount).map fun i =>
            sizeof.VkAttachmentReference * referenceCount (ci.pSubpasses i)
              + sizeof.uint32_t * (ci.pSubpasses i).preserveAttachmentCount).sum := by
    rw [← sum_range_split]
    apply sum_range_congr
    intro i hi
    rw [nbAttachments_eq (hnb i hi)]
    ring
  rw [e]
  ring

/-- Claim C22: after a construction with `attachmentCount > 0` in which every referenced
attachment index is below `attachmentCount`, the first-use table has one entry per
attachment; the entry of attachment `a` is the smallest subpass index whose input, colour,
resolve, depth-stencil or preserve attachments reference `a`, and `-1` when no subpass
references `a`. The construction completes: `subpassCount > 0` is its assertion. -/
theorem C22_attachment_first_use (sizeof : Sizeof) (ci : VkRenderPassCreateInfo)
    (this : RenderPass) (hs : 0 < ci.subpassCount) (ha : 0 < ci.attachmentCount)
    (hv : ∀ i < ci.subpassCount, ∀ a,
      referencesAttachment (ci.pSubpasses i) a = true → a < ci.attachmentCount) :
    ∃ rp placed, RenderPass.construct sizeof ci this = some (rp, placed) ∧
      rp.attachmentFirstUse.length = ci.attachmentCount ∧
      ∀ a < ci.attachmentCount,
        (∃ i < ci.subpassCount, referencesAttachment (ci.pSubpasses i) a = true ∧
          (∀ k < i, referencesAttachment (ci.pSubpasses k) a = false) ∧
          rp.attachmentFirstUse[a]? = some (Int.ofNat i)) ∨
        ((∀ i < ci.subpassCount, referencesAttachment (ci.pSubpasses i) a = false) ∧
          rp.attachmentFirstUse[a]? = some (-1)) := by
  have hin := marks_lt_of_references hv
  obtain ⟨table, h1, h2, h3⟩ := markAll_replicate (allMarks ci) ci.attachmentCount hin
  have e := construct_table sizeof ci this
  rw [if_pos hs, if_pos ha, h1, Option.map_eq_some'] at e
  obtain ⟨⟨rp, placed⟩, hc, ht⟩ := e
  simp only at ht
  refine ⟨rp, placed, hc, by rw [ht, h2], fun a hlt => ?_⟩
  rw [ht, h3 a hlt]
  have hnot : ∀ k, a ∉ markedAttachments (ci.pSubpasses k) →
      referencesAttachment (ci.pSubpasses k) a = false := by
    intro k hk
    cases hr : referencesAttachment (ci.pSubpasses k) a with
    | false => rfl
    | true => exact absurd ((mem_markedAttachments _ _).2 hr) hk
  rcases firstMark_allMarks ci a with ⟨i, hi, hmem, hmin, hf⟩ | ⟨hnone, hf⟩
  · exact Or.inl ⟨i, hi, (mem_markedAttachments _ _).1 hmem,
      fun k hk => hnot k (hmin k hk), by rw [hf]⟩
  · exact Or.inr ⟨fun i hi => hnot i (hnone i hi), by rw [hf]⟩

/-- Claim C23: for a render pass constructed with `subpassCount > 0` (the constructor's
assertion), in every state `s` reached by calls of `begin`, `nextSubpass` and `end`
without an assertion failure: `currentSubpass` is 0 after `begin()` and after `end()`;
`begin()` followed by `k` calls of `nextSubpass()` leaves `currentSubpass = k` when
`k < subpassCount` and fails an assertion otherwise; the assertion of `nextSubpass()`
holds exactly when the new `currentSubpass` is below `subpassCount`; and
`currentSubpass < subpassCount` holds in `s`, provided a call was made or the member's
value at construction was below `subpassCount`. -/
theorem C23_subpass_cursor (sizeof : Sizeof) (ci : VkRenderPassCreateInfo)
    (this rp : RenderPass) (placed : List (Nat × Nat))
    (hc : RenderPass.construct sizeof ci this = some (rp, placed)) :
    0 < rp.subpassCount ∧
      ∀ (calls : List CursorCall) (s : RenderPass), callSequence calls rp = some s →
        s.subpassCount = rp.subpassCount ∧
        s.begin.currentSubpass = 0 ∧ s.end_.currentSubpass = 0 ∧
        (∀ k, callSequence (List.replicate k CursorCall.nextSubpass) s.begin =
          if k < s.subpassCount then
            some ⟨s.attachmentCount, s.subpassCount, s.dependencyCount, k,
              s.attachmentFirstUse⟩
          else none) ∧
        (s.nextSubpass.isSome = true ↔ s.currentSubpass + 1 < s.subpassCount) ∧
        (∀ s', s.nextSubpass = some s' → s'.currentSubpass = s.currentSubpass + 1) ∧
        ((calls ≠ [] ∨ this.currentSubpass < ci.subpassCount) →
          s.currentSubpass < s.subpassCount) := by
  obtain ⟨h0, _, hsc, _, hcur⟩ := construct_members hc
  have h0' : 0 < rp.subpassCount := by rw [hsc]; exact h0
  refine ⟨h0', fun calls s hs => ?_⟩
  obtain ⟨e, hinv⟩ := callSequence_invariant calls rp s hs h0'
  refine ⟨e, rfl, rfl, fun k => ?_, ?_, fun s' hs' => ?_, fun h => ?_⟩
  · rw [callSequence_nextSubpass]
    have hb : s.begin.currentSubpass = 0 := rfl
    have hbs : s.begin.subpassCount = s.subpassCount := rfl
    rw [hb, hbs, Nat.zero_add]
    have hpos : 0 < s.subpassCount := by rw [e]; exact h0'
    by_cases hk : k < s.subpassCount
    · simp only [hk, or_true, if_true]
      rfl
    · have hk0 : ¬ k = 0 := by omega
      simp only [hk, hk0, or_self, if_false]
  · rw [nextSubpass_eq]
    by_cases hlt : s.currentSubpass + 1 < s.subpassCount <;> simp [hlt]
  · rw [nextSubpass_eq] at hs'
    split at hs'
    · simp only [Option.some.injEq] at hs'
      rw [← hs']
    · exact absurd hs' (by simp)
  · apply hinv
    rw [hcur, hsc]
    exact h

end vk

namespace vk

/-! ## Render pass: instances -/

/-- Claim C21, amended, instance: the example create info. The constructor places 496
bytes, the size `ComputeRequiredAllocationSize` returns. -/
theorem C21_allocation_size_witness :
    (∀ i < exampleCreateInfo.subpassCount,
        referenceCount (exampleCreateInfo.pSubpasses i) < 2 ^ 32) ∧
      AllocationSizeExact exampleSizeof exampleCreateInfo exampleObject ∧
      RenderPass.construct exampleSizeof exampleCreateInfo exampleObject =
        some (exampleRenderPass, examplePlaced) ∧
      bytesPlaced examplePlaced = 496 ∧
      RenderPass.ComputeRequiredAllocationSize exampleSizeof exampleCreateInfo = 496 :=
  ⟨by decide, C21_allocation_size exampleSizeof exampleCreateInfo exampleObject (by decide),
    by decide, by decide, by decide⟩

theorem overflowSubpass_unreferenced (a : Nat) :
    referencesAttachment overflowSubpass a = false := by
  cases h : referencesAttachment overflowSubpass a with
  | false => rfl
  | true =>
    exfalso
    unfold referencesAttachment at h
    rw [Bool.and_eq_true, Bool.or_eq_true, Bool.or_eq_true, Bool.or_eq_true, Bool.or_eq_true,
      any_range_eq_true _ (fun j => (overflowSubpass.pInputAttachments j).attachment),
      any_range_eq_true _ (fun j => (overflowSubpass.pColorAttachments j).attachment),
      any_range_eq_true _ (fun j => overflowSubpass.pPreserveAttachments j), bne_iff_ne] at h
    obtain ⟨hu, h⟩ := h
    rcases h with (((⟨j, _, e⟩ | ⟨j, _, e⟩) | h) | h) | ⟨j, _, e⟩
    · exact hu e.symm
    · exact hu e.symm
    · exact Bool.noConfusion h
    · exact Bool.noConfusion h
    · exact hu e.symm

/-- Claim C21 as stated fails where the 32-bit count of references wraps. The subpass has
`2 ^ 32 - 1` input references and one colour reference, both counts unsigned 32-bit
values: `nbAttachments` is `0` in `uint32_t`, so `ComputeRequiredAllocationSize` returns
the 72 bytes of the subpass description, while the constructor, which multiplies each
count in `size_t`, places 72 + 8 * (2 ^ 32 - 1) + 8 bytes. -/
theorem C21_allocation_size_counterexample :
    (overflowSubpass.inputAttachmentCount < 2 ^ 32 ∧
        overflowSubpass.colorAttachmentCount < 2 ^ 32) ∧
      nbAttachments overflowSubpass = 0 ∧
      RenderPass.ComputeRequiredAllocationSize exampleSizeof overflowCreateInfo = 72 ∧
      (RenderPass.construct exampleSizeof overflowCreateInfo exampleObject).map
          (fun r => bytesPlaced r.2) = some 34359738440 ∧
      ¬ AllocationSizeExact exampleSizeof overflowCreateInfo exampleObject := by
  have hin : ∀ m ∈ allMarks overflowCreateInfo, m.1 <
      (if 0 < overflowCreateInfo.attachmentCount then
        List.replicate overflowCreateInfo.attachmentCount (-1)
       else exampleObject.attachmentFirstUse).length := by
    intro m hm
    obtain ⟨_, h2⟩ := mem_allMarks hm
    have h3 := (mem_markedAttachments _ _).1 h2
    have h4 : referencesAttachment overflowSubpass m.1 = false :=
      overflowSubpass_unreferenced m.1
    have h5 : referencesAttachment overflowSubpass m.1 = true := h3
    rw [h4] at h5
    exact absurd h5 (by decide)
  obtain ⟨rp, placed, _, hc, _, _⟩ :=
    construct_completes exampleSizeof overflowCreateInfo exampleObject (by decide) hin
  have hb : bytesPlaced placed = 34359738440 := by
    rw [construct_bytes hc]
    decide
  have hsize : RenderPass.ComputeRequiredAllocationSize exampleSizeof overflowCreateInfo = 72 := by
    decide
  refine ⟨by decide, by decide, hsize, by rw [hc]; simp [hb], fun hex => ?_⟩
  have := hex rp placed hc
  rw [hb, hsize] at this
  exact absurd this (by decide)

/-- Claim C22, instance: the example create info. Attachments 1 and 3 are first used in
subpass 0, attachments 0 and 2 in subpass 1, attachment 4 in none. -/
theorem C22_attachment_first_use_witness :
    (0 < exampleCreateInfo.subpassCount ∧ 0 < exampleCreateInfo.attachmentCount) ∧
      (∃ rp placed, RenderPass.construct exampleSizeof exampleCreateInfo exampleObject =
          some (rp, placed) ∧
        rp.attachmentFirstUse.length = exampleCreateInfo.attachmentCount ∧
        ∀ a < exampleCreateInfo.attachmentCount,
          (∃ i < exampleCreateInfo.subpassCount,
            referencesAttachment (exampleCreateInfo.pSubpasses i) a = true ∧
            (∀ k < i, referencesAttachment (exampleCreateInfo.pSubpasses k) a = false) ∧
            rp.attachmentFirstUse[a]? = some (Int.ofNat i)) ∨
          ((∀ i < exampleCreateInfo.subpassCount,
              referencesAttachment (exampleCreateInfo.pSubpasses i) a = false) ∧
            rp.attachmentFirstUse[a]? = some (-1))) ∧
      (RenderPass.construct exampleSizeof exampleCreateInfo exampleObject).map
          (fun r => r.1.attachmentFirstUse) = some [1, 0, 1, 0, -1] :=
  ⟨⟨by decide, by decide⟩,
    C22_attachment_first_use exampleSizeof exampleCreateInfo exampleObject (by decide)
      (by decide) (by
        intro i hi a h
        have hi2 : i < 2 := hi
        have hcases : a = 0 ∨ a = 1 ∨ a = 2 ∨ a = 3 := by
          interval_cases i <;>
            simp [exampleCreateInfo, exampleSubpass0, exampleSubpass1, referencesAttachment,
              List.range_succ] at h <;> omega
        have h5 : exampleCreateInfo.attachmentCount = 5 := rfl
        omega),
    by decide⟩

/-- Claim C23, instance: the object constructed of the example create info, which has two
subpasses. Every state reached has `currentSubpass < 2`; `begin()` and one
`nextSubpass()` leave `currentSubpass = 1`, a second `nextSubpass()` fails the
assertion. -/
theorem C23_subpass_cursor_witness :
    RenderPass.construct exampleSizeof exampleCreateInfo exampleObject =
        some (exampleRenderPass, examplePlaced) ∧
      (∀ (calls : List CursorCall) (s : RenderPass),
        callSequence calls exampleRenderPass = some s → s.currentSubpass < 2) ∧
      callSequence [CursorCall.begin, CursorCall.nextSubpass] exampleRenderPass =
        some ⟨5, 2, 3, 1, [1, 0, 1, 0, -1]⟩ ∧
      callSequence [CursorCall.begin, CursorCall.nextSubpass, CursorCall.nextSubpass]
        exampleRenderPass = none :=
  ⟨by decide,
    fun calls s hs => by
      have h := (C23_subpass_cursor exampleSizeof exampleCreateInfo exampleObject
        exampleRenderPass examplePlaced (by decide)).2 calls s hs
      have hlt := h.2.2.2.2.2.2 (Or.inr (by decide))
      have hsc : s.subpassCount = 2 := h.1
      omega,
    by decide, by decide⟩

end vk

end sw
